import Mathlib

/-!
# Static-file HTTP server: connection engine and wire protocol

A shallow embedding of `src/http.cpp`, `src/connection.cpp` and the dispatch
part of `worker_loop` in `src/server.cpp`.

* `std::string` is a list of characters (`Str`).
* The operating system is an explicit `World`: the answers of `stat`, `open`,
  `recv`, `send` and `read` are scripts chosen by the environment, and every
  system call the code performs is appended to `World.log`.
* `size_t` values are `Nat`, `off_t`/`int` values are `Int`; the two casts
  `off_t → size_t` of `prepare_response` are explicit (`size_t_of`).
-/

namespace HttpServer

/-! ## Strings -/

/-- A `std::string`: a sequence of bytes. -/
abbrev Str := List Char

/-- `s.find(pat)`: index of the first occurrence of `pat`, `none` for `npos`. -/
def find (pat : Str) : Str → Option Nat
  | [] => if pat.isPrefixOf [] then some 0 else none
  | c :: cs =>
    if pat.isPrefixOf (c :: cs) then some 0
    else (find pat cs).map (· + 1)

/-- `s.rfind(ch)`: index of the last occurrence of the character `ch`. -/
def rfind (ch : Char) : Str → Option Nat
  | [] => none
  | c :: cs =>
    match rfind ch cs with
    | some i => some (i + 1)
    | none => if c = ch then some 0 else none

/-- `::toupper` in the C locale. -/
def toupper (c : Char) : Char :=
  if 'a' ≤ c ∧ c ≤ 'z' then Char.ofNat (c.toNat - 32) else c

/-- `std::transform(s.begin(), s.end(), s.begin(), ::toupper)`. -/
def upper (s : Str) : Str := s.map toupper

/-- `isspace` in the C locale: space, `\t`, `\n`, `\v`, `\f`, `\r`. -/
def isspace (c : Char) : Bool :=
  c = ' ' || c = '\t' || c = '\n' || c = Char.ofNat 11 || c = Char.ofNat 12 || c = '\r'

/-- `std::to_string(n)` and `oss << n` for an unsigned value. -/
def nat_to_string (n : Nat) : Str := Nat.toDigits 10 n

/-- `std::to_string(i)` and `oss << i` for an `int`. -/
def int_to_string (i : Int) : Str :=
  if i < 0 then '-' :: nat_to_string i.natAbs else nat_to_string i.toNat

/-- The cast `(size_t)x` of an `off_t` on a 64-bit target. -/
def size_t_of (x : Int) : Nat := (x % 2 ^ 64).toNat

/-! ## Data model (`connection.hpp`, `config.hpp`) -/

inductive ConnState
  | READING_REQUEST
  | PREPARING_RESPONSE
  | SENDING_HEADERS
  | SENDING_BODY
  | CLOSING
  deriving DecidableEq, Repr

structure Connection where
  fd : Int := -1
  state : ConnState := ConnState.READING_REQUEST
  in_buf : Str := []
  out_buf : Str := []
  out_sent : Nat := 0
  file_fd : Int := -1
  file_offset : Int := 0
  file_size : Int := 0
  keep_alive : Bool := false
  head_only : Bool := false
  status_code : Int := 0
  method : Str := []
  path : Str := []
  deriving DecidableEq, Repr

structure ServerConfig where
  host : Str := "0.0.0.0".toList
  port : Nat := 8080
  doc_root : Str := "./www".toList
  log_path : Str := "./server.log".toList
  workers : Int := 4
  max_file_size : Nat := 128 * 1024 * 1024
  keep_alive_default : Bool := false
  deriving DecidableEq, Repr

/-! ## The environment -/

/-- What `stat` reports about an existing path: `S_ISREG(st_mode)` and `st_size`. -/
structure Stat where
  is_reg : Bool
  st_size : Int
  deriving DecidableEq, Repr

/-- Result of one `recv`: `n > 0` bytes, `n == 0`, `n < 0` with
`errno ∈ {EAGAIN, EWOULDBLOCK}`, or `n < 0` with another `errno`.
`data []` is a return value of `0`. -/
inductive RecvRet
  | data (bs : Str)
  | eof
  | again
  | error
  deriving DecidableEq, Repr

/-- Result of one `send`: `accepted n` is the return value `n ≥ 0`, `again` is
`n < 0` with `errno ∈ {EAGAIN, EWOULDBLOCK}`, `error` any other `n < 0`. -/
inductive SendRet
  | accepted (n : Nat)
  | again
  | error
  deriving DecidableEq, Repr

/-- Result of one `read` on the open file: `got n` is the return value `n ≥ 0`
(the kernel is willing to deliver `n` bytes), `fail` is `-1`. -/
inductive ReadRet
  | got (n : Nat)
  | fail
  deriving DecidableEq, Repr

/-- A system call performed by the code, with its result. -/
inductive Event
  | stat (path : Str)
  | opened (path : Str) (fd : Int)
  | recv (r : RecvRet)
  | send (offered : Str) (r : SendRet)
  | read (fd : Int) (to_read : Int) (r : ReadRet)
  | close (fd : Int)
  | log_error
  deriving DecidableEq, Repr

/-- The operating system as seen by one connection.

* `fs_stat p` is `none` when `stat(p)` fails; `fs_open p` is the value returned by
  `open(p, O_RDONLY)` (negative on failure); `fs_data p` is the content of `p`.
* `recv_script i` is what the `i`-th `recv` finds (the call returns at most as many
  bytes as it asks for); `send_script i k` the
  result of the `i`-th `send` when `k` bytes are offered; `read_script i k` the
  result of the `i`-th `read` when `k` bytes are requested.
* `file_data`/`file_pos` are the content and the kernel offset of the file the
  connection has open; `wire` is every byte the peer has accepted so far;
  `log` is the chronological list of system calls. -/
structure World where
  fs_stat : Str → Option Stat
  fs_open : Str → Int
  fs_data : Str → Str
  recv_script : Nat → RecvRet
  send_script : Nat → Nat → SendRet
  read_script : Nat → Nat → ReadRet
  recv_calls : Nat := 0
  send_calls : Nat := 0
  read_calls : Nat := 0
  file_data : Str := []
  file_pos : Nat := 0
  wire : Str := []
  log : List Event := []

/-- Performs `stat(path, &st)`. -/
def sys_stat (w : World) (path : Str) : Option Stat × World :=
  (w.fs_stat path, { w with log := w.log ++ [Event.stat path] })

/-- Performs `open(path, O_RDONLY)`; a successful open positions the file at 0. -/
def sys_open (w : World) (path : Str) : Int × World :=
  let fd := w.fs_open path
  if fd < 0 then (fd, { w with log := w.log ++ [Event.opened path fd] })
  else (fd, { w with file_data := w.fs_data path, file_pos := 0,
                     log := w.log ++ [Event.opened path fd] })

/-- Performs `close(fd)`. -/
def sys_close (w : World) (fd : Int) : World :=
  { w with log := w.log ++ [Event.close fd] }

/-- Performs `recv(fd, buf, len, 0)`: of the bytes the peer has ready, the call returns
at most `len`. -/
def sys_recv (w : World) (len : Nat) : RecvRet × World :=
  let r :=
    match w.recv_script w.recv_calls with
    | RecvRet.data bs => RecvRet.data (bs.take len)
    | r => r
  (r, { w with recv_calls := w.recv_calls + 1, log := w.log ++ [Event.recv r] })

/-- Performs `send(fd, bytes, bytes.size(), 0)`: the peer receives the first `n`
offered bytes when the call returns `n`. -/
def sys_send (w : World) (offered : Str) : SendRet × World :=
  let r := w.send_script w.send_calls offered.length
  let got : Str :=
    match r with
    | SendRet.accepted n => offered.take n
    | _ => []
  (r, { w with send_calls := w.send_calls + 1, wire := w.wire ++ got,
               log := w.log ++ [Event.send offered r] })

/-- Performs `read(file_fd, file_buf, to_read)`: returns the bytes placed in
`file_buf` (their number is the return value) or `none` for `-1`. The kernel
delivers the next bytes of the open file and advances its offset. -/
def sys_read (w : World) (fd : Int) (to_read : Int) : Option Str × World :=
  let r := w.read_script w.read_calls to_read.toNat
  match r with
  | ReadRet.got n =>
    let bs := (w.file_data.drop w.file_pos).take n
    (some bs, { w with read_calls := w.read_calls + 1, file_pos := w.file_pos + bs.length,
                       log := w.log ++ [Event.read fd to_read r] })
  | ReadRet.fail =>
    (none, { w with read_calls := w.read_calls + 1, log := w.log ++ [Event.read fd to_read r] })

/-! ## Wire protocol (`http.cpp`) -/

def contains_dotdot (p : Str) : Bool :=
  (find "..".toList p).isSome

/-- `std::getline(iss, line)`: the characters before the first `\n`; fails
(`none`) when the stream holds no character at all. -/
def getline (s : Str) : Option Str :=
  if s = [] then none else some (s.takeWhile (· ≠ '\n'))

/-- An `std::istringstream` during formatted extraction: the unread characters
and whether `good()` still holds. -/
structure IStream where
  buf : Str
  good : Bool
  deriving DecidableEq, Repr

/-- The extraction `is >> var` into a `std::string` holding `old`. When the stream is
not good, or only whitespace is left, the sentry fails and `var` keeps `old`;
otherwise `var` is erased and receives the next whitespace-delimited token
(reaching the end of the stream sets `eofbit`). -/
def extract (is : IStream) (old : Str) : Str × IStream :=
  if is.good then
    let rest := is.buf.dropWhile isspace
    if rest = [] then (old, { buf := [], good := false })
    else
      let after := rest.dropWhile (fun c => !isspace c)
      (rest.takeWhile (fun c => !isspace c), { buf := after, good := !after.isEmpty })
  else (old, is)

def parse_request (c : Connection) : Bool × Connection :=
  match find "\r\n\r\n".toList c.in_buf with
  | none => (false, c)
  | some pos =>
    match getline (c.in_buf.take pos) with
    | none => (false, c)
    | some line =>
      let request_line := if line.getLast? = some '\r' then line.dropLast else line
      let rl : IStream := { buf := request_line, good := true }
      let m := extract rl c.method
      let p := extract m.2 c.path
      let c1 := { c with method := m.1, path := p.1 }
      if c1.method = [] ∨ c1.path = [] then (false, c1)
      else (true, { c1 with head_only := decide (upper c1.method = "HEAD".toList) })

def build_status_text (code : Int) : Str :=
  if code = 200 then "OK".toList
  else if code = 403 then "Forbidden".toList
  else if code = 404 then "Not Found".toList
  else if code = 405 then "Method Not Allowed".toList
  else "Unknown".toList

def get_mime_type (path : Str) : Str :=
  match rfind '.' path with
  | none => "application/octet-stream".toList
  | some dot =>
    let ext := path.drop (dot + 1)
    if ext = "html".toList ∨ ext = "htm".toList then "text/html; charset=utf-8".toList
    else if ext = "css".toList then "text/css; charset=utf-8".toList
    else if ext = "js".toList then "application/javascript".toList
    else if ext = "png".toList then "image/png".toList
    else if ext = "jpg".toList ∨ ext = "jpeg".toList then "image/jpeg".toList
    else if ext = "gif".toList then "image/gif".toList
    else if ext = "txt".toList then "text/plain; charset=utf-8".toList
    else "application/octet-stream".toList

def build_headers (status : Int) (content_length : Nat) (content_type : Str)
    (keep_alive : Bool) : Str :=
  "HTTP/1.1 ".toList ++ int_to_string status ++ " ".toList ++ build_status_text status
    ++ "\r\n".toList
  ++ ("Content-Length: ".toList ++ nat_to_string content_length ++ "\r\n".toList)
  ++ ("Content-Type: ".toList ++ content_type ++ "\r\n".toList)
  ++ ("Connection: ".toList ++ (if keep_alive then "keep-alive".toList else "close".toList)
      ++ "\r\n".toList)
  ++ (if status = 405 then "Allow: GET, HEAD\r\n".toList else [])
  ++ "\r\n".toList

def build_simple_html (status : Int) (msg : Str) : Str :=
  "<html><body><h1>".toList ++ int_to_string status ++ " ".toList ++
    build_status_text status ++ "</h1><p>".toList ++ msg ++ "</p></body></html>".toList

/-- The block repeated on every error branch of `prepare_response`:
`status_code`, `out_buf` (headers, plus the body unless `head_only`) and the
state are assigned; nothing else is touched. -/
def error_reply (c : Connection) (status : Int) (msg : Str) : Connection :=
  let body := build_simple_html status msg
  let hdr := build_headers status body.length "text/html; charset=utf-8".toList c.keep_alive
  { c with status_code := status,
           out_buf := if c.head_only then hdr else hdr ++ body,
           state := ConnState.SENDING_HEADERS }

/-- The target after the two rewrites at the top of `prepare_response`: an empty
or non-absolute target becomes `/`, and `/` becomes `/index.html`. -/
def normalize_target (path : Str) : Str :=
  let url_path := if path = [] ∨ path.head? ≠ some '/' then "/".toList else path
  if url_path = "/".toList then "/index.html".toList else url_path

/-- The function `prepare_response` of `http.cpp`; the C function always returns `true`. -/
def prepare_response (c : Connection) (cfg : ServerConfig) (w : World) : Connection × World :=
  let method := upper c.method
  let c := { c with keep_alive := cfg.keep_alive_default }
  if method ≠ "GET".toList ∧ method ≠ "HEAD".toList then
    (error_reply c 405 "Method not allowed".toList, w)
  else
    let url_path := normalize_target c.path
    if contains_dotdot url_path then
      (error_reply c 403 "Forbidden".toList, w)
    else
      let fs_path := cfg.doc_root ++ url_path
      match sys_stat w fs_path with
      | (none, w) => (error_reply c 404 "Not found".toList, w)
      | (some st, w) =>
        if !st.is_reg then (error_reply c 403 "Forbidden".toList, w)
        else if size_t_of st.st_size > cfg.max_file_size then
          (error_reply c 403 "File too large".toList, w)
        else
          let c := { c with file_size := st.st_size, file_offset := 0 }
          let mime := get_mime_type fs_path
          let c := { c with status_code := 200 }
          let content_len := if c.head_only then 0 else size_t_of c.file_size
          let c := { c with out_buf := build_headers 200 content_len mime c.keep_alive,
                            out_sent := 0 }
          if c.head_only then
            ({ c with state := ConnState.SENDING_HEADERS }, w)
          else
            match sys_open w fs_path with
            | (fd, w) =>
              let c := { c with file_fd := fd }
              if fd < 0 then
                let c := { error_reply c 404 "Not found".toList with
                             file_size := 0, file_offset := 0 }
                (c, w)
              else
                ({ c with state := ConnState.SENDING_HEADERS }, w)

/-! ## Connection state machine (`connection.cpp`) -/

def READ_CHUNK : Nat := 4096

def FILE_CHUNK : Nat := 16 * 1024

/-- The assignments `want_close = true; conn.state = ConnState::CLOSING`. -/
def abort_conn (conn : Connection) (w : World) : Connection × Bool × World :=
  ({ conn with state := ConnState.CLOSING }, true, w)

/-- The loop `while (keep_reading)` of `handle_read`. Every pass that continues has
appended at least one byte and left at most 16 KiB in `in_buf`, so
`16 * 1024 - in_buf.size() + 1` passes always suffice (`handle_read_loop_fuel`). -/
def handle_read_loop (cfg : ServerConfig) : Nat → Connection → World → Connection × Bool × World
  | 0, conn, w => (conn, false, w)
  | fuel + 1, conn, w =>
    match sys_recv w READ_CHUNK with
    | (RecvRet.data bs, w) =>
      if bs.length > 0 then
        let conn := { conn with in_buf := conn.in_buf ++ bs }
        if (find "\r\n\r\n".toList conn.in_buf).isSome then
          match parse_request conn with
          | (false, conn) => abort_conn conn w
          | (true, conn) =>
            match prepare_response conn cfg w with
            | (conn, w) => (conn, false, w)
        else if conn.in_buf.length > 16 * 1024 then abort_conn conn w
        else handle_read_loop cfg fuel conn w
      else abort_conn conn w
    | (RecvRet.eof, w) => abort_conn conn w
    | (RecvRet.again, w) => (conn, false, w)
    | (RecvRet.error, w) => abort_conn conn { w with log := w.log ++ [Event.log_error] }

/-- The function `handle_read`: the new connection, `want_close`, the new environment. -/
def handle_read (conn : Connection) (cfg : ServerConfig) (w : World) :
    Connection × Bool × World :=
  if conn.state ≠ ConnState.READING_REQUEST then (conn, false, w)
  else handle_read_loop cfg (16 * 1024 - conn.in_buf.length + 1) conn w

/-- How a send loop ends: buffer exhausted, would-block, or hard error. -/
inductive Drain
  | drained
  | blocked
  | failed
  deriving DecidableEq, Repr

/-- The loop `while (conn.out_sent < conn.out_buf.size())` of `handle_write`. Every
pass that continues has advanced `out_sent`, so `out_buf.size() - out_sent`
passes always suffice (`drain_out_buf_fuel`). -/
def drain_out_buf : Nat → Connection → World → Drain × Connection × World
  | 0, conn, w => (Drain.drained, conn, w)
  | fuel + 1, conn, w =>
    if conn.out_sent < conn.out_buf.length then
      match sys_send w (conn.out_buf.drop conn.out_sent) with
      | (SendRet.accepted n, w) =>
        if n > 0 then drain_out_buf fuel { conn with out_sent := conn.out_sent + n } w
        else (Drain.failed, { conn with state := ConnState.CLOSING }, w)
      | (SendRet.again, w) => (Drain.blocked, conn, w)
      | (SendRet.error, w) => (Drain.failed, { conn with state := ConnState.CLOSING }, w)
    else (Drain.drained, conn, w)

/-- The loop `while (sent_total < r)` of `handle_write` over the chunk `file_buf`
of `r = file_buf.length` bytes; on would-block the unsent remainder becomes
`out_buf`. `r - sent_total` passes always suffice (`send_chunk_fuel`). -/
def send_chunk (file_buf : Str) : Nat → Nat → Connection → World → Drain × Connection × World
  | 0, _, conn, w => (Drain.drained, conn, w)
  | fuel + 1, sent_total, conn, w =>
    if sent_total < file_buf.length then
      match sys_send w (file_buf.drop sent_total) with
      | (SendRet.accepted n, w) =>
        if n > 0 then send_chunk file_buf fuel (sent_total + n) conn w
        else (Drain.failed, { conn with state := ConnState.CLOSING }, w)
      | (SendRet.again, w) =>
        (Drain.blocked, { conn with out_buf := file_buf.drop sent_total, out_sent := 0 }, w)
      | (SendRet.error, w) => (Drain.failed, { conn with state := ConnState.CLOSING }, w)
    else (Drain.drained, conn, w)

/-- The state after a finished response: `CLOSING` or `READING_REQUEST`. -/
def next_state (want_close : Bool) : ConnState :=
  if want_close then ConnState.CLOSING else ConnState.READING_REQUEST

/-- The last block of `handle_write`: `if (conn.file_offset >= conn.file_size)`. -/
def body_complete (conn : Connection) (w : World) : Connection × Bool × World :=
  if conn.file_offset ≥ conn.file_size then
    let cw : Connection × World :=
      if conn.file_fd ≥ 0 then ({ conn with file_fd := -1 }, sys_close w conn.file_fd)
      else (conn, w)
    let want_close := !cw.1.keep_alive
    ({ cw.1 with state := next_state want_close, in_buf := [], out_buf := [], out_sent := 0 },
      want_close, cw.2)
  else (conn, false, w)

/-- The block `if (conn.state == ConnState::SENDING_BODY)` of `handle_write`. -/
def send_body (conn : Connection) (w : World) : Connection × Bool × World :=
  if conn.state = ConnState.SENDING_BODY then
    if conn.file_offset < conn.file_size then
      let to_read : Int :=
        if conn.file_size - conn.file_offset < FILE_CHUNK then conn.file_size - conn.file_offset
        else FILE_CHUNK
      match sys_read w conn.file_fd to_read with
      | (some file_buf, w) =>
        if file_buf.length > 0 then
          let conn := { conn with file_offset := conn.file_offset + file_buf.length }
          match send_chunk file_buf file_buf.length 0 conn w with
          | (Drain.drained, conn, w) => body_complete conn w
          | (Drain.blocked, conn, w) => (conn, false, w)
          | (Drain.failed, conn, w) => (conn, true, w)
        else body_complete { conn with file_offset := conn.file_size } w
      | (none, w) => body_complete { conn with file_offset := conn.file_size } w
    else body_complete conn w
  else (conn, false, w)

/-- The function `handle_write`: the new connection, `want_close`, the new environment. -/
def handle_write (conn : Connection) (w : World) : Connection × Bool × World :=
  if conn.state ≠ ConnState.SENDING_HEADERS ∧ conn.state ≠ ConnState.SENDING_BODY then
    (conn, false, w)
  else
    match drain_out_buf (conn.out_buf.length - conn.out_sent) conn w with
    | (Drain.blocked, conn, w) => (conn, false, w)
    | (Drain.failed, conn, w) => (conn, true, w)
    | (Drain.drained, conn, w) =>
      if conn.state = ConnState.SENDING_HEADERS then
        if conn.head_only ∨ conn.file_size = 0 ∨ conn.file_fd < 0 then
          let want_close := !conn.keep_alive
          let conn := { conn with state := next_state want_close, in_buf := [], out_buf := [],
                                  out_sent := 0 }
          if conn.file_fd ≥ 0 then
            ({ conn with file_fd := -1 }, want_close, sys_close w conn.file_fd)
          else (conn, want_close, w)
        else
          send_body { conn with state := ConnState.SENDING_BODY, out_buf := [], out_sent := 0 } w
      else send_body conn w

/-! ## Event loop (`worker_loop` in `server.cpp`) -/

def FD_SETSIZE : Int := 1024

/-- An entry of the map `conns`: the key, the connection and the environment of its
socket. The list order stands for the iteration order of the `unordered_map`. -/
structure Slot where
  fd : Int
  conn : Connection
  world : World

/-- What the kernel does during one iteration: whether `server_running` was cleared
while `pselect` was waiting, whether `pselect` returned a negative value, which
descriptors are ready, and the sockets `accept` returns before it would-blocks
or fails (each with the environment of the new socket). -/
structure Readiness where
  stop : Bool
  failed : Bool
  readable : Int → Bool
  writable : Int → Bool
  accepts : List (Int × World)

/-- Membership in `readfds` as filled by the first loop of an iteration. -/
def read_interest (listen_fd : Int) (conns : List Slot) (fd : Int) : Bool :=
  fd = listen_fd ||
    conns.any (fun s => s.fd = fd && s.conn.state = ConnState.READING_REQUEST)

/-- Membership in `writefds` as filled by the first loop of an iteration. -/
def write_interest (conns : List Slot) (fd : Int) : Bool :=
  conns.any (fun s => s.fd = fd &&
    (s.conn.state = ConnState.SENDING_HEADERS || s.conn.state = ConnState.SENDING_BODY))

/-- The call `conns.emplace(client_fd, std::move(c))`: no effect when the key exists. -/
def emplace (conns : List Slot) (s : Slot) : List Slot :=
  if conns.any (fun t => t.fd = s.fd) then conns else conns ++ [s]

/-- The accept loop: a descriptor `>= FD_SETSIZE` is closed at once, any other is
admitted as a fresh connection. -/
def accept_all (conns : List Slot) : List (Int × World) → List Slot
  | [] => conns
  | (client_fd, w) :: rest =>
    if client_fd ≥ FD_SETSIZE then accept_all conns rest
    else accept_all (emplace conns { fd := client_fd, conn := { fd := client_fd }, world := w }) rest

/-- The body of the read dispatch loop for one entry: the entry afterwards and
whether its key is pushed on `to_close`. -/
def serve_read (cfg : ServerConfig) (readfds : Int → Bool) (s : Slot) : Slot × Bool :=
  if readfds s.fd then
    ({ s with conn := (handle_read s.conn cfg s.world).1,
              world := (handle_read s.conn cfg s.world).2.2 },
      (handle_read s.conn cfg s.world).2.1)
  else (s, false)

/-- The body of the write dispatch loop for one entry. -/
def serve_write (writefds : Int → Bool) (s : Slot) : Slot × Bool :=
  if writefds s.fd then
    ({ s with conn := (handle_write s.conn s.world).1,
              world := (handle_write s.conn s.world).2.2 },
      (handle_write s.conn s.world).2.1)
  else (s, false)

/-- The keys pushed on `to_close` by a dispatch loop, in order. -/
def closing_keys (served : List (Slot × Bool)) : List Int :=
  served.filterMap (fun p => if p.2 then some p.1.fd else none)

/-- The reap loop over `to_close`: a key still in the map has its file handle (if
any) and its socket closed and its entry erased. Returns the live entries and
the entries removed, the latter with the two `close` calls in their log. -/
def reap (conns reaped : List Slot) : List Int → List Slot × List Slot
  | [] => (conns, reaped)
  | fd :: rest =>
    match conns.find? (fun s => s.fd = fd) with
    | none => reap conns reaped rest
    | some s =>
      let w1 := if s.conn.file_fd ≥ 0 then sys_close s.world s.conn.file_fd else s.world
      reap (conns.eraseP (fun t => t.fd = fd)) (reaped ++ [{ s with world := sys_close w1 fd }])
        rest

/-- One iteration of the `while (server_running)` loop of `worker_loop`: the live
entries and the entries reaped at its end. `pselect` leaves in each set only
descriptors that were put there and are ready. -/
def worker_iteration (listen_fd : Int) (cfg : ServerConfig) (conns : List Slot)
    (k : Readiness) : List Slot × List Slot :=
  let readfds := fun fd => read_interest listen_fd conns fd && k.readable fd
  let writefds := fun fd => write_interest conns fd && k.writable fd
  if k.stop then (conns, [])
  else if k.failed then (conns, [])
  else
    let conns := if readfds listen_fd then accept_all conns k.accepts else conns
    let rd := conns.map (serve_read cfg readfds)
    let wr := (rd.map Prod.fst).map (serve_write writefds)
    reap (wr.map Prod.fst) [] (closing_keys rd ++ closing_keys wr)

/-! ## Specification vocabulary and concrete inputs -/

/-- The status line `HTTP/1.1 <code> <reason>\r\n`. -/
def status_line (status : Int) : Str :=
  "HTTP/1.1 ".toList ++ int_to_string status ++ " ".toList ++ build_status_text status
    ++ "\r\n".toList

/-- A concrete environment: an empty document root, a peer that sends nothing
and accepts everything offered. -/
def empty_root : World where
  fs_stat := fun _ => none
  fs_open := fun _ => -1
  fs_data := fun _ => []
  recv_script := fun _ => RecvRet.again
  send_script := fun _ k => SendRet.accepted k
  read_script := fun _ k => ReadRet.got k

/-- A concrete environment: the document root `./www` holds exactly a 10-byte
regular file `index.html`. -/
def index_only : World where
  fs_stat := fun p => if p = "./www/index.html".toList then some ⟨true, 10⟩ else none
  fs_open := fun p => if p = "./www/index.html".toList then 5 else -1
  fs_data := fun p => if p = "./www/index.html".toList then "0123456789".toList else []
  recv_script := fun _ => RecvRet.again
  send_script := fun _ k => SendRet.accepted k
  read_script := fun _ k => ReadRet.got k

/-- The connection after `parse_request` has read the bytes `raw` on a fresh connection. -/
def parsed (raw : String) : Connection :=
  (parse_request { in_buf := raw.toList }).2

/-- The body of every 405 answer. -/
def body_405 : Str :=
  "<html><body><h1>405 Method Not Allowed</h1><p>Method not allowed</p></body></html>".toList

/-- The body of the 404 answer for a missing path. -/
def body_404 : Str :=
  "<html><body><h1>404 Not Found</h1><p>Not found</p></body></html>".toList

/-- Repeated write-ready notifications: `handle_write` called `n` times in a row. -/
def write_calls : Nat → Connection → World → Connection × World
  | 0, conn, w => (conn, w)
  | n + 1, conn, w => write_calls n (handle_write conn w).1 (handle_write conn w).2.2

/-- A transport without hard errors: every `send` that is offered `k > 0` bytes either
reports would-block or accepts between 1 and `k` bytes. -/
def polite_send (w : World) : Prop :=
  ∀ i k, 0 < k → w.send_script i k = SendRet.again ∨
    ∃ n, w.send_script i k = SendRet.accepted n ∧ 0 < n ∧ n ≤ k

/-- File reads that deliver: asked for `k > 0` bytes, `read` returns between 1 and
`k` bytes (which `sys_read` takes from the file, in order). -/
def orderly_reads (w : World) : Prop :=
  ∀ i k, 0 < k → ∃ n, w.read_script i k = ReadRet.got n ∧ 0 < n ∧ n ≤ k

/-- The bytes a connection still owes its peer while it serves the file content `F`. -/
def pending (F : Str) (conn : Connection) : Str :=
  match conn.state with
  | ConnState.SENDING_HEADERS => conn.out_buf.drop conn.out_sent ++ F
  | ConnState.SENDING_BODY => conn.out_buf.drop conn.out_sent ++ F.drop conn.file_offset.toNat
  | _ => []

/-- The invariant of a 200 transfer of the file content `F` whose complete byte
stream is `T`. -/
def Transfer (F T : Str) (conn : Connection) (w : World) : Prop :=
  w.wire ++ pending F conn = T ∧ w.file_data = F ∧ conn.file_size = F.length ∧
  conn.out_sent ≤ conn.out_buf.length ∧ polite_send w ∧ orderly_reads w ∧
  (conn.state = ConnState.SENDING_HEADERS →
    conn.file_offset = 0 ∧ w.file_pos = 0 ∧ 0 ≤ conn.file_fd ∧ conn.head_only = false) ∧
  (conn.state = ConnState.SENDING_BODY →
    conn.file_offset = w.file_pos ∧ w.file_pos ≤ F.length) ∧
  conn.state ≠ ConnState.PREPARING_RESPONSE

/-- A concrete environment: `./www/a.png` is a 5-byte regular file, the peer has sent
`GET /a.png HTTP/1.1` and its socket would-blocks after every 2 bytes. -/
def slow_peer : World where
  fs_stat := fun p => if p = "./www/a.png".toList then some ⟨true, 5⟩ else none
  fs_open := fun p => if p = "./www/a.png".toList then 5 else -1
  fs_data := fun p => if p = "./www/a.png".toList then "\x89PNG\n".toList else []
  recv_script := fun i =>
    if i = 0 then RecvRet.data "GET /a.png HTTP/1.1\r\n\r\n".toList else RecvRet.again
  send_script := fun i k => if i % 2 = 1 then SendRet.again else SendRet.accepted (min 2 k)
  read_script := fun _ k => ReadRet.got k

/-- Two environments that differ only by `send` calls. -/
def after_sends (w w2 : World) : Prop :=
  w2.send_script = w.send_script ∧ w2.read_script = w.read_script ∧
  w2.file_data = w.file_data ∧ w2.file_pos = w.file_pos

/-- A peer that sends a well-formed request and, once answered, a request line
holding the single token `GET`. The document root is empty. -/
def one_token_peer : World where
  fs_stat := fun _ => none
  fs_open := fun _ => -1
  fs_data := fun _ => []
  recv_script := fun i =>
    if i = 0 then RecvRet.data "GET /index.html HTTP/1.1\r\n\r\n".toList
    else if i = 1 then RecvRet.data "GET\r\n\r\n".toList
    else RecvRet.again
  send_script := fun _ k => SendRet.accepted k
  read_script := fun _ k => ReadRet.got k

/-- The keep-alive configuration. -/
def keep_alive_cfg : ServerConfig := { keep_alive_default := true }

/-- The connection and environment after the first request of `one_token_peer` has
been read and answered on a fresh connection. -/
def recycled : Connection × Bool × World :=
  handle_write (handle_read {} keep_alive_cfg one_token_peer).1
    (handle_read {} keep_alive_cfg one_token_peer).2.2

/-- A peer whose complete request `GET /index.html HTTP/1.1` is waiting in the socket
buffer and whose socket accepts everything offered. -/
def eager_peer : World where
  fs_stat := fun p => if p = "./www/index.html".toList then some ⟨true, 10⟩ else none
  fs_open := fun p => if p = "./www/index.html".toList then 5 else -1
  fs_data := fun p => if p = "./www/index.html".toList then "0123456789".toList else []
  recv_script := fun i =>
    if i = 0 then RecvRet.data "GET /index.html HTTP/1.1\r\n\r\n".toList else RecvRet.again
  send_script := fun _ k => SendRet.accepted k
  read_script := fun _ k => ReadRet.got k

/-- A `pselect` result in which every descriptor is ready for reading and writing
and no new connection is waiting. -/
def all_ready : Readiness where
  stop := false
  failed := false
  readable := fun _ => true
  writable := fun _ => true
  accepts := []

/-- What an observer sees of an entry: key, state, number of `send` calls, bytes on
the wire. -/
def Slot.view (s : Slot) : Int × ConnState × Nat × Str :=
  (s.fd, s.conn.state, s.world.send_calls, s.world.wire)

/-- Nothing was sent between two environments. -/
def quiet (w w2 : World) : Prop :=
  w2.wire = w.wire ∧ w2.send_calls = w.send_calls

/-- The key of `s` belongs to `s` alone in `L`. -/
def sole_key (s : Slot) (L : List Slot) : Prop :=
  s ∈ L ∧ ∀ t ∈ L, t.fd = s.fd → t = s

/-- The entry of a freshly accepted connection with key 7 whose peer is `eager_peer`. -/
def eager_slot : Slot := { fd := 7, conn := { fd := 7 }, world := eager_peer }

/-! ## Reachable connection states and assumptions on the environment -/

/-- `send` never reports more bytes than it was offered. -/
def tame_send (w : World) : Prop :=
  ∀ i k n, w.send_script i k = SendRet.accepted n → n ≤ k

/-- `read` never returns more bytes than were requested. -/
def tame_read (w : World) : Prop :=
  ∀ i k n, w.read_script i k = ReadRet.got n → n ≤ k

/-- `stat` reports a non-negative size. -/
def stat_nonneg (w : World) : Prop :=
  ∀ p st, w.fs_stat p = some st → 0 ≤ st.st_size

/-- A failing `open` returns `-1`. -/
def posix_open (w : World) : Prop :=
  ∀ p, w.fs_open p < 0 → w.fs_open p = -1

/-- Two environments answer every system call alike. -/
def same_oracles (w w2 : World) : Prop :=
  w2.fs_stat = w.fs_stat ∧ w2.fs_open = w.fs_open ∧ w2.fs_data = w.fs_data ∧
  w2.recv_script = w.recv_script ∧ w2.send_script = w.send_script ∧
  w2.read_script = w.read_script

/-- The filesystem changed between two handler calls; nothing else did. -/
def fs_drift (w w2 : World) : Prop :=
  w2 = { w with fs_stat := w2.fs_stat, fs_open := w2.fs_open, fs_data := w2.fs_data }

/-- The descriptors returned by successful `open` calls, in order. -/
def opens (log : List Event) : List Int :=
  log.filterMap (fun e =>
    match e with
    | Event.opened _ fd => if 0 ≤ fd then some fd else none
    | _ => none)

/-- The descriptors passed to `close`, in order. -/
def closes (log : List Event) : List Int :=
  log.filterMap (fun e =>
    match e with
    | Event.close fd => some fd
    | _ => none)

/-- The bytes offered to `send`, call by call. -/
def sends (log : List Event) : List Str :=
  log.filterMap (fun e =>
    match e with
    | Event.send offered _ => some offered
    | _ => none)

/-- Two environments with the same oracles and the same history of `open` and
`close` calls. -/
def no_file_event (w w2 : World) : Prop :=
  same_oracles w w2 ∧ opens w2.log = opens w.log ∧ closes w2.log = closes w.log

/-- The connection states and environments that the handlers can produce: a fresh
connection (as built by the accept loop, before any system call on it), then any
sequence of `handle_read` and `handle_write` calls, the filesystem being free to
change between two calls. `env` is what is assumed of every environment met. -/
inductive Reachable (cfg : ServerConfig) (env : World → Prop) : Connection → World → Prop
  | fresh (fd : Int) (w : World) : env w → w.log = [] → Reachable cfg env { fd := fd } w
  | drift (c : Connection) (w w2 : World) :
      Reachable cfg env c w → fs_drift w w2 → env w2 → Reachable cfg env c w2
  | read (c : Connection) (w : World) :
      Reachable cfg env c w →
      Reachable cfg env (handle_read c cfg w).1 (handle_read c cfg w).2.2
  | write (c : Connection) (w : World) :
      Reachable cfg env c w →
      Reachable cfg env (handle_write c w).1 (handle_write c w).2.2

/-! ## The header block in the words of the specification -/

/-- The lines of a header block: the status line, one `Content-Length`, one
`Content-Type`, one `Connection`, an `Allow` line exactly for 405, and the
empty line that ends the block. -/
def spec_header_lines (code : Int) (n : Nat) (type : Str) (keep_alive : Bool) : List Str :=
  ["HTTP/1.1 ".toList ++ int_to_string code ++ " ".toList ++ build_status_text code,
   "Content-Length: ".toList ++ nat_to_string n,
   "Content-Type: ".toList ++ type,
   if keep_alive then "Connection: keep-alive".toList else "Connection: close".toList]
  ++ (if code = 405 then ["Allow: GET, HEAD".toList] else [])
  ++ [[]]

/-- Every line followed by CRLF. -/
def join_crlf : List Str → Str
  | [] => []
  | l :: ls => l ++ "\r\n".toList ++ join_crlf ls

/-- The header block of the specification. -/
def spec_header_block (code : Int) (n : Nat) (type : Str) (keep_alive : Bool) : Str :=
  join_crlf (spec_header_lines code n type keep_alive)

/-- A string that holds neither CR nor LF, so that it is a single line. -/
def one_line (s : Str) : Prop := '\r' ∉ s ∧ '\n' ∉ s

/-- A concrete environment: `./www/index.html` is a regular 10-byte file that cannot
be opened. -/
def unreadable_index : World where
  fs_stat := fun p => if p = "./www/index.html".toList then some ⟨true, 10⟩ else none
  fs_open := fun _ => -1
  fs_data := fun _ => []
  recv_script := fun _ => RecvRet.again
  send_script := fun _ k => SendRet.accepted k
  read_script := fun _ k => ReadRet.got k

/-- What any part of `handle_write` may do to a connection and its environment: the
request fields, `fd` and `file_size` stay; no `open` is made; the file handle is
either kept, or was open and is closed once and replaced by `-1`; the two buffer
invariants are kept; `in_buf` is kept or cleared; and a connection found in
`READING_REQUEST` afterwards is either untouched or recycled clean. -/
def Wrote (conn : Connection) (w : World) (c2 : Connection) (w2 : World) : Prop :=
  c2.fd = conn.fd ∧ c2.file_size = conn.file_size ∧ c2.keep_alive = conn.keep_alive ∧
  c2.head_only = conn.head_only ∧ c2.status_code = conn.status_code ∧
  c2.method = conn.method ∧ c2.path = conn.path ∧
  same_oracles w w2 ∧ opens w2.log = opens w.log ∧
  ((c2.file_fd = conn.file_fd ∧ closes w2.log = closes w.log) ∨
    (0 ≤ conn.file_fd ∧ c2.file_fd = -1 ∧ closes w2.log = closes w.log ++ [conn.file_fd])) ∧
  (tame_send w → conn.out_sent ≤ conn.out_buf.length → c2.out_sent ≤ c2.out_buf.length) ∧
  (tame_read w → 0 ≤ conn.file_offset → conn.file_offset ≤ conn.file_size →
    0 ≤ c2.file_offset ∧ c2.file_offset ≤ conn.file_size) ∧
  (c2.in_buf = conn.in_buf ∨ c2.in_buf = []) ∧
  (c2.state = ConnState.READING_REQUEST →
    c2 = conn ∨ (c2.in_buf = [] ∧ c2.out_buf = [] ∧ c2.out_sent = 0 ∧ c2.file_fd < 0)) ∧
  (c2.state = ConnState.PREPARING_RESPONSE → conn.state = ConnState.PREPARING_RESPONSE)

/-- The connection and environment after the request of `slow_peer` has been read and
answered on a fresh connection. -/
def slow_answered : Connection × Bool × World := handle_read {} {} slow_peer

/-- The connection and environment after one `handle_write` on `slow_answered`: the
socket took two bytes of the header and then would block. -/
def slow_written : Connection × Bool × World :=
  handle_write slow_answered.1 slow_answered.2.2

/-- The connection and environment after the request of `eager_peer` has been read
and answered on a fresh keep-alive connection: a 200 with the file open. -/
def eager_answered : Connection × Bool × World := handle_read {} keep_alive_cfg eager_peer

/-- The entry `t` after the reap step has closed its file handle, if one is open, and
then its socket. -/
def closed_entry (t : Slot) : Slot :=
  { t with world :=
      sys_close (if t.conn.file_fd ≥ 0 then sys_close t.world t.conn.file_fd else t.world) t.fd }

/-- A peer that keeps sending bytes `a` without any terminator: every `recv` finds
5000 bytes ready, of which the call takes a full chunk. -/
def flood_peer : World where
  fs_stat := fun _ => none
  fs_open := fun _ => -1
  fs_data := fun _ => []
  recv_script := fun _ => RecvRet.data (List.replicate 5000 'a')
  send_script := fun _ k => SendRet.accepted k
  read_script := fun _ k => ReadRet.got k

/-- A peer that has sent only the beginning of a request so far. -/
def partial_peer : World where
  fs_stat := fun _ => none
  fs_open := fun _ => -1
  fs_data := fun _ => []
  recv_script := fun i => if i = 0 then RecvRet.data "GET /index.html HT".toList else RecvRet.again
  send_script := fun _ k => SendRet.accepted k
  read_script := fun _ k => ReadRet.got k

/-- A peer whose request line holds the single token `GET`. -/
def malformed_peer : World where
  fs_stat := fun _ => none
  fs_open := fun _ => -1
  fs_data := fun _ => []
  recv_script := fun i => if i = 0 then RecvRet.data "GET\r\n\r\n".toList else RecvRet.again
  send_script := fun _ k => SendRet.accepted k
  read_script := fun _ k => ReadRet.got k

/-- The connection and environment after the first request of `one_token_peer` has
been read and answered on a fresh keep-alive connection: a 404 without file. -/
def not_found_answered : Connection × Bool × World :=
  handle_read {} keep_alive_cfg one_token_peer

/-- A connection in `SENDING_BODY` whose 3-byte file has been read to the end and
whose output buffer is empty. -/
def body_done : Connection :=
  { state := ConnState.SENDING_BODY, file_fd := 5, file_size := 3, file_offset := 3 }

/-- The environment of `slow_peer` at a moment when its socket would block. -/
def blocking_peer : World := { slow_peer with send_calls := 1 }

/-- The request line `parse_request` reads from the buffer `b`: the first line of the
part before the terminator, without a trailing `\r`; `none` when there is no
terminator or the part before it is empty. -/
def request_line (b : Str) : Option Str :=
  match find "\r\n\r\n".toList b with
  | none => none
  | some pos =>
    match getline (b.take pos) with
    | none => none
    | some line => some (if line.getLast? = some '\r' then line.dropLast else line)

/-- The keep-alive connection of `eager_peer` after its 200 answer has been written
completely: recycled to `READING_REQUEST`. -/
def eager_recycled : Connection × Bool × World :=
  handle_write eager_answered.1 eager_answered.2.2

/-- A connection in `CLOSING` that still holds bytes and an open file. -/
def closing_conn : Connection :=
  { fd := 7, state := ConnState.CLOSING, in_buf := "GET".toList, out_buf := "abc".toList,
    file_fd := 5, file_size := 3 }

/-- The loop `while (server_running)` of `worker_loop` over a finite sequence of
kernel behaviours: the map `conns` after them. The loop is left when
`server_running` is found cleared after `pselect`. -/
def worker_loop (listen_fd : Int) (cfg : ServerConfig) : List Slot → List Readiness → List Slot
  | conns, [] => conns
  | conns, k :: ks =>
    if k.stop then conns
    else worker_loop listen_fd cfg (worker_iteration listen_fd cfg conns k).1 ks

/-- An entry as the two dispatch loops leave it. -/
def dispatched (cfg : ServerConfig) (readfds writefds : Int → Bool) (s : Slot) : Slot :=
  (serve_write writefds (serve_read cfg readfds s).1).1

/-- The entry of a freshly accepted connection with key 7 whose peer is
`malformed_peer`. -/
def malformed_slot : Slot := { fd := 7, conn := { fd := 7 }, world := malformed_peer }

/-- A `pselect` result in which every descriptor is ready and `accept` returns the
socket 7 of `malformed_peer`. -/
def one_arrival : Readiness where
  stop := false
  failed := false
  readable := fun _ => true
  writable := fun _ => true
  accepts := [(7, malformed_peer)]

/-- The next `recv` calls of `handle_read` return the non-empty chunks `chunks`, one
after the other. -/
def delivers : World → List Str → Prop
  | _, [] => True
  | w, b :: rest =>
    (sys_recv w READ_CHUNK).1 = RecvRet.data b ∧ 0 < b.length ∧
      delivers (sys_recv w READ_CHUNK).2 rest

/-- A connection that has buffered four full chunks of `flood_peer`. -/
def flooded : Connection := { in_buf := List.replicate 16384 'a' }

/-! # Properties -/

set_option maxRecDepth 100000

/-! ## Strings and header rendering -/

theorem find_isSome_iff (pat s : Str) : (find pat s).isSome = true ↔ pat <:+: s := by
  induction s with
  | nil =>
    simp only [find]
    by_cases h : pat = []
    · subst h; simp
    · have : pat.isPrefixOf [] = false := by
        cases pat with
        | nil => exact absurd rfl h
        | cons a t => rfl
      simp [this, h]
  | cons c cs ih =>
    simp only [find]
    by_cases h : pat.isPrefixOf (c :: cs) = true
    · simp only [h, if_true, Option.isSome_some, true_iff]
      exact (List.isPrefixOf_iff_prefix.mp h).isInfix
    · simp only [h, if_false, Option.isSome_map', ih, Bool.false_eq_true]
      rw [List.infix_cons_iff]
      constructor
      · exact Or.inr
      · rintro (hp | hi)
        · exact absurd (List.isPrefixOf_iff_prefix.mpr hp) h
        · exact hi

theorem build_headers_status_line (s : Int) (n : Nat) (t : Str) (k : Bool) :
    status_line s <+: build_headers s n t k := by
  refine ⟨("Content-Length: ".toList ++ nat_to_string n ++ "\r\n".toList)
    ++ ("Content-Type: ".toList ++ t ++ "\r\n".toList)
    ++ ("Connection: ".toList ++ (if k then "keep-alive".toList else "close".toList)
        ++ "\r\n".toList)
    ++ (if s = 405 then "Allow: GET, HEAD\r\n".toList else [])
    ++ "\r\n".toList, ?_⟩
  simp only [build_headers, status_line, List.append_assoc]

theorem status_line_error_reply (c : Connection) (s : Int) (msg : Str) :
    status_line s <+: (error_reply c s msg).out_buf := by
  unfold error_reply
  dsimp only
  split
  · exact build_headers_status_line _ _ _ _
  · exact (build_headers_status_line _ _ _ _).trans (List.prefix_append _ _)

theorem normalize_target_abs (p : Str) (h : p.head? = some '/') (hne : p ≠ "/".toList) :
    normalize_target p = p := by
  unfold normalize_target
  have h1 : ¬ (p = [] ∨ p.head? ≠ some '/') := by
    rintro (h0 | h0)
    · subst h0; simp at h
    · exact h0 h
  rw [if_neg h1, if_neg hne]

theorem method_allowed (m : Str) (hm : upper m = "GET".toList ∨ upper m = "HEAD".toList) :
    ¬ (upper m ≠ "GET".toList ∧ upper m ≠ "HEAD".toList) := by
  rintro ⟨h1, h2⟩
  rcases hm with h | h
  · exact h1 h
  · exact h2 h

theorem normalize_target_cases (p : Str) :
    normalize_target p = "/index.html".toList ∨ normalize_target p = p := by
  unfold normalize_target
  dsimp only
  by_cases h1 : p = [] ∨ p.head? ≠ some '/'
  · left; rw [if_pos h1]; rfl
  · rw [if_neg h1]
    by_cases h2 : p = "/".toList
    · left; rw [if_pos h2]
    · right; rw [if_neg h2]

theorem no_dotdot_normalize (p : Str) (h : ¬ "..".toList <:+: p) :
    contains_dotdot (normalize_target p) = false := by
  rcases normalize_target_cases p with e | e
  · rw [e]; decide
  · rw [e]
    cases hc : contains_dotdot p with
    | false => rfl
    | true => exact absurd ((find_isSome_iff _ _).mp hc) h

theorem normalize_target_root (p : Str)
    (h : p = [] ∨ p.head? ≠ some '/' ∨ p = "/".toList) :
    normalize_target p = "/index.html".toList := by
  unfold normalize_target
  dsimp only
  rcases h with h | h | h
  · rw [if_pos (Or.inl h)]; rfl
  · rw [if_pos (Or.inr h)]; rfl
  · subst h; decide

theorem size_t_of_nonneg (x : Int) (h0 : 0 ≤ x) (h1 : x < 2 ^ 63) : (size_t_of x : Int) = x := by
  unfold size_t_of
  have : x % 2 ^ 64 = x := Int.emod_eq_of_lt h0 (by omega)
  rw [this]
  exact Int.toNat_of_nonneg h0

theorem prepare_response_path (c : Connection) (cfg : ServerConfig) (w : World) (p q : Str)
    (h : normalize_target p = normalize_target q) :
    prepare_response { c with path := p } cfg w =
      ({ (prepare_response { c with path := q } cfg w).1 with path := p },
        (prepare_response { c with path := q } cfg w).2) := by
  unfold prepare_response
  simp only [h]
  split
  · rfl
  · split
    · rfl
    · split
      · rfl
      · split
        · rfl
        · split
          · rfl
          · split
            · rfl
            · split
              · rfl
              · rfl

/-! ## Responses decided by `prepare_response` -/

/-- C1 (counterexample): the target `../secret` contains `..` and the method is
GET, yet the answer is 404, not 403: a target that does not begin with `/` is
replaced by `/index.html` before the traversal check. -/
theorem traversal_relative_target_not_403 :
    upper "GET".toList = "GET".toList ∧ "..".toList <:+: "../secret".toList ∧
    (prepare_response { method := "GET".toList, path := "../secret".toList } {}
      empty_root).1.status_code = 404 := by
  decide

/-- C1 (amended): a GET or HEAD request (any letter case) whose target begins with
`/` and contains `..` anywhere is answered 403 with the status line
`HTTP/1.1 403 Forbidden`, whatever the filesystem contains; the filesystem is not
even consulted. -/
theorem traversal_absolute_target_403 (c : Connection) (cfg : ServerConfig) (w : World)
    (hm : upper c.method = "GET".toList ∨ upper c.method = "HEAD".toList)
    (habs : c.path.head? = some '/')
    (hdd : "..".toList <:+: c.path) :
    (prepare_response c cfg w).1.status_code = 403 ∧
    "HTTP/1.1 403 Forbidden\r\n".toList <+: (prepare_response c cfg w).1.out_buf ∧
    (prepare_response c cfg w).1.state = ConnState.SENDING_HEADERS ∧
    (prepare_response c cfg w).2.log = w.log := by
  have hne : c.path ≠ "/".toList := by
    intro h; rw [h] at hdd; revert hdd; decide
  have hnorm := normalize_target_abs c.path habs hne
  have hcd : contains_dotdot c.path = true := (find_isSome_iff _ _).mpr hdd
  have hm2 := method_allowed c.method hm
  have key : prepare_response c cfg w =
      (error_reply { c with keep_alive := cfg.keep_alive_default } 403 "Forbidden".toList, w) := by
    unfold prepare_response
    simp only [hm2, if_false, hnorm, hcd, if_true]
  rw [key]
  exact ⟨rfl, status_line_error_reply _ 403 _, rfl, rfl⟩

/-- C1 (witness): `GET /a/../b` on an empty document root. -/
theorem traversal_absolute_target_403_witness :
    (prepare_response { method := "get".toList, path := "/a/../b".toList } {}
      empty_root).1.status_code = 403 :=
  (traversal_absolute_target_403 { method := "get".toList, path := "/a/../b".toList } {}
    empty_root (by decide) (by decide) (by decide)).1

theorem prepare_response_too_large (c : Connection) (cfg : ServerConfig) (w : World) (st : Stat)
    (hm : upper c.method = "GET".toList ∨ upper c.method = "HEAD".toList)
    (hdd : ¬ "..".toList <:+: c.path)
    (hstat : w.fs_stat (cfg.doc_root ++ normalize_target c.path) = some st)
    (hreg : st.is_reg = true) (hgt : size_t_of st.st_size > cfg.max_file_size) :
    prepare_response c cfg w =
      (error_reply { c with keep_alive := cfg.keep_alive_default } 403 "File too large".toList,
       { w with log := w.log ++ [Event.stat (cfg.doc_root ++ normalize_target c.path)] }) := by
  have hm2 := method_allowed c.method hm
  have hcd := no_dotdot_normalize c.path hdd
  unfold prepare_response
  simp only [hm2, if_false, hcd, sys_stat, hstat, hreg, hgt, if_true, Bool.not_true,
      Bool.false_eq_true]

/-- C2: the code departs from the claim. `HEAD /index.html HTTP/1.1` against a
10-byte `index.html` produces the header `Content-Length: 0`; the text
`Content-Length: 10` occurs nowhere in `out_buf`. -/
theorem head_content_length_not_file_size :
    upper (parsed "HEAD /index.html HTTP/1.1\r\n\r\n").method = "HEAD".toList ∧
    index_only.fs_stat ("./www".toList ++ (parsed "HEAD /index.html HTTP/1.1\r\n\r\n").path)
      = some ⟨true, 10⟩ ∧
    (prepare_response (parsed "HEAD /index.html HTTP/1.1\r\n\r\n") {} index_only).1.out_buf =
      ("HTTP/1.1 200 OK\r\nContent-Length: 0\r\nContent-Type: text/html; charset=utf-8\r\n" ++
       "Connection: close\r\n\r\n").toList ∧
    ¬ "Content-Length: 10".toList <:+:
      (prepare_response (parsed "HEAD /index.html HTTP/1.1\r\n\r\n") {} index_only).1.out_buf := by
  decide

/-- The sibling branches of `prepare_response`: the 404 answer to a HEAD request
keeps the `Content-Length` of the body it omits (64 bytes), and the 200 answer to
`GET /index.html` carries `Content-Length: 10`. -/
theorem head_error_keeps_content_length :
    (prepare_response (parsed "HEAD /missing.txt HTTP/1.1\r\n\r\n") {} index_only).1.out_buf =
      ("HTTP/1.1 404 Not Found\r\nContent-Length: 64\r\n" ++
       "Content-Type: text/html; charset=utf-8\r\nConnection: close\r\n\r\n").toList ∧
    (build_simple_html 404 "Not found".toList).length = 64 ∧
    "\r\nContent-Length: 10\r\n".toList <:+:
      (prepare_response (parsed "GET /index.html HTTP/1.1\r\n\r\n") {} index_only).1.out_buf := by
  decide

/-- The 200 answer to a HEAD request as the code computes it: for a target without
`..` that resolves to an existing regular file of size `n ≤ max_file_size`,
`out_buf` is the header block alone, that block carries the line
`Content-Length: 0` whatever `n` is, no file is opened (`file_fd` keeps its value,
the only system call is the `stat`) and `n` is recorded in `file_size`. -/
theorem head_200_headers_only (c : Connection) (cfg : ServerConfig) (w : World) (st : Stat)
    (hm : upper c.method = "HEAD".toList) (hho : c.head_only = true)
    (hdd : ¬ "..".toList <:+: c.path)
    (hstat : w.fs_stat (cfg.doc_root ++ normalize_target c.path) = some st)
    (hreg : st.is_reg = true) (h0 : 0 ≤ st.st_size) (h63 : st.st_size < 2 ^ 63)
    (hle : st.st_size ≤ (cfg.max_file_size : Int)) :
    prepare_response c cfg w =
      ({ c with keep_alive := cfg.keep_alive_default, file_size := st.st_size, file_offset := 0,
                status_code := 200,
                out_buf := build_headers 200 0
                  (get_mime_type (cfg.doc_root ++ normalize_target c.path)) cfg.keep_alive_default,
                out_sent := 0, state := ConnState.SENDING_HEADERS },
       { w with log := w.log ++ [Event.stat (cfg.doc_root ++ normalize_target c.path)] }) ∧
    "\r\nContent-Length: 0\r\n".toList <:+:
      build_headers 200 0 (get_mime_type (cfg.doc_root ++ normalize_target c.path))
        cfg.keep_alive_default := by
  have hm2 := method_allowed c.method (Or.inr hm)
  have hcd := no_dotdot_normalize c.path hdd
  have hsz := size_t_of_nonneg st.st_size h0 h63
  have hngt : ¬ size_t_of st.st_size > cfg.max_file_size := by omega
  constructor
  · unfold prepare_response
    simp only [hm2, if_false, hcd, sys_stat, hstat, hreg, hngt, hho, Bool.not_true,
      Bool.false_eq_true, if_true]
  · refine ⟨"HTTP/1.1 200 OK".toList, ("Content-Type: ".toList ++
      get_mime_type (cfg.doc_root ++ normalize_target c.path) ++ "\r\n".toList)
      ++ ("Connection: ".toList ++
          (if cfg.keep_alive_default then "keep-alive".toList else "close".toList)
        ++ "\r\n".toList) ++ "\r\n".toList, ?_⟩
    have hs : "HTTP/1.1 200 OK".toList ++ "\r\nContent-Length: 0\r\n".toList
        = status_line 200 ++ ("Content-Length: ".toList ++ nat_to_string 0 ++ "\r\n".toList) := by
      decide
    rw [hs]
    simp only [build_headers, status_line, List.append_assoc]
    rfl

/-- The lemma `head_200_headers_only` at `HEAD /index.html HTTP/1.1` against a 10-byte
`index.html`. -/
theorem head_200_headers_only_witness :
    (prepare_response (parsed "HEAD /index.html HTTP/1.1\r\n\r\n") {} index_only).1.status_code
      = 200 := by
  rw [(head_200_headers_only (parsed "HEAD /index.html HTTP/1.1\r\n\r\n") {} index_only ⟨true, 10⟩ (by decide)
    (by decide) (by decide) (by decide) rfl (by decide) (by decide) (by decide)).1]

/-- C5: a parsed request whose method is neither GET nor HEAD (ignoring case) is
answered 405: the header block ends with the line `Allow: GET, HEAD`, the fixed
405 body follows, the state is `SENDING_HEADERS`, and neither the environment
(no `stat`, no `open`) nor any other field of the connection changes. -/
theorem unsupported_method_405 (c : Connection) (cfg : ServerConfig) (w : World)
    (hg : upper c.method ≠ "GET".toList) (hh : upper c.method ≠ "HEAD".toList)
    (hpar : c.head_only = decide (upper c.method = "HEAD".toList)) :
    prepare_response c cfg w =
      ({ c with keep_alive := cfg.keep_alive_default, status_code := 405,
                out_buf := build_headers 405 body_405.length "text/html; charset=utf-8".toList
                             cfg.keep_alive_default ++ body_405,
                state := ConnState.SENDING_HEADERS }, w) ∧
    "\r\nAllow: GET, HEAD\r\n\r\n".toList <:+
      build_headers 405 body_405.length "text/html; charset=utf-8".toList cfg.keep_alive_default := by
  have hho : c.head_only = false := by rw [hpar]; exact decide_eq_false hh
  constructor
  · unfold prepare_response
    have hb : build_simple_html 405 "Method not allowed".toList = body_405 := by decide
    simp only [hg, hh, ne_eq, not_false_eq_true, and_self, if_true, error_reply, hho, hb]
    rfl
  · generalize cfg.keep_alive_default = k
    cases k <;> decide

/-- C5 (witness): `POST /x HTTP/1.1`. -/
theorem unsupported_method_405_witness :
    (prepare_response (parsed "POST /x HTTP/1.1\r\n\r\n") {} empty_root).1.status_code = 405 := by
  rw [(unsupported_method_405 (parsed "POST /x HTTP/1.1\r\n\r\n") {} empty_root (by decide)
    (by decide) (by decide)).1]

/-- C6: for a GET or HEAD request whose target has no `..` and resolves to an existing
regular file, a size strictly above `max_file_size` gives 403 with no `open`
(`file_fd` unchanged, the only system call is the `stat`), while a size equal to
`max_file_size` is not rejected: the answer is 200, or 404 when `open` fails. -/
theorem oversized_file_403_without_open (c : Connection) (cfg : ServerConfig) (w : World) (st : Stat)
    (hm : upper c.method = "GET".toList ∨ upper c.method = "HEAD".toList)
    (hdd : ¬ "..".toList <:+: c.path)
    (hstat : w.fs_stat (cfg.doc_root ++ normalize_target c.path) = some st)
    (hreg : st.is_reg = true) (h0 : 0 ≤ st.st_size) (h63 : st.st_size < 2 ^ 63) :
    ((cfg.max_file_size : Int) < st.st_size →
      (prepare_response c cfg w).1.status_code = 403 ∧
      (prepare_response c cfg w).1.file_fd = c.file_fd ∧
      (prepare_response c cfg w).2.log =
        w.log ++ [Event.stat (cfg.doc_root ++ normalize_target c.path)]) ∧
    (st.st_size = (cfg.max_file_size : Int) →
      (prepare_response c cfg w).1.status_code = 200 ∨
      ((prepare_response c cfg w).1.status_code = 404 ∧
        w.fs_open (cfg.doc_root ++ normalize_target c.path) < 0)) := by
  have hm2 := method_allowed c.method hm
  have hcd := no_dotdot_normalize c.path hdd
  have hsz := size_t_of_nonneg st.st_size h0 h63
  constructor
  · intro hbig
    have hgt : size_t_of st.st_size > cfg.max_file_size := by omega
    rw [prepare_response_too_large c cfg w st hm hdd hstat hreg hgt]
    exact ⟨rfl, rfl, rfl⟩
  · intro heq
    have hle : ¬ size_t_of st.st_size > cfg.max_file_size := by omega
    unfold prepare_response
    simp only [hm2, if_false, hcd, sys_stat, hstat, hreg, hle, Bool.not_true,
      Bool.false_eq_true]
    split
    · left; rfl
    · split
      · rename_i hfd
        right
        refine ⟨rfl, ?_⟩
        unfold sys_open at hfd
        dsimp only at hfd
        split at hfd <;> simp_all
      · left; rfl

/-- C6 (witness): a 10-byte `index.html` with `max_file_size = 5`. -/
theorem oversized_file_403_without_open_witness :
    (prepare_response (parsed "GET /index.html HTTP/1.1\r\n\r\n") { max_file_size := 5 }
      index_only).1.status_code = 403 :=
  ((oversized_file_403_without_open (parsed "GET /index.html HTTP/1.1\r\n\r\n")
    { max_file_size := 5 } index_only ⟨true, 10⟩ (by decide) (by decide) rfl rfl (by decide)
    (by decide)).1 (by decide)).1

/-- C7: the target `/`, the empty target and every target that does not begin with `/`
are handled exactly like `/index.html`: the two runs of `prepare_response` end
in the same environment (same `stat` and `open` on the same path) and in
connections that agree on every field except the stored `path` itself. -/
theorem root_target_same_as_index (c : Connection) (cfg : ServerConfig) (w : World) (p : Str)
    (h : p = "/".toList ∨ p = [] ∨ p.head? ≠ some '/') :
    prepare_response { c with path := p } cfg w =
      ({ (prepare_response { c with path := "/index.html".toList } cfg w).1 with path := p },
        (prepare_response { c with path := "/index.html".toList } cfg w).2) := by
  apply prepare_response_path
  rw [normalize_target_root p (by tauto)]
  decide

/-- C7 (witness): `GET /` and `GET /index.html` against a 10-byte `index.html`. -/
theorem root_target_same_as_index_witness :
    prepare_response { (parsed "GET / HTTP/1.1\r\n\r\n") with path := "/".toList } {} index_only =
      ({ (prepare_response { (parsed "GET / HTTP/1.1\r\n\r\n") with path := "/index.html".toList }
            {} index_only).1 with path := "/".toList },
        (prepare_response { (parsed "GET / HTTP/1.1\r\n\r\n") with path := "/index.html".toList }
            {} index_only).2) :=
  root_target_same_as_index (parsed "GET / HTTP/1.1\r\n\r\n") {} index_only "/".toList (Or.inl rfl)

/-- C8 (counterexample): for the target `x` the path `doc_root ++ target` = `./wwwx`
does not exist, yet the answer is 200: the path that is resolved is
`./www/index.html`. -/
theorem missing_relative_target_is_200 :
    upper (parsed "GET x HTTP/1.1\r\n\r\n").method = "GET".toList ∧
    (parsed "GET x HTTP/1.1\r\n\r\n").path = "x".toList ∧
    ¬ "..".toList <:+: "x".toList ∧
    index_only.fs_stat ("./www".toList ++ "x".toList) = none ∧
    (prepare_response (parsed "GET x HTTP/1.1\r\n\r\n") {} index_only).1.status_code = 200 := by
  decide

/-- C8 (amended): for a GET request whose target has no `..`, with the resolved path
`doc_root ++ normalize_target target`: when that path does not exist the answer
is 404 and `out_buf` is the header block followed by a body containing
`Not Found`; when it exists but is not a regular file the answer is 403. -/
theorem missing_404_nonregular_403 (c : Connection) (cfg : ServerConfig) (w : World)
    (hm : upper c.method = "GET".toList) (hho : c.head_only = false)
    (hdd : ¬ "..".toList <:+: c.path) :
    (w.fs_stat (cfg.doc_root ++ normalize_target c.path) = none →
      (prepare_response c cfg w).1.status_code = 404 ∧
      (prepare_response c cfg w).1.out_buf =
        build_headers 404 body_404.length "text/html; charset=utf-8".toList
          cfg.keep_alive_default ++ body_404 ∧
      "Not Found".toList <:+: body_404) ∧
    (∀ st, w.fs_stat (cfg.doc_root ++ normalize_target c.path) = some st → st.is_reg = false →
      (prepare_response c cfg w).1.status_code = 403) := by
  have hm2 := method_allowed c.method (Or.inl hm)
  have hcd := no_dotdot_normalize c.path hdd
  constructor
  · intro hstat
    have key : prepare_response c cfg w =
        (error_reply { c with keep_alive := cfg.keep_alive_default } 404 "Not found".toList,
         { w with log := w.log ++ [Event.stat (cfg.doc_root ++ normalize_target c.path)] }) := by
      unfold prepare_response
      simp only [hm2, if_false, hcd, sys_stat, hstat, Bool.false_eq_true]
    rw [key]
    have hb : build_simple_html 404 "Not found".toList = body_404 := by decide
    refine ⟨rfl, ?_, by decide⟩
    simp only [error_reply, hho, hb, Bool.false_eq_true, if_false]
  · intro st hstat hreg
    have key : prepare_response c cfg w =
        (error_reply { c with keep_alive := cfg.keep_alive_default } 403 "Forbidden".toList,
         { w with log := w.log ++ [Event.stat (cfg.doc_root ++ normalize_target c.path)] }) := by
      unfold prepare_response
      simp only [hm2, if_false, hcd, sys_stat, hstat, hreg, Bool.false_eq_true, Bool.not_false,
        if_true]
    rw [key]
    rfl

/-- C8 (witness): `GET /missing.txt HTTP/1.1` against an empty document root. -/
theorem missing_404_nonregular_403_witness :
    (prepare_response (parsed "GET /missing.txt HTTP/1.1\r\n\r\n") {} empty_root).1.status_code = 404 :=
  ((missing_404_nonregular_403 (parsed "GET /missing.txt HTTP/1.1\r\n\r\n") {} empty_root (by decide) (by decide)
    (by decide)).1 rfl).1

/-- C9: whatever the request, configuration and filesystem, `prepare_response` sets
`status_code` to 200, 403, 404 or 405, `out_buf` starts with the status line of
that same code, and `build_status_text` of it is never `Unknown`. -/
theorem status_code_is_produced_code (c : Connection) (cfg : ServerConfig) (w : World) :
    ((prepare_response c cfg w).1.status_code = 200 ∨
     (prepare_response c cfg w).1.status_code = 403 ∨
     (prepare_response c cfg w).1.status_code = 404 ∨
     (prepare_response c cfg w).1.status_code = 405) ∧
    status_line (prepare_response c cfg w).1.status_code <+: (prepare_response c cfg w).1.out_buf ∧
    build_status_text (prepare_response c cfg w).1.status_code ≠ "Unknown".toList := by
  have key : ((prepare_response c cfg w).1.status_code = 200 ∨
     (prepare_response c cfg w).1.status_code = 403 ∨
     (prepare_response c cfg w).1.status_code = 404 ∨
     (prepare_response c cfg w).1.status_code = 405) ∧
    status_line (prepare_response c cfg w).1.status_code <+:
      (prepare_response c cfg w).1.out_buf := by
    unfold prepare_response
    dsimp only
    split
    · exact ⟨by simp [error_reply], status_line_error_reply _ _ _⟩
    · split
      · exact ⟨by simp [error_reply], status_line_error_reply _ _ _⟩
      · split
        · exact ⟨by simp [error_reply], status_line_error_reply _ _ _⟩
        · split
          · exact ⟨by simp [error_reply], status_line_error_reply _ _ _⟩
          · split
            · exact ⟨by simp [error_reply], status_line_error_reply _ _ _⟩
            · split
              · exact ⟨by simp, build_headers_status_line _ _ _ _⟩
              · split
                · exact ⟨by simp [error_reply], status_line_error_reply _ _ _⟩
                · exact ⟨by simp, build_headers_status_line _ _ _ _⟩
  refine ⟨key.1, key.2, ?_⟩
  rcases key.1 with h | h | h | h <;> rw [h] <;> decide

/-! ## The loops never run out of passes -/

theorem drain_out_buf_fuel (f1 : Nat) : ∀ (f2 : Nat) (conn : Connection) (w : World),
    conn.out_buf.length - conn.out_sent ≤ f1 → conn.out_buf.length - conn.out_sent ≤ f2 →
    drain_out_buf f1 conn w = drain_out_buf f2 conn w := by
  induction f1 with
  | zero =>
    intro f2 conn w h1 _
    cases f2 with
    | zero => rfl
    | succ f2 =>
      have : ¬ conn.out_sent < conn.out_buf.length := by omega
      simp only [drain_out_buf, this, if_false]
  | succ f1 ih =>
    intro f2 conn w h1 h2
    cases f2 with
    | zero =>
      have : ¬ conn.out_sent < conn.out_buf.length := by omega
      simp only [drain_out_buf, this, if_false]
    | succ f2 =>
      unfold drain_out_buf
      by_cases hlt : conn.out_sent < conn.out_buf.length
      · simp only [hlt, if_true]
        cases hs : (sys_send w (List.drop conn.out_sent conn.out_buf)).1 with
        | accepted n =>
          generalize hr : sys_send w (List.drop conn.out_sent conn.out_buf) = r at hs
          obtain ⟨r1, w2⟩ := r
          dsimp only at hs
          subst hs
          dsimp only
          by_cases hn : n > 0
          · simp only [hn, if_true]
            exact ih f2 _ w2 (by dsimp only; omega) (by dsimp only; omega)
          · simp only [hn, if_false]
        | again =>
          generalize hr : sys_send w (List.drop conn.out_sent conn.out_buf) = r at hs
          obtain ⟨r1, w2⟩ := r
          dsimp only at hs
          subst hs
          rfl
        | error =>
          generalize hr : sys_send w (List.drop conn.out_sent conn.out_buf) = r at hs
          obtain ⟨r1, w2⟩ := r
          dsimp only at hs
          subst hs
          rfl
      · simp only [hlt, if_false]

theorem send_chunk_fuel (buf : Str) (f1 : Nat) : ∀ (f2 st : Nat) (conn : Connection) (w : World),
    buf.length - st ≤ f1 → buf.length - st ≤ f2 →
    send_chunk buf f1 st conn w = send_chunk buf f2 st conn w := by
  induction f1 with
  | zero =>
    intro f2 st conn w h1 _
    cases f2 with
    | zero => rfl
    | succ f2 =>
      have : ¬ st < buf.length := by omega
      simp only [send_chunk, this, if_false]
  | succ f1 ih =>
    intro f2 st conn w h1 h2
    cases f2 with
    | zero =>
      have : ¬ st < buf.length := by omega
      simp only [send_chunk, this, if_false]
    | succ f2 =>
      unfold send_chunk
      by_cases hlt : st < buf.length
      · simp only [hlt, if_true]
        generalize sys_send w (List.drop st buf) = r
        obtain ⟨r1, w2⟩ := r
        cases r1 with
        | accepted n =>
          dsimp only
          by_cases hn : n > 0
          · simp only [hn, if_true]
            exact ih f2 _ conn w2 (by omega) (by omega)
          · simp only [hn, if_false]
        | again => rfl
        | error => rfl
      · simp only [hlt, if_false]

theorem handle_read_loop_fuel (cfg : ServerConfig) (f1 : Nat) :
    ∀ (f2 : Nat) (conn : Connection) (w : World),
    16 * 1024 - conn.in_buf.length + 1 ≤ f1 → 16 * 1024 - conn.in_buf.length + 1 ≤ f2 →
    handle_read_loop cfg f1 conn w = handle_read_loop cfg f2 conn w := by
  induction f1 with
  | zero => intro f2 conn w h1 _; omega
  | succ f1 ih =>
    intro f2 conn w h1 h2
    cases f2 with
    | zero => omega
    | succ f2 =>
      unfold handle_read_loop
      generalize sys_recv w READ_CHUNK = r
      obtain ⟨r1, w2⟩ := r
      cases r1 with
      | data bs =>
        dsimp only
        by_cases hb : bs.length > 0
        · simp only [hb, if_true]
          split
          · rfl
          · split
            · rfl
            · rename_i hle
              apply ih
              · dsimp only; rw [List.length_append] at hle ⊢; omega
              · dsimp only; rw [List.length_append] at hle ⊢; omega
        · simp only [hb, if_false]
      | eof => rfl
      | again => rfl
      | error => rfl

/-! ## System calls that send nothing, handlers that only append to the wire -/

theorem quiet_trans {w1 w2 w3 : World} (h12 : quiet w1 w2) (h23 : quiet w2 w3) : quiet w1 w3 :=
  ⟨h23.1.trans h12.1, h23.2.trans h12.2⟩

theorem sys_stat_quiet (w : World) (p : Str) : quiet w (sys_stat w p).2 := ⟨rfl, rfl⟩

theorem sys_open_quiet (w : World) (p : Str) : quiet w (sys_open w p).2 := by
  unfold sys_open
  dsimp only
  split <;> exact ⟨rfl, rfl⟩

theorem prepare_response_quiet (c : Connection) (cfg : ServerConfig) (w : World) :
    quiet w (prepare_response c cfg w).2 := by
  unfold prepare_response
  dsimp only
  split
  · exact ⟨rfl, rfl⟩
  · split
    · exact ⟨rfl, rfl⟩
    · split
      · rename_i w1 heq
        have hq := sys_stat_quiet w (cfg.doc_root ++ normalize_target c.path)
        rw [heq] at hq
        exact hq
      · rename_i st w1 heq
        have hq := sys_stat_quiet w (cfg.doc_root ++ normalize_target c.path)
        rw [heq] at hq
        split
        · exact hq
        · split
          · exact hq
          · split
            · exact hq
            · have hq2 := sys_open_quiet w1 (cfg.doc_root ++ normalize_target c.path)
              split <;> exact quiet_trans hq hq2

theorem handle_read_loop_quiet (cfg : ServerConfig) (fuel : Nat) :
    ∀ (conn : Connection) (w : World), quiet w (handle_read_loop cfg fuel conn w).2.2 := by
  induction fuel with
  | zero => intro conn w; exact ⟨rfl, rfl⟩
  | succ fuel ih =>
    intro conn w
    unfold handle_read_loop
    have hq : quiet w (sys_recv w READ_CHUNK).2 := ⟨rfl, rfl⟩
    generalize sys_recv w READ_CHUNK = rr at hq ⊢
    obtain ⟨r1, w2⟩ := rr
    dsimp only at hq
    cases r1 with
    | data bs =>
      dsimp only
      split
      · split
        · split
          · exact hq
          · exact quiet_trans hq (prepare_response_quiet _ cfg _)
        · split
          · exact hq
          · exact quiet_trans hq (ih _ _)
      · exact hq
    | eof => exact hq
    | again => exact hq
    | error => exact ⟨hq.1, hq.2⟩

theorem handle_read_quiet (conn : Connection) (cfg : ServerConfig) (w : World) :
    quiet w (handle_read conn cfg w).2.2 := by
  unfold handle_read
  split
  · exact ⟨rfl, rfl⟩
  · exact handle_read_loop_quiet cfg _ conn w

theorem sys_send_wire (w : World) (offered : Str) : w.wire <+: (sys_send w offered).2.wire := by
  unfold sys_send
  exact List.prefix_append _ _

theorem drain_out_buf_wire (fuel : Nat) : ∀ (conn : Connection) (w : World),
    w.wire <+: (drain_out_buf fuel conn w).2.2.wire := by
  induction fuel with
  | zero => intro conn w; exact List.prefix_refl _
  | succ fuel ih =>
    intro conn w
    unfold drain_out_buf
    split
    · have h := sys_send_wire w (List.drop conn.out_sent conn.out_buf)
      generalize sys_send w (List.drop conn.out_sent conn.out_buf) = r at h ⊢
      obtain ⟨r1, w2⟩ := r
      cases r1 with
      | accepted n =>
        dsimp only
        split
        · exact h.trans (ih _ _)
        · exact h
      | again => exact h
      | error => exact h
    · exact List.prefix_refl _

theorem send_chunk_wire (buf : Str) (fuel : Nat) : ∀ (st : Nat) (conn : Connection) (w : World),
    w.wire <+: (send_chunk buf fuel st conn w).2.2.wire := by
  induction fuel with
  | zero => intro st conn w; exact List.prefix_refl _
  | succ fuel ih =>
    intro st conn w
    unfold send_chunk
    split
    · have h := sys_send_wire w (List.drop st buf)
      generalize sys_send w (List.drop st buf) = r at h ⊢
      obtain ⟨r1, w2⟩ := r
      cases r1 with
      | accepted n =>
        dsimp only
        split
        · exact h.trans (ih _ _ _)
        · exact h
      | again => exact h
      | error => exact h
    · exact List.prefix_refl _

theorem body_complete_wire (conn : Connection) (w : World) :
    (body_complete conn w).2.2.wire = w.wire := by
  unfold body_complete
  split
  · dsimp only
    split <;> rfl
  · rfl

theorem send_body_wire (conn : Connection) (w : World) :
    w.wire <+: (send_body conn w).2.2.wire := by
  unfold send_body
  split
  · split
    · dsimp only
      generalize hk : (if conn.file_size - conn.file_offset < (FILE_CHUNK : Int)
        then conn.file_size - conn.file_offset else (FILE_CHUNK : Int)) = to_read
      have hrd : (sys_read w conn.file_fd to_read).2.wire = w.wire := by
        unfold sys_read
        dsimp only
        split <;> rfl
      generalize sys_read w conn.file_fd to_read = r at hrd ⊢
      obtain ⟨r1, w2⟩ := r
      dsimp only at hrd
      cases r1 with
      | none => dsimp only; rw [body_complete_wire, hrd]
      | some file_buf =>
        dsimp only
        split
        · have h := send_chunk_wire file_buf file_buf.length 0
            { conn with file_offset := conn.file_offset + file_buf.length } w2
          rw [hrd] at h
          generalize send_chunk file_buf file_buf.length 0
            { conn with file_offset := conn.file_offset + file_buf.length } w2 = r at h ⊢
          obtain ⟨d, c3, w3⟩ := r
          cases d with
          | drained => dsimp only; rw [body_complete_wire]; exact h
          | blocked => exact h
          | failed => exact h
        · rw [body_complete_wire, hrd]
    · rw [body_complete_wire]
  · exact List.prefix_refl _

theorem handle_write_wire (conn : Connection) (w : World) :
    w.wire <+: (handle_write conn w).2.2.wire := by
  unfold handle_write
  split
  · exact List.prefix_refl _
  · have h := drain_out_buf_wire (conn.out_buf.length - conn.out_sent) conn w
    generalize drain_out_buf (conn.out_buf.length - conn.out_sent) conn w = r at h ⊢
    obtain ⟨d, c2, w2⟩ := r
    cases d with
    | blocked => exact h
    | failed => exact h
    | drained =>
      dsimp only
      split
      · split
        · split
          · exact h
          · exact h
        · exact h.trans (send_body_wire _ _)
      · exact h.trans (send_body_wire _ _)

theorem write_calls_wire (n : Nat) : ∀ (conn : Connection) (w : World),
    w.wire <+: (write_calls n conn w).2.wire := by
  induction n with
  | zero => intro conn w; exact List.prefix_refl _
  | succ n ih =>
    intro conn w
    exact (handle_write_wire conn w).trans (ih _ _)

/-! ## The write path: partial writes -/

theorem polite_send_of_eq {w w2 : World} (h : w2.send_script = w.send_script)
    (hp : polite_send w) : polite_send w2 := by
  intro i k hk; rw [h]; exact hp i k hk

theorem drain_out_buf_spec (fuel : Nat) : ∀ (conn : Connection) (w : World),
    polite_send w → conn.out_buf.length - conn.out_sent ≤ fuel →
    conn.out_sent ≤ conn.out_buf.length →
    ∃ k, (drain_out_buf fuel conn w).2.1 = { conn with out_sent := k } ∧
      conn.out_sent ≤ k ∧ k ≤ conn.out_buf.length ∧
      (drain_out_buf fuel conn w).2.2.wire ++ conn.out_buf.drop k
        = w.wire ++ conn.out_buf.drop conn.out_sent ∧
      (((drain_out_buf fuel conn w).1 = Drain.drained ∧ k = conn.out_buf.length) ∨
        (drain_out_buf fuel conn w).1 = Drain.blocked) ∧
      after_sends w (drain_out_buf fuel conn w).2.2 := by
  induction fuel with
  | zero =>
    intro conn w _ hf hle
    refine ⟨conn.out_sent, rfl, le_refl _, hle, rfl, Or.inl ⟨rfl, ?_⟩, rfl, rfl, rfl, rfl⟩
    omega
  | succ fuel ih =>
    intro conn w hp hf hle
    unfold drain_out_buf
    by_cases hlt : conn.out_sent < conn.out_buf.length
    · rw [if_pos hlt]
      unfold sys_send
      dsimp only
      rcases hp w.send_calls (conn.out_buf.drop conn.out_sent).length
        (by rw [List.length_drop]; omega) with hs | ⟨n, hs, hn0, hnk⟩
      · rw [hs]
        exact ⟨conn.out_sent, rfl, le_refl _, hle, by simp, Or.inr rfl, rfl, rfl, rfl, rfl⟩
      · rw [hs]
        dsimp only
        rw [if_pos hn0]
        have hlen : (conn.out_buf.drop conn.out_sent).length
            = conn.out_buf.length - conn.out_sent := List.length_drop _ _
        rw [hlen] at hnk
        obtain ⟨k, e1, e2, e3, e4, e5, e6⟩ := ih { conn with out_sent := conn.out_sent + n }
          { w with send_calls := w.send_calls + 1,
                   wire := w.wire ++ (conn.out_buf.drop conn.out_sent).take n,
                   log := w.log ++ [Event.send (conn.out_buf.drop conn.out_sent)
                     (SendRet.accepted n)] }
          (polite_send_of_eq rfl hp) (by dsimp only; omega) (by dsimp only; omega)
        refine ⟨k, e1, ?_, e3, ?_, e5, e6⟩
        · dsimp only at e2; omega
        · rw [e4]
          dsimp only
          rw [List.append_assoc, ← List.drop_drop, List.take_append_drop]
    · rw [if_neg hlt]
      refine ⟨conn.out_sent, rfl, le_refl _, hle, rfl, Or.inl ⟨rfl, ?_⟩, rfl, rfl, rfl, rfl⟩
      omega


theorem send_chunk_spec (buf : Str) (fuel : Nat) : ∀ (st : Nat) (conn : Connection) (w : World),
    polite_send w → buf.length - st ≤ fuel → st ≤ buf.length →
    (((send_chunk buf fuel st conn w).1 = Drain.drained ∧
        (send_chunk buf fuel st conn w).2.1 = conn ∧
        (send_chunk buf fuel st conn w).2.2.wire = w.wire ++ buf.drop st) ∨
      ∃ rem, (send_chunk buf fuel st conn w).1 = Drain.blocked ∧
        (send_chunk buf fuel st conn w).2.1 = { conn with out_buf := rem, out_sent := 0 } ∧
        (send_chunk buf fuel st conn w).2.2.wire ++ rem = w.wire ++ buf.drop st) ∧
    after_sends w (send_chunk buf fuel st conn w).2.2 := by
  induction fuel with
  | zero =>
    intro st conn w _ hf hle
    have : st = buf.length := by omega
    subst this
    exact ⟨Or.inl ⟨rfl, rfl, by simp [send_chunk]⟩, rfl, rfl, rfl, rfl⟩
  | succ fuel ih =>
    intro st conn w hp hf hle
    unfold send_chunk
    by_cases hlt : st < buf.length
    · rw [if_pos hlt]
      unfold sys_send
      dsimp only
      rcases hp w.send_calls (buf.drop st).length
        (by rw [List.length_drop]; omega) with hs | ⟨n, hs, hn0, hnk⟩
      · rw [hs]
        exact ⟨Or.inr ⟨buf.drop st, rfl, rfl, by simp⟩, rfl, rfl, rfl, rfl⟩
      · rw [hs]
        dsimp only
        rw [if_pos hn0]
        have hlen : (buf.drop st).length = buf.length - st := List.length_drop _ _
        rw [hlen] at hnk
        obtain ⟨e1, e2⟩ := ih (st + n) conn
          { w with send_calls := w.send_calls + 1,
                   wire := w.wire ++ (buf.drop st).take n,
                   log := w.log ++ [Event.send (buf.drop st) (SendRet.accepted n)] }
          (polite_send_of_eq rfl hp) (by omega) (by omega)
        refine ⟨?_, e2⟩
        have hsplit : w.wire ++ (buf.drop st).take n ++ buf.drop (st + n) = w.wire ++ buf.drop st := by
          rw [List.append_assoc, ← List.drop_drop, List.take_append_drop]
        rcases e1 with ⟨a, b, c⟩ | ⟨rem, a, b, c⟩
        · exact Or.inl ⟨a, b, by rw [c]; exact hsplit⟩
        · exact Or.inr ⟨rem, a, b, by rw [c]; exact hsplit⟩
    · have : st = buf.length := by omega
      subst this
      rw [if_neg hlt]
      exact ⟨Or.inl ⟨rfl, rfl, by simp⟩, rfl, rfl, rfl, rfl⟩

theorem body_complete_transfer (F T : Str) (conn : Connection) (w : World)
    (h : Transfer F T conn w) (hs : conn.state = ConnState.SENDING_BODY)
    (hd : conn.out_sent = conn.out_buf.length) :
    Transfer F T (body_complete conn w).1 (body_complete conn w).2.2 := by
  obtain ⟨h1, h2, h3, h4, h5, h6, h7, h8, h9⟩ := h
  unfold body_complete
  by_cases hge : conn.file_offset ≥ conn.file_size
  · rw [if_pos hge]
    have hpend : pending F conn = [] := by
      unfold pending
      rw [hs]
      dsimp only
      rw [hd, List.drop_length, List.nil_append, List.drop_eq_nil_iff]
      omega
    rw [hpend, List.append_nil] at h1
    have hns : ∀ b : Bool, next_state b ≠ ConnState.SENDING_HEADERS ∧
        next_state b ≠ ConnState.SENDING_BODY ∧ next_state b ≠ ConnState.PREPARING_RESPONSE := by
      intro b; cases b <;> decide
    have hpn : ∀ (b : Bool) (c2 : Connection), c2.state = next_state b → pending F c2 = [] := by
      intro b c2 e
      unfold pending
      rw [e]
      cases b <;> rfl
    by_cases hfd : conn.file_fd ≥ 0
    · rw [if_pos hfd]
      dsimp only
      refine ⟨?_, h2, h3, Nat.le_refl _, h5, h6, ?_, ?_, (hns _).2.2⟩
      · rw [hpn (!conn.keep_alive) _ rfl, List.append_nil]; exact h1
      · intro e; exact absurd e (hns _).1
      · intro e; exact absurd e (hns _).2.1
    · rw [if_neg hfd]
      dsimp only
      refine ⟨?_, h2, h3, Nat.le_refl _, h5, h6, ?_, ?_, (hns _).2.2⟩
      · rw [hpn (!conn.keep_alive) _ rfl, List.append_nil]; exact h1
      · intro e; exact absurd e (hns _).1
      · intro e; exact absurd e (hns _).2.1
  · rw [if_neg hge]
    exact ⟨h1, h2, h3, h4, h5, h6, h7, h8, h9⟩


theorem take_append_drop_length {α : Type} (n : Nat) (X : List α) :
    X.take n ++ X.drop (X.take n).length = X := by
  by_cases h : n ≤ X.length
  · rw [List.length_take, Nat.min_eq_left h, List.take_append_drop]
  · have h2 : X.length ≤ n := by omega
    rw [List.take_of_length_le h2, List.drop_length, List.append_nil]

theorem send_body_transfer (F T : Str) (conn : Connection) (w : World)
    (h : Transfer F T conn w) (hs : conn.state = ConnState.SENDING_BODY)
    (hd : conn.out_sent = conn.out_buf.length) :
    Transfer F T (send_body conn w).1 (send_body conn w).2.2 := by
  have h0 := h
  obtain ⟨h1, h2, h3, h4, h5, h6, h7, h8, h9⟩ := h
  obtain ⟨hoff, hpos⟩ := h8 hs
  unfold send_body
  rw [if_pos hs]
  by_cases hlt : conn.file_offset < conn.file_size
  · rw [if_pos hlt]
    dsimp only
    generalize hk : (if conn.file_size - conn.file_offset < (FILE_CHUNK : Int)
      then conn.file_size - conn.file_offset else (FILE_CHUNK : Int)) = to_read
    have hkpos : 0 < to_read.toNat := by
      have : (0 : Int) < to_read := by
        rw [← hk]; split
        · omega
        · decide
      omega
    obtain ⟨n, hr, hn0, hnk⟩ := h6 w.read_calls to_read.toNat hkpos
    unfold sys_read
    dsimp only
    rw [hr]
    dsimp only
    have hposlt : w.file_pos < F.length := by omega
    generalize hbs : (w.file_data.drop w.file_pos).take n = bs
    rw [h2] at hbs
    have hbslen : 0 < bs.length := by
      rw [← hbs, List.length_take, List.length_drop]
      omega
    have hsplit : F.drop w.file_pos = bs ++ F.drop (w.file_pos + bs.length) := by
      have := take_append_drop_length n (F.drop w.file_pos)
      rw [hbs, List.drop_drop] at this
      exact this.symm
    have hbsle : w.file_pos + bs.length ≤ F.length := by
      have := congrArg List.length hsplit
      rw [List.length_append, List.length_drop, List.length_drop] at this
      omega
    rw [if_pos hbslen]
    have hpend : pending F conn = F.drop w.file_pos := by
      unfold pending
      rw [hs]
      dsimp only
      rw [hd, List.drop_length, List.nil_append, hoff, Int.toNat_ofNat]
    rw [hpend] at h1
    have hspec := send_chunk_spec bs bs.length 0
      { conn with file_offset := conn.file_offset + bs.length }
      { w with read_calls := w.read_calls + 1, file_pos := w.file_pos + bs.length,
               log := w.log ++ [Event.read conn.file_fd to_read (ReadRet.got n)] }
      (polite_send_of_eq rfl h5) (by omega) (Nat.zero_le _)
    generalize send_chunk bs bs.length 0
      { conn with file_offset := conn.file_offset + bs.length }
      { w with read_calls := w.read_calls + 1, file_pos := w.file_pos + bs.length,
               log := w.log ++ [Event.read conn.file_fd to_read (ReadRet.got n)] } = res at hspec ⊢
    obtain ⟨d, c2, w2⟩ := res
    obtain ⟨hc, e1, e2, e3, e4⟩ := hspec
    dsimp only at hc e1 e2 e3 e4
    have hp2 : polite_send w2 := polite_send_of_eq e1 h5
    have ho2 : orderly_reads w2 := by
      intro i k; rw [e2]; exact h6 i k
    have hoff2 : ((conn.file_offset + (bs.length : Int)).toNat) = w.file_pos + bs.length := by
      omega
    rcases hc with ⟨a, b, c⟩ | ⟨rem, a, b, c⟩
    · -- the whole chunk was accepted
      subst a b
      dsimp only
      apply body_complete_transfer F T
        { conn with file_offset := conn.file_offset + bs.length } w2 _ hs hd
      refine ⟨?_, by rw [e3, h2], h3, h4, hp2, ho2, ?_, ?_, h9⟩
      · rw [c]
        unfold pending
        dsimp only
        rw [hs]
        dsimp only
        rw [hd, List.drop_length, List.nil_append, hoff2, List.drop_zero, List.append_assoc,
          ← hsplit]
        exact h1
      · intro e; rw [hs] at e; exact absurd e (by decide)
      · intro _
        rw [e4]
        dsimp only
        refine ⟨?_, hbsle⟩
        rw [hoff]; push_cast; rfl
    · -- would-block in the middle of the chunk
      subst a b
      dsimp only
      refine ⟨?_, by rw [e3, h2], h3, Nat.zero_le _, hp2, ho2, ?_, ?_, h9⟩
      · unfold pending
        dsimp only
        rw [hs]
        dsimp only
        rw [List.drop_zero, hoff2, ← List.append_assoc, c, List.drop_zero, List.append_assoc,
          ← hsplit]
        exact h1
      · intro e; rw [hs] at e; exact absurd e (by decide)
      · intro _
        rw [e4]
        refine ⟨?_, hbsle⟩
        rw [hoff]; push_cast; rfl
  · rw [if_neg hlt]
    exact body_complete_transfer F T conn w h0 hs hd


theorem handle_write_transfer (F T : Str) (conn : Connection) (w : World)
    (h : Transfer F T conn w) :
    Transfer F T (handle_write conn w).1 (handle_write conn w).2.2 := by
  have h0 := h
  obtain ⟨h1, h2, h3, h4, h5, h6, h7, h8, h9⟩ := h
  unfold handle_write
  by_cases hst : conn.state ≠ ConnState.SENDING_HEADERS ∧ conn.state ≠ ConnState.SENDING_BODY
  · rw [if_pos hst]; exact h0
  · rw [if_neg hst]
    have hspec := drain_out_buf_spec (conn.out_buf.length - conn.out_sent) conn w h5
      (Nat.le_refl _) h4
    generalize drain_out_buf (conn.out_buf.length - conn.out_sent) conn w = res at hspec ⊢
    obtain ⟨d, c2, w2⟩ := res
    obtain ⟨k, hc2, hk1, hk2, hwire, hd, e1, e2, e3, e4⟩ := hspec
    dsimp only at hc2 hwire hd e1 e2 e3 e4
    have hp2 : polite_send w2 := polite_send_of_eq e1 h5
    have ho2 : orderly_reads w2 := by
      intro i k; rw [e2]; exact h6 i k
    subst hc2
    -- the invariant after the drain loop
    have hT : Transfer F T { conn with out_sent := k } w2 := by
      refine ⟨?_, by rw [e3, h2], h3, hk2, hp2, ho2, ?_, ?_, h9⟩
      · rw [← h1]
        unfold pending
        dsimp only
        cases hcs : conn.state <;> dsimp only
        · rw [hcs] at hst; exact absurd ⟨by decide, by decide⟩ hst
        · exact absurd hcs h9
        · rw [← List.append_assoc, hwire, List.append_assoc]
        · rw [← List.append_assoc, hwire, List.append_assoc]
        · rw [hcs] at hst; exact absurd ⟨by decide, by decide⟩ hst
      · intro e; rw [e4]; exact h7 e
      · intro e; rw [e4]; exact h8 e
    rcases hd with ⟨hd, hk⟩ | hd
    · subst hd
      dsimp only
      by_cases hsh : conn.state = ConnState.SENDING_HEADERS
      · rw [if_pos hsh]
        obtain ⟨a1, a2, a3, a4⟩ := h7 hsh
        have hw2 : w2.wire ++ F = T := by
          obtain ⟨t1, _⟩ := hT
          unfold pending at t1
          dsimp only at t1
          rw [hsh] at t1
          dsimp only at t1
          rw [hk, List.drop_length, List.nil_append] at t1
          exact t1
        by_cases hnb : conn.head_only = true ∨ conn.file_size = 0 ∨ conn.file_fd < 0
        · rw [if_pos hnb]
          have hF : F = [] := by
            rcases hnb with hb | hb | hb
            · rw [a4] at hb; exact absurd hb (by decide)
            · rw [h3] at hb
              exact List.length_eq_zero.mp (by exact_mod_cast hb)
            · omega
          rw [hF, List.append_nil] at hw2
          have hns : ∀ b : Bool, next_state b ≠ ConnState.SENDING_HEADERS ∧
              next_state b ≠ ConnState.SENDING_BODY ∧
              next_state b ≠ ConnState.PREPARING_RESPONSE := by
            intro b; cases b <;> decide
          have hpn : ∀ (b : Bool) (c3 : Connection), c3.state = next_state b →
              pending F c3 = [] := by
            intro b c3 e
            unfold pending
            rw [e]
            cases b <;> rfl
          rw [if_pos a3]
          dsimp only
          refine ⟨?_, by rw [← h2, ← e3]; rfl, h3, Nat.le_refl _, hp2, ho2, ?_, ?_, (hns _).2.2⟩
          · rw [hpn (!conn.keep_alive) _ rfl, List.append_nil]; exact hw2
          · intro e; exact absurd e (hns _).1
          · intro e; exact absurd e (hns _).2.1
        · rw [if_neg hnb]
          apply send_body_transfer F T
            { conn with state := ConnState.SENDING_BODY, out_buf := [], out_sent := 0 } w2 _ rfl rfl
          refine ⟨?_, by rw [e3, h2], h3, Nat.le_refl _, hp2, ho2, ?_, ?_, ?_⟩
          · unfold pending
            dsimp only
            rw [a1]
            exact hw2
          · intro e; dsimp only at e; exact absurd e (by decide)
          · intro _
            rw [e4, a2, a1]
            exact ⟨rfl, Nat.zero_le _⟩
          · dsimp only; decide
      · rw [if_neg hsh]
        have hsb : conn.state = ConnState.SENDING_BODY := by
          by_contra hne; exact hst ⟨hsh, hne⟩
        exact send_body_transfer F T { conn with out_sent := k } w2 hT hsb hk
    · subst hd
      exact hT

theorem write_calls_transfer (F T : Str) (n : Nat) : ∀ (conn : Connection) (w : World),
    Transfer F T conn w → Transfer F T (write_calls n conn w).1 (write_calls n conn w).2 := by
  induction n with
  | zero => intro conn w h; exact h
  | succ n ih =>
    intro conn w h
    exact ih _ _ (handle_write_transfer F T conn w h)

theorem transfer_wire (F T : Str) (conn : Connection) (w : World) (h : Transfer F T conn w) :
    w.wire <+: T ∧
    (conn.state ≠ ConnState.SENDING_HEADERS → conn.state ≠ ConnState.SENDING_BODY → w.wire = T) := by
  obtain ⟨h1, -⟩ := h
  refine ⟨⟨_, h1⟩, ?_⟩
  intro a b
  rw [← h1]
  unfold pending
  cases hcs : conn.state <;> simp_all


theorem prepare_response_200_inv (c : Connection) (cfg : ServerConfig) (w : World)
    (hho : c.head_only = false)
    (h200 : (prepare_response c cfg w).1.status_code = 200) :
    ∃ st, w.fs_stat (cfg.doc_root ++ normalize_target c.path) = some st ∧
      0 ≤ w.fs_open (cfg.doc_root ++ normalize_target c.path) ∧
      prepare_response c cfg w =
        ({ c with keep_alive := cfg.keep_alive_default, file_size := st.st_size, file_offset := 0,
                  status_code := 200,
                  out_buf := build_headers 200 (size_t_of st.st_size)
                    (get_mime_type (cfg.doc_root ++ normalize_target c.path))
                    cfg.keep_alive_default,
                  out_sent := 0,
                  file_fd := w.fs_open (cfg.doc_root ++ normalize_target c.path),
                  state := ConnState.SENDING_HEADERS },
         { w with file_data := w.fs_data (cfg.doc_root ++ normalize_target c.path),
                  file_pos := 0,
                  log := w.log ++ [Event.stat (cfg.doc_root ++ normalize_target c.path)] ++
                    [Event.opened (cfg.doc_root ++ normalize_target c.path)
                      (w.fs_open (cfg.doc_root ++ normalize_target c.path))] }) := by
  generalize hr : prepare_response c cfg w = r at h200 ⊢
  unfold prepare_response at hr
  simp only [sys_stat, sys_open] at hr
  split at hr
  · subst hr; exact absurd h200 (by simp [error_reply])
  · split at hr
    · subst hr; exact absurd h200 (by simp [error_reply])
    · split at hr
      · subst hr; exact absurd h200 (by simp [error_reply])
      · split at hr
        · subst hr; exact absurd h200 (by simp [error_reply])
        · split at hr
          · subst hr; exact absurd h200 (by simp [error_reply])
          · split at hr
            · rename_i hh; rw [hho] at hh; exact absurd hh (by decide)
            · rename_i st w1 heq _ _ _
              simp only [Prod.mk.injEq] at heq
              obtain ⟨hst, hw⟩ := heq
              subst hw
              dsimp only at hr
              by_cases hfd : w.fs_open (cfg.doc_root ++ normalize_target c.path) < 0
              · simp only [hfd, if_true] at hr
                subst hr
                exact absurd h200 (by simp [error_reply])
              · simp only [hfd, if_false] at hr
                subst hr
                exact ⟨st, hst, not_lt.mp hfd, by simp only [List.append_assoc]⟩


theorem prepare_response_transfer (c : Connection) (cfg : ServerConfig) (w : World)
    (hho : c.head_only = false)
    (h200 : (prepare_response c cfg w).1.status_code = 200)
    (hsize : ∀ st, w.fs_stat (cfg.doc_root ++ normalize_target c.path) = some st →
      st.st_size = (w.fs_data (cfg.doc_root ++ normalize_target c.path)).length)
    (hp : polite_send w) (ho : orderly_reads w) :
    Transfer (w.fs_data (cfg.doc_root ++ normalize_target c.path))
      (w.wire ++ (prepare_response c cfg w).1.out_buf ++
        w.fs_data (cfg.doc_root ++ normalize_target c.path))
      (prepare_response c cfg w).1 (prepare_response c cfg w).2 := by
  obtain ⟨st, hst, hfd, heq⟩ := prepare_response_200_inv c cfg w hho h200
  rw [heq]
  refine ⟨?_, rfl, hsize st hst, Nat.zero_le _, hp, ho, ?_, ?_, ?_⟩
  · simp only [pending, List.drop_zero, List.append_assoc]
  · intro _; exact ⟨rfl, rfl, hfd, hho⟩
  · intro e; dsimp only at e; exact absurd e (by decide)
  · dsimp only; decide

/-- C3: let `H` be the header block prepared by `prepare_response` for a 200 GET of a
file with content `F`. Over a transport whose every `send` accepts between 1 and
the offered number of bytes or would-blocks, with file reads that deliver the
file in order, after any number `n` of `handle_write` calls the bytes `sent`
accepted by the peer since the response was prepared are a prefix of `H ++ F`,
and they are exactly `H ++ F` once the connection is in neither sending state. -/
theorem partial_writes_deliver_in_order (c : Connection) (cfg : ServerConfig) (w : World)
    (hho : c.head_only = false)
    (h200 : (prepare_response c cfg w).1.status_code = 200)
    (hsize : ∀ st, w.fs_stat (cfg.doc_root ++ normalize_target c.path) = some st →
      st.st_size = (w.fs_data (cfg.doc_root ++ normalize_target c.path)).length)
    (hp : polite_send w) (ho : orderly_reads w) (n : Nat) :
    ∃ sent,
      (write_calls n (prepare_response c cfg w).1 (prepare_response c cfg w).2).2.wire
        = w.wire ++ sent ∧
      sent <+: (prepare_response c cfg w).1.out_buf ++
        w.fs_data (cfg.doc_root ++ normalize_target c.path) ∧
      ((write_calls n (prepare_response c cfg w).1 (prepare_response c cfg w).2).1.state
          ≠ ConnState.SENDING_HEADERS →
       (write_calls n (prepare_response c cfg w).1 (prepare_response c cfg w).2).1.state
          ≠ ConnState.SENDING_BODY →
       sent = (prepare_response c cfg w).1.out_buf ++
        w.fs_data (cfg.doc_root ++ normalize_target c.path)) := by
  have hT := transfer_wire _ _ _ _
    (write_calls_transfer _ _ n _ _ (prepare_response_transfer c cfg w hho h200 hsize hp ho))
  have hmono := write_calls_wire n (prepare_response c cfg w).1 (prepare_response c cfg w).2
  rw [(prepare_response_quiet c cfg w).1] at hmono
  obtain ⟨sent, hs⟩ := hmono
  rw [← hs, List.append_assoc] at hT
  refine ⟨sent, hs.symm, (List.prefix_append_right_inj _).mp hT.1, ?_⟩
  intro h1 h2
  exact List.append_cancel_left (hT.2 h1 h2)

theorem slow_peer_polite : polite_send slow_peer := by
  intro i k hk
  by_cases h : i % 2 = 1
  · left; simp [slow_peer, h]
  · right
    refine ⟨min 2 k, by simp [slow_peer, h], ?_, Nat.min_le_right _ _⟩
    omega

theorem slow_peer_orderly : orderly_reads slow_peer :=
  fun _ k hk => ⟨k, rfl, hk, Nat.le_refl _⟩

/-- C3 (witness): the 5-byte `/a.png` over a socket that would-blocks after every 2
bytes: after 44 write-ready notifications the connection is `CLOSING` and the
peer holds the header block followed by the 5 bytes, in order. -/
theorem partial_writes_deliver_in_order_witness :
    (write_calls 44 (prepare_response (parsed "GET /a.png HTTP/1.1\r\n\r\n") {} slow_peer).1
      (prepare_response (parsed "GET /a.png HTTP/1.1\r\n\r\n") {} slow_peer).2).1.state
      = ConnState.CLOSING ∧
    (write_calls 44 (prepare_response (parsed "GET /a.png HTTP/1.1\r\n\r\n") {} slow_peer).1
      (prepare_response (parsed "GET /a.png HTTP/1.1\r\n\r\n") {} slow_peer).2).2.wire
      = ("HTTP/1.1 200 OK\r\nContent-Length: 5\r\nContent-Type: image/png\r\n" ++
         "Connection: close\r\n\r\n\x89PNG\n").toList := by
  have hstate : (write_calls 44 (prepare_response (parsed "GET /a.png HTTP/1.1\r\n\r\n") {} slow_peer).1
      (prepare_response (parsed "GET /a.png HTTP/1.1\r\n\r\n") {} slow_peer).2).1.state
      = ConnState.CLOSING := by decide
  refine ⟨hstate, ?_⟩
  obtain ⟨sent, h1, -, h3⟩ := partial_writes_deliver_in_order
    (parsed "GET /a.png HTTP/1.1\r\n\r\n") {} slow_peer (by decide) (by decide)
    (by intro st hst
        have e : slow_peer.fs_stat (({} : ServerConfig).doc_root ++
          normalize_target (parsed "GET /a.png HTTP/1.1\r\n\r\n").path) = some ⟨true, 5⟩ := by
          decide
        rw [e] at hst; cases hst; decide)
    slow_peer_polite slow_peer_orderly 44
  rw [h1, h3 (by rw [hstate]; decide) (by rw [hstate]; decide)]
  decide

/-! ## The request line on a recycled connection -/

/-- C4 (failing input): on a keep-alive connection that has served
`GET /index.html HTTP/1.1`, the request line `GET` (one token) is accepted:
`parse_request` returns `true` with the path `/index.html` left over from the
previous request, and `handle_read` prepares a response instead of closing. The
same bytes are rejected on a fresh connection. -/
theorem one_token_line_accepted_after_recycle :
    recycled.1.state = ConnState.READING_REQUEST ∧ recycled.1.in_buf = [] ∧
    (parse_request { in_buf := "GET\r\n\r\n".toList }).1 = false ∧
    (parse_request { recycled.1 with in_buf := "GET\r\n\r\n".toList }).1 = true ∧
    (parse_request { recycled.1 with in_buf := "GET\r\n\r\n".toList }).2.path
      = "/index.html".toList ∧
    (handle_read recycled.1 keep_alive_cfg recycled.2.2).1.state = ConnState.SENDING_HEADERS ∧
    (handle_read recycled.1 keep_alive_cfg recycled.2.2).2.1 = false := by
  decide


/-! ## Dispatch order in the event loop -/

theorem sole_key_of_nodup (s : Slot) (L : List Slot) (hnd : (L.map Slot.fd).Nodup)
    (hs : s ∈ L) : sole_key s L :=
  ⟨hs, fun _ ht e => List.inj_on_of_nodup_map hnd ht hs e⟩

theorem emplace_sole_key (s x : Slot) (L : List Slot) (h : sole_key s L) :
    sole_key s (emplace L x) := by
  unfold emplace
  split
  · exact h
  · rename_i hany
    refine ⟨List.mem_append_left _ h.1, ?_⟩
    intro t ht e
    rcases List.mem_append.mp ht with ht | ht
    · exact h.2 t ht e
    · exfalso
      apply hany
      rw [List.any_eq_true]
      refine ⟨s, h.1, ?_⟩
      rw [List.mem_singleton] at ht
      subst ht
      simp [e]

theorem accept_all_sole_key (s : Slot) (acc : List (Int × World)) :
    ∀ L : List Slot, sole_key s L → sole_key s (accept_all L acc) := by
  induction acc with
  | nil => intro L h; exact h
  | cons a rest ih =>
    intro L h
    obtain ⟨client_fd, w⟩ := a
    unfold accept_all
    split
    · exact ih L h
    · exact ih _ (emplace_sole_key s _ L h)

theorem write_interest_false (s : Slot) (L : List Slot) (h : sole_key s L)
    (hst : s.conn.state = ConnState.READING_REQUEST) : write_interest L s.fd = false := by
  unfold write_interest
  rw [List.any_eq_false]
  intro t ht
  by_cases e : t.fd = s.fd
  · rw [h.2 t ht e, hst]; simp
  · simp [e]

theorem sys_close_quiet (w : World) (fd : Int) : quiet w (sys_close w fd) := ⟨rfl, rfl⟩

theorem reap_mem (keys : List Int) : ∀ (L R : List Slot) (x : Slot),
    x ∈ (reap L R keys).1 ++ (reap L R keys).2 →
    x ∈ R ∨ ∃ t ∈ L, x.fd = t.fd ∧ quiet t.world x.world := by
  induction keys with
  | nil =>
    intro L R x hx
    rcases List.mem_append.mp hx with h | h
    · exact Or.inr ⟨x, h, rfl, rfl, rfl⟩
    · exact Or.inl h
  | cons fd rest ih =>
    intro L R x hx
    unfold reap at hx
    split at hx
    · exact ih L R x hx
    · rename_i t hfind
      have htL : t ∈ L := List.mem_of_find?_eq_some hfind
      rcases ih _ _ x hx with h | ⟨u, hu, e, q⟩
      · rcases List.mem_append.mp h with h | h
        · exact Or.inl h
        · rw [List.mem_singleton] at h
          subst h
          refine Or.inr ⟨t, htL, rfl, ?_⟩
          dsimp only
          split
          · exact quiet_trans (sys_close_quiet _ _) (sys_close_quiet _ _)
          · exact sys_close_quiet _ _
      · exact Or.inr ⟨u, (List.eraseP_sublist L).subset hu, e, q⟩

/-- C10 (amended): a connection that starts an iteration in `READING_REQUEST` is not in
`writefds` for that iteration, whatever `pselect` reports; so even when its
`handle_read` receives a complete request and moves it to `SENDING_HEADERS`,
`handle_write` is not dispatched on it: at the end of the iteration (live or
reaped) no `send` has been performed and no byte has reached its peer.
Transmission begins in a later iteration. -/
theorem read_ready_connection_sends_nothing (listen_fd : Int) (cfg : ServerConfig) (conns : List Slot) (k : Readiness)
    (s : Slot) (hnd : (conns.map Slot.fd).Nodup) (hs : s ∈ conns)
    (hst : s.conn.state = ConnState.READING_REQUEST) :
    write_interest conns s.fd = false ∧
    ∀ x ∈ (worker_iteration listen_fd cfg conns k).1 ++ (worker_iteration listen_fd cfg conns k).2,
      x.fd = s.fd → x.world.wire = s.world.wire ∧ x.world.send_calls = s.world.send_calls := by
  have hsole := sole_key_of_nodup s conns hnd hs
  have hwi := write_interest_false s conns hsole hst
  refine ⟨hwi, ?_⟩
  intro x hx hfd
  have base : ∀ y ∈ conns, y.fd = s.fd → quiet s.world y.world := by
    intro y hy e; rw [hsole.2 y hy e]; exact ⟨rfl, rfl⟩
  unfold worker_iteration at hx
  dsimp only at hx
  split at hx
  · rw [List.append_nil] at hx; exact base x hx hfd
  · split at hx
    · rw [List.append_nil] at hx; exact base x hx hfd
    · generalize hc1 : (if (read_interest listen_fd conns listen_fd && k.readable listen_fd) = true
        then accept_all conns k.accepts else conns) = conns1 at hx
      have hsole1 : sole_key s conns1 := by
        rw [← hc1]; split
        · exact accept_all_sole_key s _ conns hsole
        · exact hsole
      rcases reap_mem _ _ _ x hx with h | ⟨t, ht, e, q⟩
      · exact absurd h (List.not_mem_nil _)
      · rw [List.map_map, List.map_map, List.mem_map] at ht
        obtain ⟨u, hu, rfl⟩ := ht
        rw [List.mem_map] at hu
        obtain ⟨v, hv, rfl⟩ := hu
        -- `v` is the entry before the dispatch loops
        have hfd1 : ∀ v : Slot, (serve_read cfg
            (fun fd => read_interest listen_fd conns fd && k.readable fd) v).1.fd = v.fd := by
          intro v; unfold serve_read; split <;> rfl
        have hfd2 : ∀ v : Slot, (serve_write
            (fun fd => write_interest conns fd && k.writable fd) v).1.fd = v.fd := by
          intro v; unfold serve_write; split <;> rfl
        have hvs : v = s := by
          apply hsole1.2 v hv
          rw [← hfd, e]
          simp only [Function.comp]
          rw [hfd2, hfd1]
        subst hvs
        have hq1 : quiet v.world (serve_read cfg
            (fun fd => read_interest listen_fd conns fd && k.readable fd) v).1.world := by
          unfold serve_read
          split
          · exact handle_read_quiet _ _ _
          · exact ⟨rfl, rfl⟩
        have hq2 : (serve_write (fun fd => write_interest conns fd && k.writable fd)
            (serve_read cfg (fun fd => read_interest listen_fd conns fd && k.readable fd) v).1).1
            = (serve_read cfg (fun fd => read_interest listen_fd conns fd && k.readable fd) v).1 := by
          unfold serve_write
          dsimp only
          rw [hfd1, hwi]
          rfl
        simp only [Function.comp] at q
        rw [hq2] at q
        exact quiet_trans hq1 q

/-- C10 (counterexample): the request is complete in the socket buffer and the socket
is readable and writable. After the iteration the connection is in
`SENDING_HEADERS` and not a single `send` has been made, although a
`handle_write` at that point would have sent. -/
theorem answered_request_not_sent_same_iteration :
    (worker_iteration 3 {} [eager_slot] all_ready).1.map
      Slot.view = [(7, ConnState.SENDING_HEADERS, 0, [])] ∧
    all_ready.writable 7 = true ∧
    (handle_read { fd := 7 } {} eager_peer).1.state = ConnState.SENDING_HEADERS ∧
    0 < (handle_write (handle_read { fd := 7 } {} eager_peer).1
      (handle_read { fd := 7 } {} eager_peer).2.2).2.2.send_calls := by
  decide

/-- C10 (witness): the single entry `eager_slot`, everything ready. -/
theorem read_ready_connection_sends_nothing_witness :
    write_interest [eager_slot] eager_slot.fd = false :=
  (read_ready_connection_sends_nothing 3 {} [eager_slot] all_ready eager_slot (by decide)
    (List.mem_singleton.mpr rfl) rfl).1

/-! ## Frames of the system calls -/

theorem same_oracles_refl (w : World) : same_oracles w w := ⟨rfl, rfl, rfl, rfl, rfl, rfl⟩

theorem same_oracles_trans {w1 w2 w3 : World} (h12 : same_oracles w1 w2)
    (h23 : same_oracles w2 w3) : same_oracles w1 w3 := by
  obtain ⟨a1, a2, a3, a4, a5, a6⟩ := h12
  obtain ⟨b1, b2, b3, b4, b5, b6⟩ := h23
  exact ⟨b1.trans a1, b2.trans a2, b3.trans a3, b4.trans a4, b5.trans a5, b6.trans a6⟩

theorem same_oracles_symm {w1 w2 : World} (h : same_oracles w1 w2) : same_oracles w2 w1 := by
  obtain ⟨a1, a2, a3, a4, a5, a6⟩ := h
  exact ⟨a1.symm, a2.symm, a3.symm, a4.symm, a5.symm, a6.symm⟩

theorem no_file_event_refl (w : World) : no_file_event w w := ⟨same_oracles_refl w, rfl, rfl⟩

theorem no_file_event_trans {w1 w2 w3 : World} (h12 : no_file_event w1 w2)
    (h23 : no_file_event w2 w3) : no_file_event w1 w3 :=
  ⟨same_oracles_trans h12.1 h23.1, h23.2.1.trans h12.2.1, h23.2.2.trans h12.2.2⟩

theorem opens_append (l1 l2 : List Event) : opens (l1 ++ l2) = opens l1 ++ opens l2 := by
  unfold opens; exact List.filterMap_append _ _ _

theorem closes_append (l1 l2 : List Event) : closes (l1 ++ l2) = closes l1 ++ closes l2 := by
  unfold closes; exact List.filterMap_append _ _ _

theorem sys_stat_nfe (w : World) (p : Str) : no_file_event w (sys_stat w p).2 := by
  refine ⟨same_oracles_refl w, ?_, ?_⟩
  · show opens (w.log ++ [Event.stat p]) = opens w.log
    rw [opens_append]; exact List.append_nil _
  · show closes (w.log ++ [Event.stat p]) = closes w.log
    rw [closes_append]; exact List.append_nil _

theorem sys_recv_nfe (w : World) (len : Nat) : no_file_event w (sys_recv w len).2 := by
  refine ⟨same_oracles_refl w, ?_, ?_⟩
  · show opens (w.log ++ [Event.recv _]) = opens w.log
    rw [opens_append]; exact List.append_nil _
  · show closes (w.log ++ [Event.recv _]) = closes w.log
    rw [closes_append]; exact List.append_nil _

theorem sys_send_nfe (w : World) (offered : Str) : no_file_event w (sys_send w offered).2 := by
  refine ⟨same_oracles_refl w, ?_, ?_⟩
  · show opens (w.log ++ [Event.send _ _]) = opens w.log
    rw [opens_append]; exact List.append_nil _
  · show closes (w.log ++ [Event.send _ _]) = closes w.log
    rw [closes_append]; exact List.append_nil _

theorem sys_read_nfe (w : World) (fd : Int) (k : Int) : no_file_event w (sys_read w fd k).2 := by
  unfold sys_read
  dsimp only
  split
  · refine ⟨same_oracles_refl w, ?_, ?_⟩
    · show opens (w.log ++ [Event.read _ _ _]) = opens w.log
      rw [opens_append]; exact List.append_nil _
    · show closes (w.log ++ [Event.read _ _ _]) = closes w.log
      rw [closes_append]; exact List.append_nil _
  · refine ⟨same_oracles_refl w, ?_, ?_⟩
    · show opens (w.log ++ [Event.read _ _ _]) = opens w.log
      rw [opens_append]; exact List.append_nil _
    · show closes (w.log ++ [Event.read _ _ _]) = closes w.log
      rw [closes_append]; exact List.append_nil _

theorem sys_open_frame (w : World) (p : Str) :
    (sys_open w p).1 = w.fs_open p ∧ same_oracles w (sys_open w p).2 ∧
    opens (sys_open w p).2.log = opens w.log ++ (if 0 ≤ w.fs_open p then [w.fs_open p] else []) ∧
    closes (sys_open w p).2.log = closes w.log := by
  unfold sys_open
  dsimp only
  by_cases h : w.fs_open p < 0
  · rw [if_pos h]
    have h2 : ¬ 0 ≤ w.fs_open p := by omega
    refine ⟨rfl, same_oracles_refl w, ?_, ?_⟩
    · show opens (w.log ++ [Event.opened p (w.fs_open p)]) = _
      rw [opens_append, if_neg h2]
      simp [opens, h2]
    · show closes (w.log ++ [Event.opened p (w.fs_open p)]) = _
      rw [closes_append]; exact List.append_nil _
  · rw [if_neg h]
    have h2 : 0 ≤ w.fs_open p := by omega
    refine ⟨rfl, same_oracles_refl w, ?_, ?_⟩
    · show opens (w.log ++ [Event.opened p (w.fs_open p)]) = _
      rw [opens_append, if_pos h2]
      simp [opens, h2]
    · show closes (w.log ++ [Event.opened p (w.fs_open p)]) = _
      rw [closes_append]; exact List.append_nil _

theorem sys_close_frame (w : World) (fd : Int) :
    same_oracles w (sys_close w fd) ∧ opens (sys_close w fd).log = opens w.log ∧
    closes (sys_close w fd).log = closes w.log ++ [fd] := by
  refine ⟨same_oracles_refl w, ?_, ?_⟩
  · show opens (w.log ++ [Event.close fd]) = opens w.log
    rw [opens_append]; exact List.append_nil _
  · show closes (w.log ++ [Event.close fd]) = _
    rw [closes_append]; rfl


/-! ## The four shapes of a prepared response -/

theorem prepare_response_shape (c : Connection) (cfg : ServerConfig) (w : World) :
    same_oracles w (prepare_response c cfg w).2 ∧
    closes (prepare_response c cfg w).2.log = closes w.log ∧
    ((∃ s msg, (s = 403 ∨ s = 404 ∨ s = 405) ∧
        (prepare_response c cfg w).1 =
          error_reply { c with keep_alive := cfg.keep_alive_default } s msg ∧
        opens (prepare_response c cfg w).2.log = opens w.log) ∨
     (∃ st, w.fs_stat (cfg.doc_root ++ normalize_target c.path) = some st ∧
        c.head_only = true ∧
        (prepare_response c cfg w).1 =
          { c with keep_alive := cfg.keep_alive_default, file_size := st.st_size,
                   file_offset := 0, status_code := 200,
                   out_buf := build_headers 200 0
                     (get_mime_type (cfg.doc_root ++ normalize_target c.path))
                     cfg.keep_alive_default,
                   out_sent := 0, state := ConnState.SENDING_HEADERS } ∧
        opens (prepare_response c cfg w).2.log = opens w.log) ∨
     (∃ st, w.fs_stat (cfg.doc_root ++ normalize_target c.path) = some st ∧
        c.head_only = false ∧
        w.fs_open (cfg.doc_root ++ normalize_target c.path) < 0 ∧
        (prepare_response c cfg w).1 =
          { error_reply { c with keep_alive := cfg.keep_alive_default } 404 "Not found".toList
              with out_sent := 0,
                   file_fd := w.fs_open (cfg.doc_root ++ normalize_target c.path),
                   file_size := 0, file_offset := 0 } ∧
        opens (prepare_response c cfg w).2.log = opens w.log) ∨
     (∃ st, w.fs_stat (cfg.doc_root ++ normalize_target c.path) = some st ∧
        c.head_only = false ∧
        0 ≤ w.fs_open (cfg.doc_root ++ normalize_target c.path) ∧
        (prepare_response c cfg w).1 =
          { c with keep_alive := cfg.keep_alive_default, file_size := st.st_size,
                   file_offset := 0, status_code := 200,
                   out_buf := build_headers 200 (size_t_of st.st_size)
                     (get_mime_type (cfg.doc_root ++ normalize_target c.path))
                     cfg.keep_alive_default,
                   out_sent := 0,
                   file_fd := w.fs_open (cfg.doc_root ++ normalize_target c.path),
                   state := ConnState.SENDING_HEADERS } ∧
        opens (prepare_response c cfg w).2.log =
          opens w.log ++ [w.fs_open (cfg.doc_root ++ normalize_target c.path)])) := by
  generalize hr : prepare_response c cfg w = r
  unfold prepare_response at hr
  dsimp only at hr
  have hstat := sys_stat_nfe w (cfg.doc_root ++ normalize_target c.path)
  have hstat1 : (sys_stat w (cfg.doc_root ++ normalize_target c.path)).1
      = w.fs_stat (cfg.doc_root ++ normalize_target c.path) := rfl
  split at hr
  · subst hr
    exact ⟨same_oracles_refl w, rfl, Or.inl ⟨405, _, Or.inr (Or.inr rfl), rfl, rfl⟩⟩
  · split at hr
    · subst hr
      exact ⟨same_oracles_refl w, rfl, Or.inl ⟨403, _, Or.inl rfl, rfl, rfl⟩⟩
    · split at hr
      · rename_i w1 heq
        rw [heq] at hstat
        subst hr
        exact ⟨hstat.1, hstat.2.2, Or.inl ⟨404, _, Or.inr (Or.inl rfl), rfl, hstat.2.1⟩⟩
      · rename_i st w1 heq
        rw [heq] at hstat hstat1
        dsimp only at hstat hstat1
        split at hr
        · subst hr
          exact ⟨hstat.1, hstat.2.2, Or.inl ⟨403, _, Or.inl rfl, rfl, hstat.2.1⟩⟩
        · split at hr
          · subst hr
            exact ⟨hstat.1, hstat.2.2, Or.inl ⟨403, _, Or.inl rfl, rfl, hstat.2.1⟩⟩
          · split at hr
            · rename_i hho
              subst hr
              refine ⟨hstat.1, hstat.2.2, Or.inr (Or.inl ⟨st, hstat1.symm, hho, ?_, hstat.2.1⟩)⟩
              simp only [hho, if_true]
            · rename_i hho
              have hho2 : c.head_only = false := by simpa using hho
              obtain ⟨o1, o2, o3, o4⟩ :=
                sys_open_frame w1 (cfg.doc_root ++ normalize_target c.path)
              have hopen : w1.fs_open (cfg.doc_root ++ normalize_target c.path)
                  = w.fs_open (cfg.doc_root ++ normalize_target c.path) := by
                rw [hstat.1.2.1]
              rw [hopen] at o1 o3
              generalize sys_open w1 (cfg.doc_root ++ normalize_target c.path) = ro at hr o1 o2 o3 o4
              obtain ⟨fd, w2⟩ := ro
              dsimp only at hr o1 o2 o3 o4
              subst o1
              split at hr
              · rename_i hfd
                subst hr
                have hn : ¬ 0 ≤ w.fs_open (cfg.doc_root ++ normalize_target c.path) := by omega
                rw [if_neg hn, List.append_nil] at o3
                refine ⟨same_oracles_trans hstat.1 o2, o4.trans hstat.2.2,
                  Or.inr (Or.inr (Or.inl ⟨st, hstat1.symm, hho2, hfd, ?_, o3.trans hstat.2.1⟩))⟩
                simp only [error_reply, hho2]
              · rename_i hfd
                subst hr
                have hn : 0 ≤ w.fs_open (cfg.doc_root ++ normalize_target c.path) := by omega
                rw [if_pos hn, hstat.2.1] at o3
                refine ⟨same_oracles_trans hstat.1 o2, o4.trans hstat.2.2,
                  Or.inr (Or.inr (Or.inr ⟨st, hstat1.symm, hho2, hn, ?_, o3⟩))⟩
                simp only [hho2, Bool.false_eq_true, if_false]

/-! ## Header block and error bodies -/

theorem build_headers_eq_spec (s : Int) (n : Nat) (t : Str) (k : Bool) :
    build_headers s n t k = spec_header_block s n t k := by
  unfold build_headers spec_header_block spec_header_lines
  by_cases h : s = 405 <;> cases k <;>
    simp only [h, if_true, if_false, join_crlf, List.append_assoc, List.cons_append,
      List.nil_append, List.append_nil, Bool.false_eq_true] <;> rfl

theorem digitChar_not_crlf (d : Nat) (hd : d < 10) :
    Nat.digitChar d ≠ '\r' ∧ Nat.digitChar d ≠ '\n' := by
  interval_cases d <;> decide

theorem toDigitsCore_not_crlf (fuel : Nat) : ∀ (n : Nat) (ds : List Char),
    (∀ ch ∈ ds, ch ≠ '\r' ∧ ch ≠ '\n') →
    ∀ ch ∈ Nat.toDigitsCore 10 fuel n ds, ch ≠ '\r' ∧ ch ≠ '\n' := by
  induction fuel with
  | zero => intro n ds h; exact h
  | succ fuel ih =>
    intro n ds h
    unfold Nat.toDigitsCore
    dsimp only
    have h2 : ∀ ch ∈ Nat.digitChar (n % 10) :: ds, ch ≠ '\r' ∧ ch ≠ '\n' := by
      intro ch hch
      rcases List.mem_cons.mp hch with e | e
      · rw [e]; exact digitChar_not_crlf _ (Nat.mod_lt _ (by decide))
      · exact h ch e
    split
    · exact h2
    · exact ih _ _ h2

theorem nat_to_string_one_line (n : Nat) : one_line (nat_to_string n) := by
  have h := toDigitsCore_not_crlf (n + 1) n [] (fun _ hch => absurd hch (List.not_mem_nil _))
  exact ⟨fun hm => (h _ hm).1 rfl, fun hm => (h _ hm).2 rfl⟩

theorem one_line_append {a b : Str} (ha : one_line a) (hb : one_line b) : one_line (a ++ b) := by
  refine ⟨fun h => ?_, fun h => ?_⟩
  · rcases List.mem_append.mp h with h | h
    · exact ha.1 h
    · exact hb.1 h
  · rcases List.mem_append.mp h with h | h
    · exact ha.2 h
    · exact hb.2 h

theorem get_mime_type_one_line (p : Str) : one_line (get_mime_type p) := by
  unfold get_mime_type
  split
  · constructor <;> decide
  · dsimp only
    split_ifs <;> (constructor <;> decide)

theorem spec_header_lines_one_line (code : Int) (n : Nat) (type : Str) (k : Bool)
    (hc : code = 200 ∨ code = 403 ∨ code = 404 ∨ code = 405) (ht : one_line type) :
    ∀ l ∈ spec_header_lines code n type k, one_line l := by
  intro l hl
  unfold spec_header_lines at hl
  have hstatus : one_line ("HTTP/1.1 ".toList ++ int_to_string code ++ " ".toList ++
      build_status_text code) := by
    rcases hc with h | h | h | h <;> subst h <;> (constructor <;> decide)
  have hcl : one_line ("Content-Length: ".toList ++ nat_to_string n) :=
    one_line_append (by constructor <;> decide) (nat_to_string_one_line n)
  have hct : one_line ("Content-Type: ".toList ++ type) :=
    one_line_append (by constructor <;> decide) ht
  have hconn : one_line (if k = true then "Connection: keep-alive".toList
      else "Connection: close".toList) := by
    cases k <;> (constructor <;> decide)
  have hnil : one_line ([] : Str) := ⟨List.not_mem_nil _, List.not_mem_nil _⟩
  have hallow : one_line "Allow: GET, HEAD".toList := by constructor <;> decide
  simp only [List.mem_append, List.mem_cons, List.mem_singleton, List.not_mem_nil, or_false] at hl
  rcases hl with (((h | h | h | h) | h) | h)
  · rw [h]; exact hstatus
  · rw [h]; exact hcl
  · rw [h]; exact hct
  · rw [h]; exact hconn
  · split at h
    · rw [List.mem_singleton] at h; rw [h]; exact hallow
    · exact absurd h (List.not_mem_nil _)
  · rw [h]; exact hnil


theorem error_reply_out_buf (c : Connection) (s : Int) (msg : Str) :
    (error_reply c s msg).out_buf =
      spec_header_block s (build_simple_html s msg).length "text/html; charset=utf-8".toList
        c.keep_alive ++ (if c.head_only then [] else build_simple_html s msg) := by
  unfold error_reply
  dsimp only
  rw [build_headers_eq_spec]
  split
  · rw [List.append_nil]
  · rfl

/-- C18: every `out_buf` produced by `prepare_response` is the header block of the
specification (status line of the resulting `status_code`, one `Content-Length`,
one `Content-Type`, the `Connection` line of the resulting `keep_alive`, `Allow`
exactly for 405, the empty line; every one of these a single line) followed by a
body, and for a HEAD request that body is empty whatever the status. -/
theorem out_buf_is_header_block_then_body (c : Connection) (cfg : ServerConfig) (w : World) :
    ∃ n type body,
      (prepare_response c cfg w).1.out_buf =
        spec_header_block (prepare_response c cfg w).1.status_code n type
          (prepare_response c cfg w).1.keep_alive ++ body ∧
      (∀ l ∈ spec_header_lines (prepare_response c cfg w).1.status_code n type
          (prepare_response c cfg w).1.keep_alive, one_line l) ∧
      (c.head_only = true → body = []) := by
  have hhtml : one_line "text/html; charset=utf-8".toList := by constructor <;> decide
  obtain ⟨-, -, h⟩ := prepare_response_shape c cfg w
  rcases h with ⟨s, msg, hs, hr, -⟩ | ⟨st, -, hho, hr, -⟩ | ⟨st, -, hho, -, hr, -⟩ |
    ⟨st, -, hho, -, hr, -⟩
  · rw [hr]
    refine ⟨(build_simple_html s msg).length, "text/html; charset=utf-8".toList,
      if c.head_only then [] else build_simple_html s msg, error_reply_out_buf _ s msg, ?_, ?_⟩
    · exact spec_header_lines_one_line s _ _ _ (Or.inr hs) hhtml
    · intro h; rw [h]; rfl
  · rw [hr]
    refine ⟨0, get_mime_type (cfg.doc_root ++ normalize_target c.path), [], ?_, ?_, fun _ => rfl⟩
    · dsimp only; rw [build_headers_eq_spec, List.append_nil]
    · exact spec_header_lines_one_line 200 _ _ _ (Or.inl rfl) (get_mime_type_one_line _)
  · rw [hr]
    refine ⟨(build_simple_html 404 "Not found".toList).length,
      "text/html; charset=utf-8".toList, build_simple_html 404 "Not found".toList, ?_, ?_, ?_⟩
    · show (error_reply _ 404 _).out_buf = _
      rw [error_reply_out_buf]
      dsimp only
      rw [hho]
      rfl
    · exact spec_header_lines_one_line 404 _ _ _ (Or.inr (Or.inr (Or.inl rfl))) hhtml
    · intro h; rw [hho] at h; exact absurd h (by decide)
  · rw [hr]
    refine ⟨size_t_of st.st_size, get_mime_type (cfg.doc_root ++ normalize_target c.path), [],
      ?_, ?_, fun _ => rfl⟩
    · dsimp only; rw [build_headers_eq_spec, List.append_nil]
    · exact spec_header_lines_one_line 200 _ _ _ (Or.inl rfl) (get_mime_type_one_line _)

theorem build_simple_html_embeds (s : Int) (msg : Str) :
    (int_to_string s ++ " ".toList ++ build_status_text s) <:+: build_simple_html s msg := by
  refine ⟨"<html><body><h1>".toList, "</h1><p>".toList ++ msg ++ "</p></body></html>".toList, ?_⟩
  simp only [build_simple_html, List.append_assoc]

/-- C19: a non-HEAD request that `prepare_response` answers with a status other than 200
gets a status `s` among 403, 404, 405; `out_buf` is the header block followed by
the body `build_simple_html s msg`, the `Content-Length` of the block is the
length of that body, the body contains the digits of `s`, a space and
`build_status_text s`, and the state is `SENDING_HEADERS`. When `open` fails after
a successful `stat` of an acceptable regular file, the answer is 404 with
`file_size = 0`, `file_offset = 0` and no handle (`file_fd` negative). -/
theorem error_reply_has_matching_body (c : Connection) (cfg : ServerConfig) (w : World)
    (hho : c.head_only = false) :
    ((prepare_response c cfg w).1.status_code ≠ 200 →
      ∃ msg,
        ((prepare_response c cfg w).1.status_code = 403 ∨
         (prepare_response c cfg w).1.status_code = 404 ∨
         (prepare_response c cfg w).1.status_code = 405) ∧
        (prepare_response c cfg w).1.out_buf =
          spec_header_block (prepare_response c cfg w).1.status_code
            (build_simple_html (prepare_response c cfg w).1.status_code msg).length
            "text/html; charset=utf-8".toList (prepare_response c cfg w).1.keep_alive ++
          build_simple_html (prepare_response c cfg w).1.status_code msg ∧
        (int_to_string (prepare_response c cfg w).1.status_code ++ " ".toList ++
          build_status_text (prepare_response c cfg w).1.status_code) <:+:
          build_simple_html (prepare_response c cfg w).1.status_code msg ∧
        (prepare_response c cfg w).1.state = ConnState.SENDING_HEADERS) ∧
    (∀ st, upper c.method = "GET".toList → ¬ "..".toList <:+: c.path →
      w.fs_stat (cfg.doc_root ++ normalize_target c.path) = some st → st.is_reg = true →
      ¬ size_t_of st.st_size > cfg.max_file_size →
      w.fs_open (cfg.doc_root ++ normalize_target c.path) < 0 →
      (prepare_response c cfg w).1.status_code = 404 ∧
      (prepare_response c cfg w).1.file_size = 0 ∧
      (prepare_response c cfg w).1.file_offset = 0 ∧
      (prepare_response c cfg w).1.file_fd < 0) := by
  constructor
  · intro hne
    obtain ⟨-, -, h⟩ := prepare_response_shape c cfg w
    rcases h with ⟨s, msg, hs, hr, -⟩ | ⟨st, -, hho2, -, -⟩ | ⟨st, -, -, -, hr, -⟩ |
      ⟨st, -, -, -, hr, -⟩
    · rw [hr]
      refine ⟨msg, hs, ?_, build_simple_html_embeds s msg, rfl⟩
      rw [error_reply_out_buf]
      dsimp only
      rw [hho]
      rfl
    · rw [hho] at hho2; exact absurd hho2 (by decide)
    · rw [hr]
      refine ⟨"Not found".toList, Or.inr (Or.inl rfl), ?_, build_simple_html_embeds _ _, rfl⟩
      show (error_reply _ 404 _).out_buf = _
      rw [error_reply_out_buf]
      dsimp only
      rw [hho]
      rfl
    · rw [hr] at hne; exact absurd rfl hne
  · intro st hm hdd hstat hreg hsz hfd
    obtain ⟨-, -, h⟩ := prepare_response_shape c cfg w
    have hm2 := method_allowed c.method (Or.inl hm)
    have hcd := no_dotdot_normalize c.path hdd
    have key : (prepare_response c cfg w).1 =
        { error_reply { c with keep_alive := cfg.keep_alive_default } 404 "Not found".toList
            with out_sent := 0,
                 file_fd := w.fs_open (cfg.doc_root ++ normalize_target c.path),
                 file_size := 0, file_offset := 0 } := by
      unfold prepare_response
      simp only [hm2, if_false, hcd, sys_stat, hstat, hreg, hsz, hho, Bool.not_true,
        Bool.false_eq_true, sys_open, hfd, if_true, error_reply]
    rw [key]
    exact ⟨rfl, rfl, rfl, hfd⟩

/-- C19 (witness): `GET /missing.txt` on an empty document root is answered 404. -/
theorem error_reply_has_matching_body_witness :
    ∃ msg, (prepare_response (parsed "GET /missing.txt HTTP/1.1\r\n\r\n") {}
        empty_root).1.out_buf =
      spec_header_block 404 (build_simple_html 404 msg).length
        "text/html; charset=utf-8".toList false ++ build_simple_html 404 msg := by
  obtain ⟨msg, -, h, -⟩ := (error_reply_has_matching_body
    (parsed "GET /missing.txt HTTP/1.1\r\n\r\n") {} empty_root (by decide)).1 (by decide)
  exact ⟨msg, h⟩

/-! ## What one call of `handle_read` can do -/

theorem parse_request_frame (c : Connection) :
    ∃ m p h, (parse_request c).2 = { c with method := m, path := p, head_only := h } := by
  unfold parse_request
  cases find "\r\n\r\n".toList c.in_buf with
  | none => exact ⟨c.method, c.path, c.head_only, rfl⟩
  | some pos =>
    dsimp only
    cases getline (List.take pos c.in_buf) with
    | none => exact ⟨c.method, c.path, c.head_only, rfl⟩
    | some line =>
      dsimp only
      generalize (if line.getLast? = some '\r' then line.dropLast else line) = rl
      by_cases hc : (extract { buf := rl, good := true } c.method).1 = [] ∨
          (extract (extract { buf := rl, good := true } c.method).2 c.path).1 = []
      · rw [if_pos hc]
        exact ⟨_, _, c.head_only, rfl⟩
      · rw [if_neg hc]
        exact ⟨_, _, _, rfl⟩

theorem log_error_nfe (w : World) :
    no_file_event w { w with log := w.log ++ [Event.log_error] } := by
  refine ⟨same_oracles_refl w, ?_, ?_⟩
  · show opens (w.log ++ [Event.log_error]) = opens w.log
    rw [opens_append]; exact List.append_nil _
  · show closes (w.log ++ [Event.log_error]) = closes w.log
    rw [closes_append]; exact List.append_nil _

theorem handle_read_loop_effect (cfg : ServerConfig) (fuel : Nat) :
    ∀ (conn : Connection) (w : World),
    (((handle_read_loop cfg fuel conn w).1 =
          { conn with in_buf := (handle_read_loop cfg fuel conn w).1.in_buf } ∧
        (handle_read_loop cfg fuel conn w).2.1 = false ∧
        no_file_event w (handle_read_loop cfg fuel conn w).2.2 ∧
        ((handle_read_loop cfg fuel conn w).1.in_buf = conn.in_buf ∨
          (find "\r\n\r\n".toList (handle_read_loop cfg fuel conn w).1.in_buf = none ∧
            (handle_read_loop cfg fuel conn w).1.in_buf.length ≤ 16 * 1024))) ∨
      (∃ m p h, (handle_read_loop cfg fuel conn w).1 =
          { conn with in_buf := (handle_read_loop cfg fuel conn w).1.in_buf, method := m,
                      path := p, head_only := h, state := ConnState.CLOSING } ∧
        (handle_read_loop cfg fuel conn w).2.1 = true ∧
        no_file_event w (handle_read_loop cfg fuel conn w).2.2 ∧
        (find "\r\n\r\n".toList (handle_read_loop cfg fuel conn w).1.in_buf = none →
          m = conn.method ∧ p = conn.path ∧ h = conn.head_only)) ∨
      (∃ b m p h w1, no_file_event w w1 ∧
        (find "\r\n\r\n".toList b).isSome = true ∧
        (handle_read_loop cfg fuel conn w).1 =
          (prepare_response { conn with in_buf := b, method := m, path := p, head_only := h }
            cfg w1).1 ∧
        (handle_read_loop cfg fuel conn w).2.2 =
          (prepare_response { conn with in_buf := b, method := m, path := p, head_only := h }
            cfg w1).2 ∧
        (handle_read_loop cfg fuel conn w).2.1 = false)) := by
  induction fuel with
  | zero =>
    intro conn w
    exact Or.inl ⟨rfl, rfl, no_file_event_refl w, Or.inl rfl⟩
  | succ fuel ih =>
    intro conn w
    unfold handle_read_loop
    have hrecv := sys_recv_nfe w READ_CHUNK
    generalize sys_recv w READ_CHUNK = rr at hrecv ⊢
    obtain ⟨r1, w2⟩ := rr
    dsimp only at hrecv
    cases r1 with
    | data bs =>
      dsimp only
      split
      · split
        · -- terminator present: parse
          obtain ⟨m, p, h, hp⟩ := parse_request_frame { conn with in_buf := conn.in_buf ++ bs }
          generalize parse_request { conn with in_buf := conn.in_buf ++ bs } = pr at hp ⊢
          obtain ⟨ok, c1⟩ := pr
          dsimp only at hp
          subst hp
          cases ok with
          | false =>
            rename_i hsome
            refine Or.inr (Or.inl ⟨m, p, h, rfl, rfl, hrecv, ?_⟩)
            intro hn
            dsimp only [abort_conn] at hn hsome
            rw [hn] at hsome
            exact absurd hsome (by decide)
          | true =>
            rename_i hsome
            exact Or.inr (Or.inr ⟨conn.in_buf ++ bs, m, p, h, w2, hrecv, hsome, rfl, rfl, rfl⟩)
        · rename_i hnt
          split
          · exact Or.inr (Or.inl ⟨conn.method, conn.path, conn.head_only, rfl, rfl, hrecv,
              fun _ => ⟨rfl, rfl, rfl⟩⟩)
          · rename_i hlen
            have hnone : find "\r\n\r\n".toList (conn.in_buf ++ bs) = none := by
              cases hf : find "\r\n\r\n".toList (conn.in_buf ++ bs) with
              | none => rfl
              | some v => rw [hf] at hnt; exact absurd rfl hnt
            rcases ih { conn with in_buf := conn.in_buf ++ bs } w2 with
              ⟨a1, a2, a3, a4⟩ | ⟨m, p, h, a1, a2, a3, a4⟩ | ⟨b, m, p, h, w1, a0, ab, a1, a2, a3⟩
            · refine Or.inl ⟨a1, a2, no_file_event_trans hrecv a3, Or.inr ?_⟩
              rcases a4 with e | e
              · rw [e]; exact ⟨hnone, by dsimp only at hlen ⊢; omega⟩
              · exact e
            · exact Or.inr (Or.inl ⟨m, p, h, a1, a2, no_file_event_trans hrecv a3, a4⟩)
            · exact Or.inr (Or.inr ⟨b, m, p, h, w1, no_file_event_trans hrecv a0, ab, a1, a2, a3⟩)
      · exact Or.inr (Or.inl ⟨conn.method, conn.path, conn.head_only, rfl, rfl, hrecv,
          fun _ => ⟨rfl, rfl, rfl⟩⟩)
    | eof =>
      exact Or.inr (Or.inl ⟨conn.method, conn.path, conn.head_only, rfl, rfl, hrecv,
        fun _ => ⟨rfl, rfl, rfl⟩⟩)
    | again => exact Or.inl ⟨rfl, rfl, hrecv, Or.inl rfl⟩
    | error =>
      exact Or.inr (Or.inl ⟨conn.method, conn.path, conn.head_only, rfl, rfl,
        no_file_event_trans hrecv (log_error_nfe w2), fun _ => ⟨rfl, rfl, rfl⟩⟩)


theorem handle_read_of_reading (conn : Connection) (cfg : ServerConfig) (w : World)
    (h : conn.state = ConnState.READING_REQUEST) :
    handle_read conn cfg w =
      handle_read_loop cfg (16 * 1024 - conn.in_buf.length + 1) conn w := by
  unfold handle_read
  rw [if_neg (fun hn => hn h)]

theorem handle_read_of_not_reading (conn : Connection) (cfg : ServerConfig) (w : World)
    (h : conn.state ≠ ConnState.READING_REQUEST) : handle_read conn cfg w = (conn, false, w) := by
  unfold handle_read
  rw [if_pos h]

theorem prepare_response_keeps (c : Connection) (cfg : ServerConfig) (w : World) :
    (prepare_response c cfg w).1.in_buf = c.in_buf ∧
    (prepare_response c cfg w).1.fd = c.fd ∧
    (prepare_response c cfg w).1.method = c.method ∧
    (prepare_response c cfg w).1.path = c.path ∧
    (prepare_response c cfg w).1.head_only = c.head_only ∧
    (prepare_response c cfg w).1.state = ConnState.SENDING_HEADERS ∧
    (prepare_response c cfg w).1.keep_alive = cfg.keep_alive_default := by
  obtain ⟨-, -, h⟩ := prepare_response_shape c cfg w
  rcases h with ⟨s, msg, -, hr, -⟩ | ⟨st, -, -, hr, -⟩ | ⟨st, -, -, -, hr, -⟩ |
    ⟨st, -, -, -, hr, -⟩ <;> rw [hr] <;> exact ⟨rfl, rfl, rfl, rfl, rfl, rfl, rfl⟩

/-! ## What one call of `handle_write` can do -/

theorem tame_send_of_same {w w2 : World} (h : same_oracles w w2) (ht : tame_send w) :
    tame_send w2 := by
  intro i k n e; rw [h.2.2.2.2.1] at e; exact ht i k n e

theorem tame_read_of_same {w w2 : World} (h : same_oracles w w2) (ht : tame_read w) :
    tame_read w2 := by
  intro i k n e; rw [h.2.2.2.2.2] at e; exact ht i k n e

theorem Wrote_refl (conn : Connection) (w : World) : Wrote conn w conn w :=
  ⟨rfl, rfl, rfl, rfl, rfl, rfl, rfl, same_oracles_refl w, rfl, Or.inl ⟨rfl, rfl⟩,
    fun _ h => h, fun _ h0 h1 => ⟨h0, h1⟩, Or.inl rfl, fun _ => Or.inl rfl, fun h => h⟩

theorem Wrote_trans {c1 c2 c3 : Connection} {w1 w2 w3 : World}
    (h12 : Wrote c1 w1 c2 w2) (h23 : Wrote c2 w2 c3 w3) : Wrote c1 w1 c3 w3 := by
  obtain ⟨a1, a2, a3, a4, a5, a6, a7, a8, a9, a10, a11, a12, a13, a14, a15⟩ := h12
  obtain ⟨b1, b2, b3, b4, b5, b6, b7, b8, b9, b10, b11, b12, b13, b14, b15⟩ := h23
  refine ⟨b1.trans a1, b2.trans a2, b3.trans a3, b4.trans a4, b5.trans a5, b6.trans a6,
    b7.trans a7, same_oracles_trans a8 b8, b9.trans a9, ?_, ?_, ?_, ?_, ?_, fun h => a15 (b15 h)⟩
  · rcases a10 with ⟨e1, e2⟩ | ⟨e0, e1, e2⟩
    · rcases b10 with ⟨f1, f2⟩ | ⟨f0, f1, f2⟩
      · exact Or.inl ⟨f1.trans e1, f2.trans e2⟩
      · exact Or.inr ⟨e1 ▸ f0, f1, by rw [f2, e2, e1]⟩
    · rcases b10 with ⟨f1, f2⟩ | ⟨f0, f1, f2⟩
      · exact Or.inr ⟨e0, f1.trans e1, by rw [f2, e2]⟩
      · rw [e1] at f0; exact absurd f0 (by decide)
  · intro ht h
    exact b11 (tame_send_of_same a8 ht) (a11 ht h)
  · intro ht h0 h1
    obtain ⟨x0, x1⟩ := a12 ht h0 h1
    rw [← a2] at x1
    have := b12 (tame_read_of_same a8 ht) x0 x1
    rw [a2] at this
    exact this
  · rcases b13 with e | e
    · rcases a13 with f | f
      · exact Or.inl (e.trans f)
      · exact Or.inr (e.trans f)
    · exact Or.inr e
  · intro h
    rcases b14 h with e | e
    · rw [e] at h
      rcases a14 h with f | f
      · exact Or.inl (e.trans f)
      · rw [e]; exact Or.inr f
    · exact Or.inr e

theorem drain_out_buf_wrote (fuel : Nat) : ∀ (conn : Connection) (w : World),
    conn.state ≠ ConnState.READING_REQUEST →
    Wrote conn w (drain_out_buf fuel conn w).2.1 (drain_out_buf fuel conn w).2.2 ∧
    (drain_out_buf fuel conn w).2.1.out_buf = conn.out_buf ∧
    (drain_out_buf fuel conn w).2.1.file_fd = conn.file_fd ∧
    (drain_out_buf fuel conn w).2.1.file_offset = conn.file_offset ∧
    (drain_out_buf fuel conn w).2.1.in_buf = conn.in_buf ∧
    conn.out_sent ≤ (drain_out_buf fuel conn w).2.1.out_sent ∧
    ((drain_out_buf fuel conn w).1 = Drain.failed →
      (drain_out_buf fuel conn w).2.1.state = ConnState.CLOSING) ∧
    ((drain_out_buf fuel conn w).1 ≠ Drain.failed →
      (drain_out_buf fuel conn w).2.1.state = conn.state) := by
  induction fuel with
  | zero =>
    intro conn w _
    exact ⟨Wrote_refl conn w, rfl, rfl, rfl, rfl, Nat.le_refl _, (fun h => by cases h),
      fun _ => rfl⟩
  | succ fuel ih =>
    intro conn w hst
    unfold drain_out_buf
    split
    · rename_i hlt
      have hnfe := sys_send_nfe w (List.drop conn.out_sent conn.out_buf)
      have hret : (sys_send w (List.drop conn.out_sent conn.out_buf)).1
          = w.send_script w.send_calls (List.drop conn.out_sent conn.out_buf).length := rfl
      generalize sys_send w (List.drop conn.out_sent conn.out_buf) = rs at hnfe hret ⊢
      obtain ⟨r1, w2⟩ := rs
      dsimp only at hnfe hret
      have frame : ∀ (c2 : Connection), c2.fd = conn.fd → c2.file_size = conn.file_size →
          c2.keep_alive = conn.keep_alive → c2.head_only = conn.head_only →
          c2.status_code = conn.status_code → c2.method = conn.method → c2.path = conn.path →
          c2.file_fd = conn.file_fd → c2.file_offset = conn.file_offset →
          c2.in_buf = conn.in_buf → c2.out_buf = conn.out_buf →
          c2.state ≠ ConnState.READING_REQUEST →
          (c2.state = ConnState.PREPARING_RESPONSE →
            conn.state = ConnState.PREPARING_RESPONSE) →
          (tame_send w → c2.out_sent ≤ conn.out_buf.length) → Wrote conn w c2 w2 := by
        intro c2 e1 e2 e3 e4 e5 e6 e7 e8 e9 e10 e11 e12 e13 e14
        refine ⟨e1, e2, e3, e4, e5, e6, e7, hnfe.1, hnfe.2.1, Or.inl ⟨e8, hnfe.2.2⟩, ?_, ?_,
          Or.inl e10, fun h => absurd h e12, e13⟩
        · intro ht _; rw [e11]; exact e14 ht
        · intro _ h0 h1; rw [e9]; exact ⟨h0, h1⟩
      cases r1 with
      | accepted n =>
        dsimp only
        split
        · rename_i hn
          obtain ⟨i1, i2, i3, i4, i5, i6, i7, i8⟩ :=
            ih { conn with out_sent := conn.out_sent + n } w2 hst
          refine ⟨Wrote_trans (frame { conn with out_sent := conn.out_sent + n } rfl rfl rfl rfl
            rfl rfl rfl rfl rfl rfl rfl hst (fun h => h) ?_) i1, i2, i3, i4, i5, ?_, i7, i8⟩
          · intro ht
            have := ht _ _ _ hret.symm
            rw [List.length_drop] at this
            dsimp only
            omega
          · dsimp only at i6; omega
        · refine ⟨frame { conn with state := ConnState.CLOSING } rfl rfl rfl rfl rfl rfl rfl rfl
            rfl rfl rfl (by intro h; cases h) (fun h => by cases h) (fun _ => by dsimp only; omega),
            rfl, rfl, rfl, rfl, Nat.le_refl _, fun _ => rfl, fun h => absurd rfl h⟩
      | again =>
        exact ⟨frame conn rfl rfl rfl rfl rfl rfl rfl rfl rfl rfl rfl hst (fun h => h)
          (fun _ => by omega), rfl, rfl, rfl, rfl, Nat.le_refl _, (fun h => by cases h),
          fun _ => rfl⟩
      | error =>
        refine ⟨frame { conn with state := ConnState.CLOSING } rfl rfl rfl rfl rfl rfl rfl rfl
            rfl rfl rfl (by intro h; cases h) (fun h => by cases h) (fun _ => by dsimp only; omega),
            rfl, rfl, rfl, rfl, Nat.le_refl _, fun _ => rfl, fun h => absurd rfl h⟩
    · exact ⟨Wrote_refl conn w, rfl, rfl, rfl, rfl, Nat.le_refl _, (fun h => by cases h),
        fun _ => rfl⟩


theorem Wrote_of_send (conn : Connection) (w : World) (c2 : Connection) (w2 : World)
    (hnfe : no_file_event w w2)
    (e1 : c2.fd = conn.fd) (e2 : c2.file_size = conn.file_size)
    (e3 : c2.keep_alive = conn.keep_alive) (e4 : c2.head_only = conn.head_only)
    (e5 : c2.status_code = conn.status_code) (e6 : c2.method = conn.method)
    (e7 : c2.path = conn.path) (e8 : c2.file_fd = conn.file_fd)
    (e10 : c2.in_buf = conn.in_buf)
    (e12 : c2.state ≠ ConnState.READING_REQUEST)
    (e13 : c2.state = ConnState.PREPARING_RESPONSE → conn.state = ConnState.PREPARING_RESPONSE)
    (e14 : tame_send w → conn.out_sent ≤ conn.out_buf.length → c2.out_sent ≤ c2.out_buf.length)
    (e15 : tame_read w → 0 ≤ conn.file_offset → conn.file_offset ≤ conn.file_size →
      0 ≤ c2.file_offset ∧ c2.file_offset ≤ conn.file_size) :
    Wrote conn w c2 w2 :=
  ⟨e1, e2, e3, e4, e5, e6, e7, hnfe.1, hnfe.2.1, Or.inl ⟨e8, hnfe.2.2⟩, e14, e15,
    Or.inl e10, fun h => absurd h e12, e13⟩

theorem send_chunk_wrote (buf : Str) (fuel : Nat) :
    ∀ (st : Nat) (conn : Connection) (w : World),
    conn.state ≠ ConnState.READING_REQUEST →
    Wrote conn w (send_chunk buf fuel st conn w).2.1 (send_chunk buf fuel st conn w).2.2 ∧
    ((send_chunk buf fuel st conn w).1 = Drain.drained →
      (send_chunk buf fuel st conn w).2.1 = conn) ∧
    ((send_chunk buf fuel st conn w).1 = Drain.blocked →
      (send_chunk buf fuel st conn w).2.1.state = conn.state) ∧
    ((send_chunk buf fuel st conn w).1 = Drain.failed →
      (send_chunk buf fuel st conn w).2.1.state = ConnState.CLOSING) := by
  induction fuel with
  | zero =>
    intro st conn w _
    exact ⟨Wrote_refl conn w, fun _ => rfl, (fun h => by cases h), (fun h => by cases h)⟩
  | succ fuel ih =>
    intro st conn w hst
    unfold send_chunk
    split
    · have hnfe := sys_send_nfe w (List.drop st buf)
      generalize sys_send w (List.drop st buf) = rs at hnfe ⊢
      obtain ⟨r1, w2⟩ := rs
      dsimp only at hnfe
      cases r1 with
      | accepted n =>
        dsimp only
        split
        · obtain ⟨i1, i2, i3, i4⟩ := ih (st + n) conn w2 hst
          exact ⟨Wrote_trans (Wrote_of_send conn w conn w2 hnfe rfl rfl rfl rfl rfl rfl rfl rfl rfl
            hst (fun h => h) (fun _ h => h) (fun _ h0 h1 => ⟨h0, h1⟩)) i1, i2, i3, i4⟩
        · exact ⟨Wrote_of_send conn w { conn with state := ConnState.CLOSING } w2 hnfe rfl rfl rfl
            rfl rfl rfl rfl rfl rfl (by intro h; cases h) (fun h => by cases h) (fun _ h => h)
            (fun _ h0 h1 => ⟨h0, h1⟩), (fun h => by cases h), (fun h => by cases h), fun _ => rfl⟩
      | again =>
        exact ⟨Wrote_of_send conn w { conn with out_buf := List.drop st buf, out_sent := 0 } w2
          hnfe rfl rfl rfl rfl rfl rfl rfl rfl rfl hst (fun h => h) (fun _ _ => Nat.zero_le _)
          (fun _ h0 h1 => ⟨h0, h1⟩), (fun h => by cases h), fun _ => rfl, (fun h => by cases h)⟩
      | error =>
        exact ⟨Wrote_of_send conn w { conn with state := ConnState.CLOSING } w2 hnfe rfl rfl rfl
            rfl rfl rfl rfl rfl rfl (by intro h; cases h) (fun h => by cases h) (fun _ h => h)
            (fun _ h0 h1 => ⟨h0, h1⟩), (fun h => by cases h), (fun h => by cases h), fun _ => rfl⟩
    · exact ⟨Wrote_refl conn w, fun _ => rfl, (fun h => by cases h), (fun h => by cases h)⟩

theorem next_state_cases (b : Bool) :
    next_state b ≠ ConnState.PREPARING_RESPONSE ∧ next_state b ≠ ConnState.SENDING_HEADERS ∧
    next_state b ≠ ConnState.SENDING_BODY := by
  cases b <;> decide

/-- The end of a response cycle, as written twice in `handle_write`: the buffers are
cleared, an open file handle is closed, the state is `next_state`. -/
theorem finish_wrote (conn : Connection) (w : World) (b : Bool) :
    Wrote conn w
      (if conn.file_fd ≥ 0 then
        { conn with file_fd := -1, state := next_state b, in_buf := [], out_buf := [],
                    out_sent := 0 }
       else { conn with state := next_state b, in_buf := [], out_buf := [], out_sent := 0 })
      (if conn.file_fd ≥ 0 then sys_close w conn.file_fd else w) := by
  by_cases hfd : conn.file_fd ≥ 0
  · rw [if_pos hfd, if_pos hfd]
    obtain ⟨c1, c2, c3⟩ := sys_close_frame w conn.file_fd
    exact ⟨rfl, rfl, rfl, rfl, rfl, rfl, rfl, c1, c2, Or.inr ⟨hfd, rfl, c3⟩,
      fun _ _ => Nat.le_refl _, fun _ h0 h1 => ⟨h0, h1⟩, Or.inr rfl,
      fun _ => Or.inr ⟨rfl, rfl, rfl, by dsimp only; omega⟩,
      fun h => absurd h (next_state_cases b).1⟩
  · rw [if_neg hfd, if_neg hfd]
    exact ⟨rfl, rfl, rfl, rfl, rfl, rfl, rfl, same_oracles_refl w, rfl, Or.inl ⟨rfl, rfl⟩,
      fun _ _ => Nat.le_refl _, fun _ h0 h1 => ⟨h0, h1⟩, Or.inr rfl,
      fun _ => Or.inr ⟨rfl, rfl, rfl, by dsimp only; omega⟩,
      fun h => absurd h (next_state_cases b).1⟩

theorem body_complete_eq (conn : Connection) (w : World) :
    body_complete conn w =
      if conn.file_offset ≥ conn.file_size then
        ((if conn.file_fd ≥ 0 then
            { conn with file_fd := -1, state := next_state (!conn.keep_alive), in_buf := [],
                        out_buf := [], out_sent := 0 }
          else { conn with state := next_state (!conn.keep_alive), in_buf := [], out_buf := [],
                           out_sent := 0 }),
          !conn.keep_alive,
          (if conn.file_fd ≥ 0 then sys_close w conn.file_fd else w))
      else (conn, false, w) := by
  unfold body_complete
  split
  · dsimp only
    split <;> rfl
  · rfl

theorem body_complete_wrote (conn : Connection) (w : World) :
    Wrote conn w (body_complete conn w).1 (body_complete conn w).2.2 := by
  rw [body_complete_eq]
  split
  · exact finish_wrote conn w _
  · exact Wrote_refl conn w


theorem sys_read_len (w : World) (fd : Int) (k : Int) (bs : Str)
    (h : (sys_read w fd k).1 = some bs) (ht : tame_read w) : bs.length ≤ k.toNat := by
  unfold sys_read at h
  dsimp only at h
  cases hr : w.read_script w.read_calls k.toNat with
  | got n =>
    rw [hr] at h
    dsimp only at h
    have hn := ht _ _ _ hr
    cases h
    rw [List.length_take]
    omega
  | fail =>
    rw [hr] at h
    cases h

theorem send_body_wrote (conn : Connection) (w : World) :
    Wrote conn w (send_body conn w).1 (send_body conn w).2.2 := by
  unfold send_body
  split
  · rename_i hsb
    have hnr : conn.state ≠ ConnState.READING_REQUEST := by rw [hsb]; decide
    split
    · rename_i hlt
      dsimp only
      generalize hk : (if conn.file_size - conn.file_offset < (FILE_CHUNK : Int)
        then conn.file_size - conn.file_offset else (FILE_CHUNK : Int)) = to_read
      have hkle : to_read ≤ conn.file_size - conn.file_offset := by
        rw [← hk]; split
        · exact le_refl _
        · omega
      have hnfe := sys_read_nfe w conn.file_fd to_read
      have hlen := sys_read_len w conn.file_fd to_read
      generalize sys_read w conn.file_fd to_read = rr at hnfe hlen ⊢
      obtain ⟨r1, w1⟩ := rr
      dsimp only at hnfe hlen
      have heof : Wrote conn w { conn with file_offset := conn.file_size } w1 :=
        Wrote_of_send conn w _ w1 hnfe rfl rfl rfl rfl rfl rfl rfl rfl rfl hnr (fun h => h)
          (fun _ h => h) (fun _ h0 h1 => ⟨by dsimp only; omega, le_refl _⟩)
      cases r1 with
      | none => exact Wrote_trans heof (body_complete_wrote _ _)
      | some file_buf =>
        dsimp only
        split
        · have hstep : Wrote conn w
              { conn with file_offset := conn.file_offset + file_buf.length } w1 := by
            refine Wrote_of_send conn w _ w1 hnfe rfl rfl rfl rfl rfl rfl rfl rfl rfl hnr
              (fun h => h) (fun _ h => h) ?_
            intro ht h0 h1
            have := hlen file_buf rfl ht
            dsimp only
            omega
          obtain ⟨s1, s2, s3, s4⟩ := send_chunk_wrote file_buf file_buf.length 0
            { conn with file_offset := conn.file_offset + file_buf.length } w1 hnr
          generalize send_chunk file_buf file_buf.length 0
            { conn with file_offset := conn.file_offset + file_buf.length } w1 = rc at s1 s2 s3 s4 ⊢
          obtain ⟨d, c2, w2⟩ := rc
          dsimp only at s1 s2 s3 s4
          cases d with
          | drained =>
            exact Wrote_trans hstep (Wrote_trans s1 (body_complete_wrote _ _))
          | blocked => exact Wrote_trans hstep s1
          | failed => exact Wrote_trans hstep s1
        · exact Wrote_trans heof (body_complete_wrote _ _)
    · exact body_complete_wrote _ _
  · exact Wrote_refl conn w

theorem handle_write_wrote (conn : Connection) (w : World) :
    Wrote conn w (handle_write conn w).1 (handle_write conn w).2.2 := by
  unfold handle_write
  split
  · exact Wrote_refl conn w
  · rename_i hst
    have hnr : conn.state ≠ ConnState.READING_REQUEST := by
      intro h; apply hst; rw [h]; exact ⟨by decide, by decide⟩
    obtain ⟨d1, d2, d3, d4, d5, d6, d7, d8⟩ :=
      drain_out_buf_wrote (conn.out_buf.length - conn.out_sent) conn w hnr
    generalize drain_out_buf (conn.out_buf.length - conn.out_sent) conn w = rd
      at d1 d2 d3 d4 d5 d6 d7 d8 ⊢
    obtain ⟨d, c2, w2⟩ := rd
    dsimp only at d1 d2 d3 d4 d5 d6 d7 d8
    cases d with
    | blocked => exact d1
    | failed => exact d1
    | drained =>
      dsimp only
      split
      · split
        · have hf := finish_wrote c2 w2 (!c2.keep_alive)
          by_cases hfd : c2.file_fd ≥ 0
          · rw [if_pos hfd] at hf ⊢
            rw [if_pos hfd] at hf
            exact Wrote_trans d1 hf
          · rw [if_neg hfd] at hf ⊢
            rw [if_neg hfd] at hf
            exact Wrote_trans d1 hf
        · refine Wrote_trans d1 (Wrote_trans ?_ (send_body_wrote _ _))
          exact Wrote_of_send c2 w2 _ w2 (no_file_event_refl w2) rfl rfl rfl rfl rfl rfl rfl rfl
            rfl (by intro h; cases h) (fun h => by cases h) (fun _ _ => Nat.le_refl _)
            (fun _ h0 h1 => ⟨h0, h1⟩)
      · exact Wrote_trans d1 (send_body_wrote _ _)

/-! ## Induction over the reachable states -/

theorem stat_nonneg_of_same {w w2 : World} (h : same_oracles w w2) (ht : stat_nonneg w) :
    stat_nonneg w2 := by
  intro p st e; rw [h.1] at e; exact ht p st e

theorem posix_open_of_same {w w2 : World} (h : same_oracles w w2) (ht : posix_open w) :
    posix_open w2 := by
  intro p e; rw [h.2.1] at e ⊢; exact ht p e

theorem fs_drift_log {w w2 : World} (h : fs_drift w w2) : w2.log = w.log := by
  unfold fs_drift at h
  rw [h]

/-- Every property that holds of a fresh connection and is kept by a change of the
filesystem, by each of the three outcomes of `handle_read` (still reading,
aborted, request answered by `prepare_response`) and by every `Wrote` step,
holds in all reachable states. -/
theorem reachable_invariant (cfg : ServerConfig) (env : World → Prop)
    (Inv : Connection → World → Prop)
    (henv : ∀ w w2, same_oracles w w2 → env w → env w2)
    (hfresh : ∀ fd w, env w → w.log = [] → Inv { fd := fd } w)
    (hdrift : ∀ c w w2, Inv c w → fs_drift w w2 → env w2 → Inv c w2)
    (hstay : ∀ c w b w2, env w → Inv c w → c.state = ConnState.READING_REQUEST →
      no_file_event w w2 →
      (b = c.in_buf ∨ (find "\r\n\r\n".toList b = none ∧ b.length ≤ 16 * 1024)) →
      Inv { c with in_buf := b } w2)
    (habort : ∀ c w b m p h w2, env w → Inv c w → c.state = ConnState.READING_REQUEST →
      no_file_event w w2 →
      Inv { c with in_buf := b, method := m, path := p, head_only := h,
                   state := ConnState.CLOSING } w2)
    (hanswer : ∀ c w b m p h w1, env w → Inv c w → c.state = ConnState.READING_REQUEST →
      no_file_event w w1 →
      Inv (prepare_response { c with in_buf := b, method := m, path := p, head_only := h }
            cfg w1).1
          (prepare_response { c with in_buf := b, method := m, path := p, head_only := h }
            cfg w1).2)
    (hwrite : ∀ c w c2 w2, env w → Inv c w → Wrote c w c2 w2 → Inv c2 w2) :
    ∀ c w, Reachable cfg env c w → Inv c w ∧ env w := by
  intro c w hr
  induction hr with
  | fresh fd w he hl => exact ⟨hfresh fd w he hl, he⟩
  | drift c w w2 _ hd he ih => exact ⟨hdrift c w w2 ih.1 hd he, he⟩
  | read c w _ ih =>
    obtain ⟨hi, he⟩ := ih
    by_cases hst : c.state = ConnState.READING_REQUEST
    · rw [handle_read_of_reading c cfg w hst]
      rcases handle_read_loop_effect cfg (16 * 1024 - c.in_buf.length + 1) c w with
        ⟨a1, a2, a3, a4⟩ | ⟨m, p, h, a1, a2, a3, a4⟩ | ⟨b, m, p, h, w1, a0, ab, a1, a2, a3⟩
      · rw [a1]
        exact ⟨hstay c w _ _ he hi hst a3 a4, henv _ _ a3.1 he⟩
      · rw [a1]
        exact ⟨habort c w _ m p h _ he hi hst a3, henv _ _ a3.1 he⟩
      · rw [a1, a2]
        refine ⟨hanswer c w b m p h w1 he hi hst a0, ?_⟩
        exact henv _ _ (same_oracles_trans a0.1 (prepare_response_shape _ cfg w1).1) he
    · rw [handle_read_of_not_reading c cfg w hst]
      exact ⟨hi, he⟩
  | write c w _ ih =>
    obtain ⟨hi, he⟩ := ih
    have hw := handle_write_wrote c w
    exact ⟨hwrite c w _ _ he hi hw, henv _ _ hw.2.2.2.2.2.2.2.1 he⟩


theorem Reachable_mono (cfg : ServerConfig) (env env2 : World → Prop)
    (h : ∀ w, env w → env2 w) : ∀ c w, Reachable cfg env c w → Reachable cfg env2 c w := by
  intro c w hr
  induction hr with
  | fresh fd w he hl => exact Reachable.fresh fd w (h w he) hl
  | drift c w w2 _ hd he ih => exact Reachable.drift c w w2 ih hd (h w2 he)
  | read c w _ ih => exact Reachable.read c w ih
  | write c w _ ih => exact Reachable.write c w ih

theorem find_terminator_nil : find "\r\n\r\n".toList [] = none := by decide

/-- A reachable connection in `READING_REQUEST` has nothing left to send and an input
buffer without terminator of at most 16 KiB. -/
theorem reading_is_clean (cfg : ServerConfig) (env : World → Prop) (c : Connection) (w : World)
    (hr : Reachable cfg env c w) (hst : c.state = ConnState.READING_REQUEST) :
    c.out_buf = [] ∧ c.out_sent = 0 ∧ find "\r\n\r\n".toList c.in_buf = none ∧
    c.in_buf.length ≤ 16 * 1024 := by
  have key := reachable_invariant cfg (fun _ => True)
    (fun c _ => c.state = ConnState.READING_REQUEST →
      c.out_buf = [] ∧ c.out_sent = 0 ∧ find "\r\n\r\n".toList c.in_buf = none ∧
      c.in_buf.length ≤ 16 * 1024)
    (fun _ _ _ _ => trivial)
    (fun fd w _ _ _ => ⟨rfl, rfl, find_terminator_nil, Nat.zero_le _⟩)
    (fun c w w2 hi _ _ => hi)
    (by
      intro c w b w2 _ hi hst _ hb _
      obtain ⟨i1, i2, i3, i4⟩ := hi hst
      refine ⟨i1, i2, ?_⟩
      rcases hb with e | e
      · rw [e]; exact ⟨i3, i4⟩
      · exact e)
    (by intro c w b m p h w2 _ _ _ _ hc; cases hc)
    (by
      intro c w b m p h w1 _ _ _ _ hc
      rw [(prepare_response_keeps _ cfg w1).2.2.2.2.2.1] at hc
      cases hc)
    (by
      intro c w c2 w2 _ hi hw hc
      rcases hw.2.2.2.2.2.2.2.2.2.2.2.2.2.1 hc with e | ⟨e1, e2, e3, _⟩
      · rw [e] at hc ⊢; exact hi hc
      · exact ⟨e2, e3, by rw [e1]; exact find_terminator_nil, by rw [e1]; exact Nat.zero_le _⟩)
    c w (Reachable_mono cfg env _ (fun _ _ => trivial) c w hr)
  exact key.1 hst

/-- In every reachable state, with an `open` that fails with `-1`: an absent file
handle is `-1`, a connection in `READING_REQUEST` has none, and the successful
`open` calls outnumber the `close` calls by one exactly while a handle is held. -/
theorem file_handle_invariant (cfg : ServerConfig) (c : Connection) (w : World)
    (hr : Reachable cfg posix_open c w) :
    (c.file_fd < 0 → c.file_fd = -1) ∧
    (c.state = ConnState.READING_REQUEST → c.file_fd = -1) ∧
    (opens w.log).length = (closes w.log).length + (if 0 ≤ c.file_fd then 1 else 0) := by
  have key := reachable_invariant cfg posix_open
    (fun c w => (c.file_fd < 0 → c.file_fd = -1) ∧
      (c.state = ConnState.READING_REQUEST → c.file_fd = -1) ∧
      (opens w.log).length = (closes w.log).length + (if 0 ≤ c.file_fd then 1 else 0))
    (fun _ _ h he => posix_open_of_same h he)
    (by
      intro fd w _ hl
      refine ⟨fun _ => rfl, fun _ => rfl, ?_⟩
      rw [hl]; rfl)
    (by
      intro c w w2 hi hd _
      rw [fs_drift_log hd]; exact hi)
    (by
      intro c w b w2 _ hi _ hn _
      rw [hn.2.1, hn.2.2]; exact hi)
    (by
      intro c w b m p h w2 _ hi _ hn
      refine ⟨hi.1, (fun hc => by cases hc), ?_⟩
      rw [hn.2.1, hn.2.2]; exact hi.2.2)
    (by
      intro c w b m p h w1 he hi hst hn
      obtain ⟨i1, i2, i3⟩ := hi
      have hfd : c.file_fd = -1 := i2 hst
      rw [hfd] at i3
      rw [← hn.2.1, ← hn.2.2] at i3
      have hpo : posix_open w1 := posix_open_of_same hn.1 he
      obtain ⟨-, hcl, hsh⟩ := prepare_response_shape
        { c with in_buf := b, method := m, path := p, head_only := h } cfg w1
      have hstate := (prepare_response_keeps
        { c with in_buf := b, method := m, path := p, head_only := h } cfg w1).2.2.2.2.2.1
      refine ⟨?_, (fun hc => by rw [hstate] at hc; cases hc), ?_⟩
      · rcases hsh with ⟨s, msg, -, e, -⟩ | ⟨st, -, -, e, -⟩ | ⟨st, -, -, hlt, e, -⟩ |
          ⟨st, -, -, hge, e, -⟩
        · rw [e]; intro _; exact hfd
        · rw [e]; intro _; exact hfd
        · rw [e]; intro _; exact hpo _ hlt
        · rw [e]; intro hneg; exact absurd hneg (not_lt.mpr hge)
      · rw [hcl]
        rcases hsh with ⟨s, msg, -, e, ho⟩ | ⟨st, -, -, e, ho⟩ | ⟨st, -, -, hlt, e, ho⟩ |
          ⟨st, -, -, hge, e, ho⟩
        · rw [e, ho]
          show _ = _ + (if 0 ≤ c.file_fd then 1 else 0)
          rw [hfd]; exact i3
        · rw [e, ho]
          show _ = _ + (if 0 ≤ c.file_fd then 1 else 0)
          rw [hfd]; exact i3
        · rw [e, ho]
          dsimp only
          have : ¬ 0 ≤ w1.fs_open (cfg.doc_root ++ normalize_target p) := by
            dsimp only at hlt; omega
          rw [if_neg this]
          simpa using i3
        · rw [e, ho]
          dsimp only
          have : 0 ≤ w1.fs_open (cfg.doc_root ++ normalize_target p) := hge
          rw [if_pos this, List.length_append]
          simp at i3 ⊢
          exact i3)
    (by
      intro c w c2 w2 _ hi hw
      obtain ⟨i1, i2, i3⟩ := hi
      obtain ⟨-, -, -, -, -, -, -, -, ho, hfd, -, -, -, hrd, -⟩ := hw
      have h1 : c2.file_fd < 0 → c2.file_fd = -1 := by
        rcases hfd with ⟨e, -⟩ | ⟨-, e, -⟩
        · rw [e]; exact i1
        · intro _; exact e
      refine ⟨h1, ?_, ?_⟩
      · intro hc
        rcases hrd hc with e | ⟨-, -, -, e⟩
        · rw [e] at hc ⊢; exact i2 hc
        · exact h1 e
      · rw [ho]
        rcases hfd with ⟨e1, e2⟩ | ⟨e0, e1, e2⟩
        · rw [e1, e2]; exact i3
        · rw [e1, e2, List.length_append]
          rw [if_pos e0] at i3
          simp
          exact i3)
    c w hr
  exact key.1

/-! ## Buffer and offset invariants -/

theorem slow_peer_tame_send : tame_send slow_peer := by
  intro i k n h
  have h2 : (if i % 2 = 1 then SendRet.again else SendRet.accepted (min 2 k)) =
      SendRet.accepted n := h
  split at h2
  · cases h2
  · injection h2 with h3
    omega

theorem slow_peer_tame_read : tame_read slow_peer := by
  intro i k n h
  have h2 : ReadRet.got k = ReadRet.got n := h
  injection h2 with h3
  omega

theorem slow_peer_stat_nonneg : stat_nonneg slow_peer := by
  intro p st h
  have h2 : (if p = "./www/a.png".toList then some (⟨true, 5⟩ : Stat) else none) = some st := h
  split at h2
  · injection h2 with h3
    rw [← h3]; decide
  · cases h2

theorem slow_written_reachable (env : World → Prop) (h : env slow_peer) :
    Reachable {} env slow_written.1 slow_written.2.2 :=
  Reachable.write _ _ (Reachable.read _ _ (Reachable.fresh (-1) slow_peer h rfl))

/-- The value of `out_sent` after `prepare_response`. -/
theorem prepare_response_out_sent (c : Connection) (cfg : ServerConfig) (w : World) :
    (prepare_response c cfg w).1.out_sent = 0 ∨
    (prepare_response c cfg w).1.out_sent = c.out_sent := by
  obtain ⟨-, -, h⟩ := prepare_response_shape c cfg w
  rcases h with ⟨s, msg, -, hr, -⟩ | ⟨st, -, -, hr, -⟩ | ⟨st, -, -, -, hr, -⟩ |
    ⟨st, -, -, -, hr, -⟩ <;> rw [hr]
  · exact Or.inr rfl
  · exact Or.inl rfl
  · exact Or.inl rfl
  · exact Or.inl rfl

/-- C12: in every state reachable from a fresh connection by `handle_read` and
`handle_write` calls and changes of the filesystem, with a `send` that never reports
more bytes than it was offered, `out_sent ≤ out_buf.length`; and for a reachable
connection in `READING_REQUEST` the bound holds right after `prepare_response`,
whatever request was parsed and on every branch. -/
theorem out_sent_within_out_buf (cfg : ServerConfig) (c : Connection) (w : World)
    (hr : Reachable cfg tame_send c w) :
    c.out_sent ≤ c.out_buf.length ∧
    (c.state = ConnState.READING_REQUEST → ∀ b m p h w1,
      (prepare_response { c with in_buf := b, method := m, path := p, head_only := h }
        cfg w1).1.out_sent ≤
      (prepare_response { c with in_buf := b, method := m, path := p, head_only := h }
        cfg w1).1.out_buf.length) := by
  have hans : ∀ c : Connection, c.out_sent = 0 → ∀ b m p h w1,
      (prepare_response { c with in_buf := b, method := m, path := p, head_only := h }
        cfg w1).1.out_sent ≤
      (prepare_response { c with in_buf := b, method := m, path := p, head_only := h }
        cfg w1).1.out_buf.length := by
    intro c h0 b m p h w1
    rcases prepare_response_out_sent
      { c with in_buf := b, method := m, path := p, head_only := h } cfg w1 with e | e
    · rw [e]; exact Nat.zero_le _
    · rw [e]
      show c.out_sent ≤ _
      rw [h0]; exact Nat.zero_le _
  have key := reachable_invariant cfg tame_send
    (fun c _ => c.out_sent ≤ c.out_buf.length ∧
      (c.state = ConnState.READING_REQUEST → c.out_sent = 0))
    (fun _ _ h he => tame_send_of_same h he)
    (fun fd w _ _ => ⟨Nat.le_refl _, fun _ => rfl⟩)
    (fun c w w2 hi _ _ => hi)
    (fun c w b w2 _ hi _ _ _ => hi)
    (fun c w b m p h w2 _ hi _ _ => ⟨hi.1, fun hc => by cases hc⟩)
    (by
      intro c w b m p h w1 _ hi hst _
      refine ⟨hans c (hi.2 hst) b m p h w1, fun hc => ?_⟩
      rw [(prepare_response_keeps _ cfg w1).2.2.2.2.2.1] at hc
      cases hc)
    (by
      intro c w c2 w2 he hi hw
      refine ⟨hw.2.2.2.2.2.2.2.2.2.2.1 he hi.1, fun hc => ?_⟩
      rcases hw.2.2.2.2.2.2.2.2.2.2.2.2.2.1 hc with e | ⟨-, -, e, -⟩
      · rw [e] at hc ⊢; exact hi.2 hc
      · exact e)
    c w hr
  exact ⟨key.1.1, fun hst => hans c (key.1.2 hst)⟩


/-- C12 at the connection of `slow_peer` after a partial write of the header. -/
theorem out_sent_within_out_buf_witness :
    Reachable {} tame_send slow_written.1 slow_written.2.2 ∧
    (slow_written.1.out_sent ≤ slow_written.1.out_buf.length ∧
    (slow_written.1.state = ConnState.READING_REQUEST → ∀ b m p h w1,
      (prepare_response
        { (slow_written.1) with in_buf := b, method := m, path := p, head_only := h }
        {} w1).1.out_sent ≤
      (prepare_response
        { (slow_written.1) with in_buf := b, method := m, path := p, head_only := h }
        {} w1).1.out_buf.length)) :=
  ⟨slow_written_reachable tame_send slow_peer_tame_send,
    out_sent_within_out_buf {} slow_written.1 slow_written.2.2
      (slow_written_reachable tame_send slow_peer_tame_send)⟩

theorem slow_written_out_sent : slow_written.1.out_sent = 2 ∧ slow_written.2.1 = false := by
  decide

/-- C13: in every state reachable from a fresh connection by `handle_read` and
`handle_write` calls and changes of the filesystem, with a file `read` that never
returns more bytes than requested and a `stat` that reports non-negative sizes,
`0 ≤ file_offset ≤ file_size`. -/
theorem file_offset_within_file_size (cfg : ServerConfig) (c : Connection) (w : World)
    (hr : Reachable cfg (fun w => tame_read w ∧ stat_nonneg w) c w) :
    0 ≤ c.file_offset ∧ c.file_offset ≤ c.file_size := by
  have key := reachable_invariant cfg (fun w => tame_read w ∧ stat_nonneg w)
    (fun c _ => 0 ≤ c.file_offset ∧ c.file_offset ≤ c.file_size)
    (fun _ _ h he => ⟨tame_read_of_same h he.1, stat_nonneg_of_same h he.2⟩)
    (fun fd w _ _ => ⟨Int.le_refl _, Int.le_refl _⟩)
    (fun c w w2 hi _ _ => hi)
    (fun c w b w2 _ hi _ _ _ => hi)
    (fun c w b m p h w2 _ hi _ _ => hi)
    (by
      intro c w b m p h w1 he hi _ hn
      have hsn : stat_nonneg w1 := stat_nonneg_of_same hn.1 he.2
      obtain ⟨-, -, hsh⟩ := prepare_response_shape
        { c with in_buf := b, method := m, path := p, head_only := h } cfg w1
      rcases hsh with ⟨s, msg, -, e, -⟩ | ⟨st, hs, -, e, -⟩ | ⟨st, -, -, -, e, -⟩ |
        ⟨st, hs, -, -, e, -⟩
      · rw [e]; exact hi
      · rw [e]; exact ⟨Int.le_refl _, hsn _ st hs⟩
      · rw [e]; exact ⟨Int.le_refl _, Int.le_refl _⟩
      · rw [e]; exact ⟨Int.le_refl _, hsn _ st hs⟩)
    (by
      intro c w c2 w2 he hi hw
      have h := hw.2.2.2.2.2.2.2.2.2.2.2.1 he.1 hi.1 hi.2
      rw [hw.2.1]
      exact h)
    c w hr
  exact key.1

/-- C13 at the connection of `slow_peer` after a partial write of the header. -/
theorem file_offset_within_file_size_witness :
    Reachable {} (fun w => tame_read w ∧ stat_nonneg w) slow_written.1 slow_written.2.2 ∧
    (0 ≤ slow_written.1.file_offset ∧ slow_written.1.file_offset ≤ slow_written.1.file_size) :=
  ⟨slow_written_reachable _ ⟨slow_peer_tame_read, slow_peer_stat_nonneg⟩,
    file_offset_within_file_size {} slow_written.1 slow_written.2.2
      (slow_written_reachable _ ⟨slow_peer_tame_read, slow_peer_stat_nonneg⟩)⟩

/-! ## Recycling and file handles -/

theorem eager_peer_posix_open : posix_open eager_peer := by
  intro p h
  have h2 : (if p = "./www/index.html".toList then (5 : Int) else -1) < 0 := h
  show (if p = "./www/index.html".toList then (5 : Int) else -1) = -1
  split at h2
  · exact absurd h2 (by decide)
  · rename_i hp; rw [if_neg hp]

theorem eager_answered_reachable (env : World → Prop) (h : env eager_peer) :
    Reachable keep_alive_cfg env eager_answered.1 eager_answered.2.2 :=
  Reachable.read _ _ (Reachable.fresh (-1) eager_peer h rfl)

/-- C14: whenever `handle_write`, called on a reachable connection that is not in
`READING_REQUEST`, leaves it in `READING_REQUEST`, the resulting connection has
`in_buf` and `out_buf` empty, `out_sent = 0` and `file_fd = -1`, and the `close`
calls made are exactly one for the file handle that was open before the call, none
if there was no open handle. -/
theorem recycle_clears_and_closes_once (cfg : ServerConfig) (c : Connection) (w : World)
    (hr : Reachable cfg posix_open c w) (hst : c.state ≠ ConnState.READING_REQUEST)
    (hrd : (handle_write c w).1.state = ConnState.READING_REQUEST) :
    (handle_write c w).1.in_buf = [] ∧ (handle_write c w).1.out_buf = [] ∧
    (handle_write c w).1.out_sent = 0 ∧ (handle_write c w).1.file_fd = -1 ∧
    closes (handle_write c w).2.2.log =
      closes w.log ++ (if 0 ≤ c.file_fd then [c.file_fd] else []) := by
  have hw := handle_write_wrote c w
  obtain ⟨-, -, -, -, -, -, -, -, -, hfd, -, -, -, hcl, -⟩ := hw
  have hinv := (file_handle_invariant cfg c w hr).1
  rcases hcl hrd with e | ⟨e1, e2, e3, e4⟩
  · rw [e] at hrd; exact absurd hrd hst
  · refine ⟨e1, e2, e3, ?_⟩
    rcases hfd with ⟨f1, f2⟩ | ⟨f0, f1, f2⟩
    · have hneg : c.file_fd < 0 := by rw [← f1]; exact e4
      have hn : ¬ 0 ≤ c.file_fd := not_le.mpr hneg
      rw [f1, f2, if_neg hn]
      exact ⟨hinv hneg, (List.append_nil _).symm⟩
    · rw [f2, if_pos f0]
      exact ⟨f1, rfl⟩

/-- C14 at the keep-alive connection of `eager_peer`: the write that completes the
200 transfer closes the file handle 5 once. -/
theorem recycle_clears_and_closes_once_witness :
    Reachable keep_alive_cfg posix_open eager_answered.1 eager_answered.2.2 ∧
    eager_answered.1.state ≠ ConnState.READING_REQUEST ∧
    (handle_write eager_answered.1 eager_answered.2.2).1.state = ConnState.READING_REQUEST ∧
    ((handle_write eager_answered.1 eager_answered.2.2).1.in_buf = [] ∧
    (handle_write eager_answered.1 eager_answered.2.2).1.out_buf = [] ∧
    (handle_write eager_answered.1 eager_answered.2.2).1.out_sent = 0 ∧
    (handle_write eager_answered.1 eager_answered.2.2).1.file_fd = -1 ∧
    closes (handle_write eager_answered.1 eager_answered.2.2).2.2.log =
      closes eager_answered.2.2.log ++
        (if 0 ≤ eager_answered.1.file_fd then [eager_answered.1.file_fd] else [])) :=
  ⟨eager_answered_reachable _ eager_peer_posix_open, by decide, by decide,
    recycle_clears_and_closes_once keep_alive_cfg eager_answered.1 eager_answered.2.2
      (eager_answered_reachable _ eager_peer_posix_open) (by decide) (by decide)⟩

theorem eager_answered_closes :
    eager_answered.1.file_fd = 5 ∧
    closes (handle_write eager_answered.1 eager_answered.2.2).2.2.log = [5] := by decide

/-! ## The reap step -/

theorem find_key_some {L : List Slot} {fd : Int} {s : Slot}
    (h : L.find? (fun s => s.fd = fd) = some s) : s ∈ L ∧ s.fd = fd := by
  refine ⟨List.mem_of_find?_eq_some h, ?_⟩
  have := List.find?_some h
  simpa using this

theorem find_key_none {L : List Slot} {fd : Int}
    (h : L.find? (fun s => s.fd = fd) = none) : ∀ t ∈ L, t.fd ≠ fd := by
  intro t ht
  have := List.find?_eq_none.mp h t ht
  simpa using this

theorem nodup_keys_eq {L : List Slot} (hn : (L.map Slot.fd).Nodup) {s t : Slot}
    (hs : s ∈ L) (ht : t ∈ L) (e : s.fd = t.fd) : s = t :=
  List.inj_on_of_nodup_map hn hs ht e

theorem reap_some (L R : List Slot) (fd : Int) (rest : List Int) (s : Slot)
    (h : L.find? (fun s => s.fd = fd) = some s) :
    reap L R (fd :: rest) =
      reap (L.eraseP (fun t => t.fd = fd)) (R ++ [closed_entry s]) rest := by
  have e := (find_key_some h).2
  rw [reap]
  simp only [h, closed_entry, e]

theorem reap_none (L R : List Slot) (fd : Int) (rest : List Int)
    (h : L.find? (fun s => s.fd = fd) = none) :
    reap L R (fd :: rest) = reap L R rest := by
  rw [reap]
  simp only [h]

/-- Every entry the reap step removes is a live entry whose key was on `to_close`,
with exactly the two `close` calls of `closed_entry` added. -/
theorem reap_reaped (keys : List Int) : ∀ (L R : List Slot) (x : Slot),
    x ∈ (reap L R keys).2 → x ∈ R ∨ ∃ t ∈ L, t.fd ∈ keys ∧ x = closed_entry t := by
  induction keys with
  | nil => intro L R x hx; exact Or.inl hx
  | cons fd rest ih =>
    intro L R x hx
    cases hf : L.find? (fun s => s.fd = fd) with
    | none =>
      rw [reap_none L R fd rest hf] at hx
      rcases ih L R x hx with h | ⟨t, ht, hk, e⟩
      · exact Or.inl h
      · exact Or.inr ⟨t, ht, List.mem_cons_of_mem _ hk, e⟩
    | some s =>
      rw [reap_some L R fd rest s hf] at hx
      obtain ⟨hs, hfd⟩ := find_key_some hf
      rcases ih _ _ x hx with h | ⟨t, ht, hk, e⟩
      · rcases List.mem_append.mp h with h | h
        · exact Or.inl h
        · rw [List.mem_singleton] at h
          exact Or.inr ⟨s, hs, by rw [hfd]; exact List.mem_cons_self _ _, h⟩
      · exact Or.inr ⟨t, (List.eraseP_sublist L).subset ht, List.mem_cons_of_mem _ hk, e⟩

theorem reap_reaped_mono (keys : List Int) : ∀ (L R : List Slot) (x : Slot),
    x ∈ R → x ∈ (reap L R keys).2 := by
  induction keys with
  | nil => intro L R x hx; exact hx
  | cons fd rest ih =>
    intro L R x hx
    cases hf : L.find? (fun s => s.fd = fd) with
    | none => rw [reap_none L R fd rest hf]; exact ih L R x hx
    | some s =>
      rw [reap_some L R fd rest s hf]
      exact ih _ _ x (List.mem_append_left _ hx)

theorem reap_live_sublist (keys : List Int) : ∀ (L R : List Slot),
    List.Sublist (reap L R keys).1 L := by
  induction keys with
  | nil => intro L R; exact List.Sublist.refl _
  | cons fd rest ih =>
    intro L R
    cases hf : L.find? (fun s => s.fd = fd) with
    | none => rw [reap_none L R fd rest hf]; exact ih L R
    | some s =>
      rw [reap_some L R fd rest s hf]
      exact (ih _ _).trans (List.eraseP_sublist L)

theorem closed_entry_fd (t : Slot) : (closed_entry t).fd = t.fd := rfl

/-- With distinct keys in the map, an entry whose key is on `to_close` is removed by
the reap step. -/
theorem reap_removes (keys : List Int) : ∀ (L R : List Slot) (t : Slot),
    (L.map Slot.fd).Nodup → t ∈ L → t.fd ∈ keys → closed_entry t ∈ (reap L R keys).2 := by
  induction keys with
  | nil => intro L R t _ _ hk; cases hk
  | cons fd rest ih =>
    intro L R t hn ht hk
    cases hf : L.find? (fun s => s.fd = fd) with
    | none =>
      rw [reap_none L R fd rest hf]
      rcases List.mem_cons.mp hk with e | h
      · exact absurd e (find_key_none hf t ht)
      · exact ih L R t hn ht h
    | some s =>
      rw [reap_some L R fd rest s hf]
      obtain ⟨hs, hfd⟩ := find_key_some hf
      by_cases e : t.fd = fd
      · have : s = t := nodup_keys_eq hn hs ht (by rw [hfd, e])
        rw [this]
        exact reap_reaped_mono rest _ _ _ (List.mem_append_right _ (List.mem_singleton.mpr rfl))
      · have hk2 : t.fd ∈ rest := by
          rcases List.mem_cons.mp hk with h | h
          · exact absurd h e
          · exact h
        have ht2 : t ∈ L.eraseP (fun t => t.fd = fd) :=
          (List.mem_eraseP_of_neg (by simpa using e)).mpr ht
        exact ih _ _ t (((List.eraseP_sublist L).map Slot.fd).nodup hn) ht2 hk2


/-- With distinct keys in the map, no key is reaped twice and no reaped key stays live. -/
theorem reap_nodup (keys : List Int) : ∀ (L R : List Slot),
    (R.map Slot.fd ++ L.map Slot.fd).Nodup →
    ((reap L R keys).2.map Slot.fd ++ (reap L R keys).1.map Slot.fd).Nodup := by
  induction keys with
  | nil => intro L R hn; exact hn
  | cons fd rest ih =>
    intro L R hn
    cases hf : L.find? (fun s => s.fd = fd) with
    | none => rw [reap_none L R fd rest hf]; exact ih L R hn
    | some s =>
      rw [reap_some L R fd rest s hf]
      obtain ⟨hs, hfd⟩ := find_key_some hf
      apply ih
      obtain ⟨a, l1, l2, -, hpa, eL, eE⟩ :=
        @List.exists_of_eraseP Slot (fun t => decide (t.fd = fd)) L s hs (by simpa using hfd)
      have ha : a.fd = fd := by simpa using hpa
      rw [eE]
      rw [eL] at hn
      have hp : List.Perm ((R ++ [closed_entry s]).map Slot.fd ++ (l1 ++ l2).map Slot.fd)
          (R.map Slot.fd ++ (l1 ++ a :: l2).map Slot.fd) := by
        simp only [List.map_append, List.map_cons, List.map_nil, closed_entry_fd, hfd, ha,
          List.append_assoc]
        apply List.Perm.append_left
        show List.Perm (fd :: (List.map Slot.fd l1 ++ List.map Slot.fd l2)) _
        exact (List.perm_middle).symm
      exact hp.nodup_iff.mpr hn

theorem filter_key_of_nodup : ∀ (l : List Slot) (x : Slot), (l.map Slot.fd).Nodup → x ∈ l →
    l.filter (fun y => y.fd = x.fd) = [x] := by
  intro l
  induction l with
  | nil => intro x _ hx; cases hx
  | cons a l ih =>
    intro x hn hx
    rw [List.map_cons, List.nodup_cons] at hn
    rcases List.mem_cons.mp hx with e | h
    · subst e
      have : l.filter (fun y => y.fd = x.fd) = [] := by
        rw [List.filter_eq_nil_iff]
        intro y hy hc
        exact hn.1 (List.mem_map.mpr ⟨y, hy, by simpa using hc⟩)
      rw [List.filter_cons_of_pos (by simp), this]
    · have hne : ¬ a.fd = x.fd := fun e => hn.1 (List.mem_map.mpr ⟨x, h, e.symm⟩)
      rw [List.filter_cons_of_neg (by simpa using hne)]
      exact ih x hn.2 h

/-- C15: in every reachable state, with an `open` that fails with `-1`, a connection
in `READING_REQUEST` holds no file handle (`file_fd = -1`), so `prepare_response`
never overwrites an open one, and the successful `open` calls outnumber the `close`
calls by one exactly while a handle is held. When the reap step finds the key of
such a connection on `to_close`, in a map with distinct keys, it removes the entry
once, with one `close` of the open file handle (if any) followed by one `close` of
the socket, after which every opened handle has been closed; no entry with that key
stays live. -/
theorem no_file_handle_leak (cfg : ServerConfig) (c : Connection) (w : World)
    (hr : Reachable cfg posix_open c w) :
    (c.state = ConnState.READING_REQUEST → c.file_fd = -1) ∧
    (opens w.log).length = (closes w.log).length + (if 0 ≤ c.file_fd then 1 else 0) ∧
    ∀ (key : Int) (L : List Slot) (keys : List Int),
      (L.map Slot.fd).Nodup → { fd := key, conn := c, world := w } ∈ L → key ∈ keys →
      ((reap L [] keys).2.filter (fun x => x.fd = key) =
          [closed_entry { fd := key, conn := c, world := w }] ∧
        (∀ y ∈ (reap L [] keys).1, y.fd ≠ key) ∧
        (closed_entry { fd := key, conn := c, world := w }).world.log =
          w.log ++ (if 0 ≤ c.file_fd then [Event.close c.file_fd] else []) ++
            [Event.close key] ∧
        (opens (closed_entry { fd := key, conn := c, world := w }).world.log).length + 1 =
          (closes (closed_entry { fd := key, conn := c, world := w }).world.log).length) := by
  obtain ⟨-, i2, i3⟩ := file_handle_invariant cfg c w hr
  refine ⟨i2, i3, ?_⟩
  intro key L keys hn ht hk
  have hmem := reap_removes keys L [] _ hn ht hk
  have hnd := reap_nodup keys L [] (by simpa using hn)
  have hlog : (closed_entry { fd := key, conn := c, world := w }).world.log =
      w.log ++ (if 0 ≤ c.file_fd then [Event.close c.file_fd] else []) ++
        [Event.close key] := by
    unfold closed_entry sys_close
    by_cases h0 : 0 ≤ c.file_fd
    · simp only [ge_iff_le, h0, if_true]
    · simp only [ge_iff_le, h0, if_false, List.append_nil]
  refine ⟨?_, ?_, hlog, ?_⟩
  · exact filter_key_of_nodup _ _ (List.nodup_append.mp hnd).1 hmem
  · intro y hy e
    have h1 : key ∈ (reap L [] keys).2.map Slot.fd :=
      List.mem_map.mpr ⟨_, hmem, rfl⟩
    have h2 : key ∈ (reap L [] keys).1.map Slot.fd := List.mem_map.mpr ⟨y, hy, e⟩
    exact (List.nodup_append.mp hnd).2.2 h1 h2
  · rw [hlog]
    by_cases h0 : 0 ≤ c.file_fd
    · rw [if_pos h0] at i3 ⊢
      simp [opens, closes, List.filterMap_append] at i3 ⊢
      omega
    · rw [if_neg h0] at i3 ⊢
      simp [opens, closes, List.filterMap_append] at i3 ⊢
      omega


/-- C15 at the keep-alive connection of `eager_peer`, which holds the open handle 5
after its request has been answered. -/
theorem no_file_handle_leak_witness :
    Reachable keep_alive_cfg posix_open eager_answered.1 eager_answered.2.2 ∧
    ((eager_answered.1.state = ConnState.READING_REQUEST → eager_answered.1.file_fd = -1) ∧
    (opens eager_answered.2.2.log).length =
      (closes eager_answered.2.2.log).length + (if 0 ≤ eager_answered.1.file_fd then 1 else 0) ∧
    ∀ (key : Int) (L : List Slot) (keys : List Int),
      (L.map Slot.fd).Nodup →
      { fd := key, conn := eager_answered.1, world := eager_answered.2.2 } ∈ L → key ∈ keys →
      ((reap L [] keys).2.filter (fun x => x.fd = key) =
          [closed_entry { fd := key, conn := eager_answered.1, world := eager_answered.2.2 }] ∧
        (∀ y ∈ (reap L [] keys).1, y.fd ≠ key) ∧
        (closed_entry
            { fd := key, conn := eager_answered.1, world := eager_answered.2.2 }).world.log =
          eager_answered.2.2.log ++
            (if 0 ≤ eager_answered.1.file_fd then [Event.close eager_answered.1.file_fd]
              else []) ++ [Event.close key] ∧
        (opens (closed_entry
            { fd := key, conn := eager_answered.1, world := eager_answered.2.2 }).world.log).length
          + 1 =
          (closes (closed_entry
            { fd := key, conn := eager_answered.1,
              world := eager_answered.2.2 }).world.log).length)) :=
  ⟨eager_answered_reachable _ eager_peer_posix_open,
    no_file_handle_leak keep_alive_cfg eager_answered.1 eager_answered.2.2
      (eager_answered_reachable _ eager_peer_posix_open)⟩

theorem eager_answered_reaped :
    opens (closed_entry
      { fd := 7, conn := eager_answered.1, world := eager_answered.2.2 }).world.log = [5] ∧
    closes (closed_entry
      { fd := 7, conn := eager_answered.1, world := eager_answered.2.2 }).world.log = [5, 7] := by
  decide

/-! ## The read path -/

/-- A pass of the read loop whose chunk leaves more than 16 KiB without terminator in
the buffer closes the connection. -/
theorem handle_read_loop_overflow (cfg : ServerConfig) (fuel : Nat) (conn : Connection)
    (w : World) (bs : Str) (hrecv : (sys_recv w READ_CHUNK).1 = RecvRet.data bs)
    (hpos : 0 < bs.length) (hno : find "\r\n\r\n".toList (conn.in_buf ++ bs) = none)
    (hbig : 16 * 1024 < (conn.in_buf ++ bs).length) :
    handle_read_loop cfg (fuel + 1) conn w =
      ({ conn with in_buf := conn.in_buf ++ bs, state := ConnState.CLOSING }, true,
        (sys_recv w READ_CHUNK).2) := by
  unfold handle_read_loop
  generalize sys_recv w READ_CHUNK = rr at hrecv ⊢
  obtain ⟨r1, w2⟩ := rr
  dsimp only at hrecv
  subst hrecv
  dsimp only
  rw [if_pos hpos, hno]
  rw [if_neg (by simp), if_pos hbig]
  rfl

/-- A pass of the read loop whose chunk leaves at most 16 KiB without terminator in
the buffer is followed by another pass. -/
theorem handle_read_loop_continue (cfg : ServerConfig) (fuel : Nat) (conn : Connection)
    (w : World) (bs : Str) (hrecv : (sys_recv w READ_CHUNK).1 = RecvRet.data bs)
    (hpos : 0 < bs.length) (hno : find "\r\n\r\n".toList (conn.in_buf ++ bs) = none)
    (hsmall : (conn.in_buf ++ bs).length ≤ 16 * 1024) :
    handle_read_loop cfg (fuel + 1) conn w =
      handle_read_loop cfg fuel { conn with in_buf := conn.in_buf ++ bs }
        (sys_recv w READ_CHUNK).2 := by
  conv => lhs; unfold handle_read_loop
  generalize sys_recv w READ_CHUNK = rr at hrecv ⊢
  obtain ⟨r1, w2⟩ := rr
  dsimp only at hrecv
  subst hrecv
  dsimp only
  rw [if_pos hpos, hno]
  rw [if_neg (by simp), if_neg (by omega)]

/-- A pass of the read loop whose chunk completes a request line that
`parse_request` rejects closes the connection without calling `prepare_response`. -/
theorem handle_read_loop_malformed (cfg : ServerConfig) (fuel : Nat) (conn : Connection)
    (w : World) (bs : Str) (hrecv : (sys_recv w READ_CHUNK).1 = RecvRet.data bs)
    (hpos : 0 < bs.length)
    (hterm : (find "\r\n\r\n".toList (conn.in_buf ++ bs)).isSome = true)
    (hbad : (parse_request { conn with in_buf := conn.in_buf ++ bs }).1 = false) :
    handle_read_loop cfg (fuel + 1) conn w =
      ({ (parse_request { conn with in_buf := conn.in_buf ++ bs }).2 with
          state := ConnState.CLOSING }, true, (sys_recv w READ_CHUNK).2) := by
  unfold handle_read_loop
  generalize sys_recv w READ_CHUNK = rr at hrecv ⊢
  obtain ⟨r1, w2⟩ := rr
  dsimp only at hrecv
  subst hrecv
  dsimp only
  rw [if_pos hpos, if_pos hterm]
  generalize parse_request { conn with in_buf := conn.in_buf ++ bs } = r at hbad ⊢
  obtain ⟨ok, c2⟩ := r
  dsimp only at hbad
  subst hbad
  rfl

/-- A string made of the byte `a` holds no terminator. -/
theorem find_all_a (s : Str) (h : ∀ c ∈ s, c = 'a') : find "\r\n\r\n".toList s = none := by
  cases hf : find "\r\n\r\n".toList s with
  | none => rfl
  | some i =>
    have h1 : (find "\r\n\r\n".toList s).isSome = true := by rw [hf]; rfl
    have h2 := (find_isSome_iff _ _).mp h1
    have h3 : '\r' ∈ s := h2.subset (by decide)
    exact absurd (h _ h3) (by decide)

theorem find_replicate_a (n : Nat) : find "\r\n\r\n".toList (List.replicate n 'a') = none :=
  find_all_a _ (fun _ hc => List.eq_of_mem_replicate hc)

/-- A buffer without terminator has no terminator in any of its prefixes. -/
theorem find_none_of_append (x y : Str) (h : find "\r\n\r\n".toList (x ++ y) = none) :
    find "\r\n\r\n".toList x = none := by
  cases hf : find "\r\n\r\n".toList x with
  | none => rfl
  | some i =>
    have h1 : (find "\r\n\r\n".toList x).isSome = true := by rw [hf]; rfl
    have h2 := (find_isSome_iff _ _).mp h1
    have h3 : (find "\r\n\r\n".toList (x ++ y)).isSome = true :=
      (find_isSome_iff _ _).mpr (h2.trans (List.infix_append' [] x y))
    rw [h] at h3
    cases h3

/-- The read loop over chunks without terminator, the last of which is the first to
leave more than 16 KiB in the buffer. -/
theorem handle_read_loop_flood (cfg : ServerConfig) (chunks : List Str) :
    ∀ (fuel : Nat) (conn : Connection) (w : World) (last : Str),
    delivers w (chunks ++ [last]) →
    find "\r\n\r\n".toList (conn.in_buf ++ chunks.flatten ++ last) = none →
    (conn.in_buf ++ chunks.flatten).length ≤ 16 * 1024 →
    16 * 1024 < (conn.in_buf ++ chunks.flatten ++ last).length →
    16 * 1024 - conn.in_buf.length + 1 ≤ fuel →
    (handle_read_loop cfg fuel conn w).1 =
      { conn with in_buf := conn.in_buf ++ chunks.flatten ++ last, state := ConnState.CLOSING } ∧
    (handle_read_loop cfg fuel conn w).2.1 = true := by
  induction chunks with
  | nil =>
    intro fuel conn w last hd hno hsmall hbig hfuel
    obtain ⟨f, rfl⟩ : ∃ f, fuel = f + 1 := ⟨fuel - 1, by omega⟩
    have ej : ([] : List Str).flatten = [] := rfl
    rw [ej, List.append_nil] at hno hbig ⊢
    rw [handle_read_loop_overflow cfg f conn w last hd.1 hd.2.1 hno hbig]
    exact ⟨rfl, rfl⟩
  | cons b rest ih =>
    intro fuel conn w last hd hno hsmall hbig hfuel
    obtain ⟨f, rfl⟩ : ∃ f, fuel = f + 1 := ⟨fuel - 1, by omega⟩
    obtain ⟨h1, h2, h3⟩ := hd
    have e : conn.in_buf ++ (b :: rest).flatten = (conn.in_buf ++ b) ++ rest.flatten := by
      have ej : (b :: rest).flatten = b ++ rest.flatten := rfl
      rw [ej, List.append_assoc]
    rw [e] at hno hsmall hbig ⊢
    have hno1 : find "\r\n\r\n".toList (conn.in_buf ++ b) = none := by
      apply find_none_of_append _ (rest.flatten ++ last)
      rw [← List.append_assoc]; exact hno
    have hs1 : (conn.in_buf ++ b).length ≤ 16 * 1024 := by
      rw [List.length_append] at hsmall; exact Nat.le_trans (Nat.le_add_right _ _) hsmall
    rw [handle_read_loop_continue cfg f conn w b h1 h2 hno1 hs1]
    have hf : 16 * 1024 - (conn.in_buf ++ b).length + 1 ≤ f := by
      rw [List.length_append] at hs1 ⊢; omega
    exact ih f { conn with in_buf := conn.in_buf ++ b } _ last h3 hno hsmall hbig hf

/-- How `handle_read` can leave a reachable connection that was in `READING_REQUEST`:
still reading with a clean buffer, closing, or answered with the terminator in
the buffer. -/
theorem handle_read_outcome (cfg : ServerConfig) (env : World → Prop) (c : Connection)
    (w : World) (hr : Reachable cfg env c w) (hst : c.state = ConnState.READING_REQUEST) :
    ((handle_read c cfg w).1.state = ConnState.READING_REQUEST ∧
      (handle_read c cfg w).2.1 = false ∧
      find "\r\n\r\n".toList (handle_read c cfg w).1.in_buf = none ∧
      (handle_read c cfg w).1.in_buf.length ≤ 16 * 1024) ∨
    ((handle_read c cfg w).1.state = ConnState.CLOSING ∧
      (handle_read c cfg w).2.1 = true ∧
      (handle_read c cfg w).1.out_buf = c.out_buf) ∨
    ((handle_read c cfg w).1.state = ConnState.SENDING_HEADERS ∧
      (handle_read c cfg w).2.1 = false ∧
      (find "\r\n\r\n".toList (handle_read c cfg w).1.in_buf).isSome = true) := by
  have hclean := reading_is_clean cfg env _ _ (Reachable.read c w hr)
  have hcl := reading_is_clean cfg env c w hr hst
  revert hclean
  rw [handle_read_of_reading c cfg w hst]
  intro hclean
  rcases handle_read_loop_effect cfg (16 * 1024 - c.in_buf.length + 1) c w with
    ⟨a1, a2, a3, a4⟩ | ⟨m, p, h, a1, a2, a3, a4⟩ | ⟨b, m, p, h, w1, a0, ab, a1, a2, a3⟩
  · have hs : (handle_read_loop cfg (16 * 1024 - c.in_buf.length + 1) c w).1.state =
        ConnState.READING_REQUEST := by rw [a1]; exact hst
    exact Or.inl ⟨hs, a2, (hclean hs).2.2⟩
  · refine Or.inr (Or.inl ⟨by rw [a1], a2, by rw [a1]⟩)
  · refine Or.inr (Or.inr ⟨?_, a3, ?_⟩)
    · rw [a1]; exact (prepare_response_keeps _ cfg w1).2.2.2.2.2.1
    · rw [a1, (prepare_response_keeps _ cfg w1).1]; exact ab

/-- C16: a pass of the read loop after which the buffer holds more than 16 KiB
(16384 bytes) and no terminator sets the state to `CLOSING` with `want_close = true`.
So does a `handle_read` whose `recv` calls deliver chunks without terminator, the
last of which is the first to leave more than 16384 bytes in the buffer. Hence a
`handle_read` on a reachable connection that leaves it in `READING_REQUEST` leaves
a buffer without terminator of at most 16384 bytes, and one that leaves a longer
buffer without terminator leaves the connection in `CLOSING` with
`want_close = true`. While the buffer holds no terminator nothing is parsed: only
`in_buf` and `state` change, and no `stat`, `open` or `close` is made. -/
theorem read_path_bound (cfg : ServerConfig) :
    (∀ (fuel : Nat) (conn : Connection) (w : World) (bs : Str),
      (sys_recv w READ_CHUNK).1 = RecvRet.data bs → 0 < bs.length →
      find "\r\n\r\n".toList (conn.in_buf ++ bs) = none →
      16 * 1024 < (conn.in_buf ++ bs).length →
      (handle_read_loop cfg (fuel + 1) conn w).1.state = ConnState.CLOSING ∧
      (handle_read_loop cfg (fuel + 1) conn w).2.1 = true) ∧
    (∀ (c : Connection) (w : World) (chunks : List Str) (last : Str),
      c.state = ConnState.READING_REQUEST → delivers w (chunks ++ [last]) →
      find "\r\n\r\n".toList (c.in_buf ++ chunks.flatten ++ last) = none →
      (c.in_buf ++ chunks.flatten).length ≤ 16384 →
      16384 < (c.in_buf ++ chunks.flatten ++ last).length →
      (handle_read c cfg w).1 =
        { c with in_buf := c.in_buf ++ chunks.flatten ++ last, state := ConnState.CLOSING } ∧
      (handle_read c cfg w).2.1 = true) ∧
    (∀ (env : World → Prop) (c : Connection) (w : World), Reachable cfg env c w →
      ((handle_read c cfg w).1.state = ConnState.READING_REQUEST →
        find "\r\n\r\n".toList (handle_read c cfg w).1.in_buf = none ∧
        (handle_read c cfg w).1.in_buf.length ≤ 16384) ∧
      (c.state = ConnState.READING_REQUEST →
        find "\r\n\r\n".toList (handle_read c cfg w).1.in_buf = none →
        16384 < (handle_read c cfg w).1.in_buf.length →
        (handle_read c cfg w).1.state = ConnState.CLOSING ∧
        (handle_read c cfg w).2.1 = true)) ∧
    (∀ (c : Connection) (w : World),
      find "\r\n\r\n".toList (handle_read c cfg w).1.in_buf = none →
      (handle_read c cfg w).1 =
        { c with in_buf := (handle_read c cfg w).1.in_buf,
                 state := (handle_read c cfg w).1.state } ∧
      no_file_event w (handle_read c cfg w).2.2) := by
  refine ⟨?_, ?_, ?_, ?_⟩
  · intro fuel conn w bs h1 h2 h3 h4
    rw [handle_read_loop_overflow cfg fuel conn w bs h1 h2 h3 h4]
    exact ⟨rfl, rfl⟩
  · intro c w chunks last hst hd hno hsmall hbig
    rw [handle_read_of_reading c cfg w hst]
    exact handle_read_loop_flood cfg chunks _ c w last hd hno hsmall hbig (Nat.le_refl _)
  · intro env c w hr
    refine ⟨fun hs => (reading_is_clean cfg env _ _ (Reachable.read c w hr) hs).2.2, ?_⟩
    intro hst hno hbig
    rcases handle_read_outcome cfg env c w hr hst with ⟨-, -, -, h⟩ | ⟨h1, h2, -⟩ | ⟨-, -, h⟩
    · omega
    · exact ⟨h1, h2⟩
    · rw [hno] at h; cases h
  · intro c w
    by_cases hst : c.state = ConnState.READING_REQUEST
    · rw [handle_read_of_reading c cfg w hst]
      intro hno
      rcases handle_read_loop_effect cfg (16 * 1024 - c.in_buf.length + 1) c w with
        ⟨a1, a2, a3, a4⟩ | ⟨m, p, h, a1, a2, a3, a4⟩ | ⟨b, m, p, h, w1, a0, ab, a1, a2, a3⟩
      · refine ⟨?_, a3⟩
        have hs : (handle_read_loop cfg (16 * 1024 - c.in_buf.length + 1) c w).1.state =
            c.state := by rw [a1]
        rw [hs]; exact a1
      · refine ⟨?_, a3⟩
        have hs : (handle_read_loop cfg (16 * 1024 - c.in_buf.length + 1) c w).1.state =
            ConnState.CLOSING := by rw [a1]
        obtain ⟨e1, e2, e3⟩ := a4 hno
        rw [hs]
        rw [e1, e2, e3] at a1
        exact a1
      · rw [a1, (prepare_response_keeps _ cfg w1).1] at hno
        rw [show find "\r\n\r\n".toList b = none from hno] at ab
        cases ab
    · rw [handle_read_of_not_reading c cfg w hst]
      intro _
      exact ⟨rfl, no_file_event_refl w⟩

theorem flood_peer_delivers :
    delivers flood_peer
      ([List.replicate 4096 'a', List.replicate 4096 'a', List.replicate 4096 'a',
        List.replicate 4096 'a'] ++ [List.replicate 4096 'a']) := by
  have e : List.take READ_CHUNK (List.replicate 5000 'a') = List.replicate 4096 'a' := by
    rw [List.take_replicate]; rfl
  have hl : 0 < (List.replicate 4096 'a').length := by rw [List.length_replicate]; decide
  have step : ∀ w : World, w.recv_script = flood_peer.recv_script →
      (sys_recv w READ_CHUNK).1 = RecvRet.data (List.replicate 4096 'a') ∧
      (sys_recv w READ_CHUNK).2.recv_script = flood_peer.recv_script := by
    intro w h
    refine ⟨?_, h⟩
    show (match w.recv_script w.recv_calls with
      | RecvRet.data bs => RecvRet.data (bs.take READ_CHUNK)
      | r => r) = _
    rw [h]
    show RecvRet.data (List.take READ_CHUNK (List.replicate 5000 'a')) = _
    rw [e]
  have s1 := step flood_peer rfl
  have s2 := step _ s1.2
  have s3 := step _ s2.2
  have s4 := step _ s3.2
  have s5 := step _ s4.2
  exact ⟨s1.1, hl, s2.1, hl, s3.1, hl, s4.1, hl, s5.1, hl, trivial⟩

theorem flood_buffer (x : Str) (chunks : List Str) (last : Str) (hx : ∀ c ∈ x, c = 'a')
    (hc : ∀ b ∈ chunks, ∀ c ∈ b, c = 'a') (hl : ∀ c ∈ last, c = 'a') :
    find "\r\n\r\n".toList (x ++ chunks.flatten ++ last) = none := by
  apply find_all_a
  intro c h
  rcases List.mem_append.mp h with h | h
  · rcases List.mem_append.mp h with h | h
    · exact hx c h
    · obtain ⟨b, hb, hcb⟩ := List.mem_flatten.mp h
      exact hc b hb c hcb
  · exact hl c h

/-- C16 at `flood_peer`: a fresh connection is closed by `handle_read` after five
chunks of 4096 bytes, the fifth pass being the one that overflows the buffer
`flooded`; the partial request of `partial_peer` leaves a fresh connection
reading with nothing parsed. -/
theorem read_path_bound_witness :
    ((handle_read_loop {} (0 + 1) flooded flood_peer).1.state = ConnState.CLOSING ∧
      (handle_read_loop {} (0 + 1) flooded flood_peer).2.1 = true) ∧
    ((handle_read {} {} flood_peer).1 =
        { ({} : Connection) with
            in_buf := ({} : Connection).in_buf ++
              [List.replicate 4096 'a', List.replicate 4096 'a', List.replicate 4096 'a',
                List.replicate 4096 'a'].flatten ++ List.replicate 4096 'a',
            state := ConnState.CLOSING } ∧
      (handle_read {} {} flood_peer).2.1 = true) ∧
    (find "\r\n\r\n".toList (handle_read {} {} partial_peer).1.in_buf = none ∧
      (handle_read {} {} partial_peer).1.in_buf.length ≤ 16384) ∧
    ((handle_read {} {} partial_peer).1 =
        { ({} : Connection) with
            in_buf := (handle_read {} {} partial_peer).1.in_buf,
            state := (handle_read {} {} partial_peer).1.state } ∧
      no_file_event partial_peer (handle_read {} {} partial_peer).2.2) :=
  ⟨(read_path_bound {}).1 0 flooded flood_peer (List.replicate 4096 'a')
      flood_peer_delivers.1 flood_peer_delivers.2.1
      (by
        show find _ (List.replicate 16384 'a' ++ List.replicate 4096 'a') = none
        exact find_all_a _ (fun c h => by
          rcases List.mem_append.mp h with h | h <;> exact List.eq_of_mem_replicate h))
      (by
        show 16 * 1024 < (List.replicate 16384 'a' ++ List.replicate 4096 'a').length
        rw [List.length_append, List.length_replicate, List.length_replicate]; decide),
    (read_path_bound {}).2.1 {} flood_peer
      [List.replicate 4096 'a', List.replicate 4096 'a', List.replicate 4096 'a',
        List.replicate 4096 'a'] (List.replicate 4096 'a') rfl flood_peer_delivers
      (flood_buffer _ _ _ (fun _ h => by cases h)
        (fun b hb c hc => by
          simp only [List.mem_cons, List.mem_singleton, List.not_mem_nil, or_false,
            or_self] at hb
          rw [hb] at hc; exact List.eq_of_mem_replicate hc)
        (fun _ h => List.eq_of_mem_replicate h))
      (by
        simp only [List.length_append, List.length_flatten, List.map_cons, List.map_nil,
          List.length_replicate, List.sum_cons, List.sum_nil]
        decide)
      (by
        simp only [List.length_append, List.length_flatten, List.map_cons, List.map_nil,
          List.length_replicate, List.sum_cons, List.sum_nil]
        decide),
    ((read_path_bound {}).2.2.1 (fun _ => True) {} partial_peer
      (Reachable.fresh (-1) partial_peer trivial rfl)).1 (by decide),
    (read_path_bound {}).2.2.2 {} partial_peer (by decide)⟩

theorem partial_peer_in_buf :
    (handle_read {} {} partial_peer).1.in_buf = "GET /index.html HT".toList ∧
    (handle_read {} {} partial_peer).1.state = ConnState.READING_REQUEST := by decide

theorem parse_request_out_buf (c : Connection) : (parse_request c).2.out_buf = c.out_buf := by
  obtain ⟨m, p, h, e⟩ := parse_request_frame c
  rw [e]

/-- C17: a pass of the read loop whose buffer holds the terminator and whose request
line `parse_request` rejects ends in `CLOSING` with `want_close = true`, leaves
`out_buf` as it was and performs no `send`. On a reachable connection, where
`out_buf` is empty while reading, every `handle_read` that ends in `CLOSING`
returns `want_close = true` and an empty `out_buf` and has sent nothing. -/
theorem malformed_request_closes_silently (cfg : ServerConfig) :
    (∀ (fuel : Nat) (conn : Connection) (w : World) (bs : Str),
      (sys_recv w READ_CHUNK).1 = RecvRet.data bs → 0 < bs.length →
      (find "\r\n\r\n".toList (conn.in_buf ++ bs)).isSome = true →
      (parse_request { conn with in_buf := conn.in_buf ++ bs }).1 = false →
      (handle_read_loop cfg (fuel + 1) conn w).1.state = ConnState.CLOSING ∧
      (handle_read_loop cfg (fuel + 1) conn w).2.1 = true ∧
      (handle_read_loop cfg (fuel + 1) conn w).1.out_buf = conn.out_buf ∧
      (handle_read_loop cfg (fuel + 1) conn w).2.2.wire = w.wire ∧
      (handle_read_loop cfg (fuel + 1) conn w).2.2.send_calls = w.send_calls ∧
      sends (handle_read_loop cfg (fuel + 1) conn w).2.2.log = sends w.log) ∧
    (∀ (env : World → Prop) (c : Connection) (w : World), Reachable cfg env c w →
      c.state = ConnState.READING_REQUEST →
      (handle_read c cfg w).1.state = ConnState.CLOSING →
      (handle_read c cfg w).2.1 = true ∧
      (handle_read c cfg w).1.out_buf = [] ∧
      (handle_read c cfg w).2.2.wire = w.wire ∧
      (handle_read c cfg w).2.2.send_calls = w.send_calls) := by
  refine ⟨?_, ?_⟩
  · intro fuel conn w bs h1 h2 h3 h4
    rw [handle_read_loop_malformed cfg fuel conn w bs h1 h2 h3 h4]
    refine ⟨rfl, rfl, parse_request_out_buf _, rfl, rfl, ?_⟩
    show sends (w.log ++ [Event.recv _]) = sends w.log
    unfold sends
    rw [List.filterMap_append]
    exact List.append_nil _
  · intro env c w hr hst hcl
    have hq := handle_read_quiet c cfg w
    have hob := (reading_is_clean cfg env c w hr hst).1
    rcases handle_read_outcome cfg env c w hr hst with ⟨h, -⟩ | ⟨-, h2, h3⟩ | ⟨h, -⟩
    · rw [h] at hcl; cases hcl
    · exact ⟨h2, by rw [h3, hob], hq.1, hq.2⟩
    · rw [h] at hcl; cases hcl

/-- C17 at a fresh connection that receives the request line `GET`. -/
theorem malformed_request_closes_silently_witness :
    ((handle_read_loop {} (0 + 1) {} malformed_peer).1.state = ConnState.CLOSING ∧
      (handle_read_loop {} (0 + 1) {} malformed_peer).2.1 = true ∧
      (handle_read_loop {} (0 + 1) {} malformed_peer).1.out_buf = ({} : Connection).out_buf ∧
      (handle_read_loop {} (0 + 1) {} malformed_peer).2.2.wire = malformed_peer.wire ∧
      (handle_read_loop {} (0 + 1) {} malformed_peer).2.2.send_calls =
        malformed_peer.send_calls ∧
      sends (handle_read_loop {} (0 + 1) {} malformed_peer).2.2.log =
        sends malformed_peer.log) ∧
    ((handle_read {} {} malformed_peer).2.1 = true ∧
      (handle_read {} {} malformed_peer).1.out_buf = [] ∧
      (handle_read {} {} malformed_peer).2.2.wire = malformed_peer.wire ∧
      (handle_read {} {} malformed_peer).2.2.send_calls = malformed_peer.send_calls) :=
  ⟨(malformed_request_closes_silently {}).1 0 {} malformed_peer "GET\r\n\r\n".toList rfl
      (by decide) (by decide) (by decide),
    (malformed_request_closes_silently {}).2 (fun _ => True) {} malformed_peer
      (Reachable.fresh (-1) malformed_peer trivial rfl) (by decide) (by decide)⟩

/-! ## Completion transitions of `handle_write` -/

theorem next_state_keep_alive (k : Bool) :
    next_state (!k) = if k then ConnState.READING_REQUEST else ConnState.CLOSING := by
  cases k <;> rfl

/-- A `send` that would block delivers nothing. -/
theorem sys_send_again (w : World) (offered : Str)
    (h : w.send_script w.send_calls offered.length = SendRet.again) :
    (sys_send w offered).1 = SendRet.again ∧ (sys_send w offered).2.wire = w.wire := by
  unfold sys_send
  dsimp only
  rw [h]
  exact ⟨rfl, List.append_nil _⟩

/-- The result of `handle_write` when the drain loop would block. -/
theorem handle_write_blocked (conn : Connection) (w : World)
    (hst : conn.state = ConnState.SENDING_HEADERS ∨ conn.state = ConnState.SENDING_BODY)
    (hd : (drain_out_buf (conn.out_buf.length - conn.out_sent) conn w).1 = Drain.blocked) :
    handle_write conn w =
      ((drain_out_buf (conn.out_buf.length - conn.out_sent) conn w).2.1, false,
        (drain_out_buf (conn.out_buf.length - conn.out_sent) conn w).2.2) := by
  unfold handle_write
  rw [if_neg (by rcases hst with h | h <;> rw [h] <;> decide)]
  generalize drain_out_buf (conn.out_buf.length - conn.out_sent) conn w = D at hd ⊢
  obtain ⟨d, c2, w2⟩ := D
  dsimp only at hd
  subst hd
  rfl

/-- The result of `handle_write` when the drain loop has emptied the buffer. -/
theorem handle_write_drained (conn : Connection) (w : World)
    (hst : conn.state = ConnState.SENDING_HEADERS ∨ conn.state = ConnState.SENDING_BODY)
    (hd : (drain_out_buf (conn.out_buf.length - conn.out_sent) conn w).1 = Drain.drained) :
    handle_write conn w =
      if conn.state = ConnState.SENDING_HEADERS then
        if conn.head_only = true ∨ conn.file_size = 0 ∨ conn.file_fd < 0 then
          ((if conn.file_fd ≥ 0 then
              { (drain_out_buf (conn.out_buf.length - conn.out_sent) conn w).2.1 with
                  file_fd := -1, state := next_state (!conn.keep_alive), in_buf := [],
                  out_buf := [], out_sent := 0 }
            else
              { (drain_out_buf (conn.out_buf.length - conn.out_sent) conn w).2.1 with
                  state := next_state (!conn.keep_alive), in_buf := [],
                  out_buf := [], out_sent := 0 }),
            !conn.keep_alive,
            (if conn.file_fd ≥ 0 then
              sys_close (drain_out_buf (conn.out_buf.length - conn.out_sent) conn w).2.2
                conn.file_fd
            else (drain_out_buf (conn.out_buf.length - conn.out_sent) conn w).2.2))
        else
          send_body
            { (drain_out_buf (conn.out_buf.length - conn.out_sent) conn w).2.1 with
                state := ConnState.SENDING_BODY, out_buf := [], out_sent := 0 }
            (drain_out_buf (conn.out_buf.length - conn.out_sent) conn w).2.2
      else
        send_body (drain_out_buf (conn.out_buf.length - conn.out_sent) conn w).2.1
          (drain_out_buf (conn.out_buf.length - conn.out_sent) conn w).2.2 := by
  have hne : conn.state ≠ ConnState.READING_REQUEST := by
    rcases hst with h | h <;> rw [h] <;> decide
  obtain ⟨hw, -, hfd, -, -, -, -, hs⟩ :=
    drain_out_buf_wrote (conn.out_buf.length - conn.out_sent) conn w hne
  have hs2 := hs (by rw [hd]; decide)
  obtain ⟨-, hfs, hka, hho, -⟩ := hw
  unfold handle_write
  rw [if_neg (by rcases hst with h | h <;> rw [h] <;> decide)]
  generalize drain_out_buf (conn.out_buf.length - conn.out_sent) conn w = D at hd hfd hs2 hfs hka hho ⊢
  obtain ⟨d, c2, w2⟩ := D
  dsimp only at hd hfd hs2 hfs hka hho
  subst hd
  dsimp only
  rw [hs2, hfs, hka, hho, hfd]
  by_cases h1 : conn.state = ConnState.SENDING_HEADERS
  · rw [if_pos h1, if_pos h1]
    by_cases h2 : conn.head_only = true ∨ conn.file_size = 0 ∨ conn.file_fd < 0
    · rw [if_pos h2, if_pos h2]
      by_cases h3 : conn.file_fd ≥ 0
      · rw [if_pos h3, if_pos h3, if_pos h3]
      · rw [if_neg h3, if_neg h3, if_neg h3]
    · rw [if_neg h2, if_neg h2]
  · rw [if_neg h1, if_neg h1]


theorem body_complete_done (c : Connection) (w : World) (h : c.file_offset ≥ c.file_size) :
    (body_complete c w).1.state =
      (if c.keep_alive then ConnState.READING_REQUEST else ConnState.CLOSING) ∧
    (body_complete c w).2.1 = !c.keep_alive := by
  rw [body_complete_eq, if_pos h, ← next_state_keep_alive]
  refine ⟨?_, rfl⟩
  dsimp only
  split <;> rfl

theorem body_complete_outcome (c : Connection) (w : World)
    (hst : c.state = ConnState.SENDING_BODY) :
    ((body_complete c w).1.state = ConnState.SENDING_BODY ∧ (body_complete c w).2.1 = false) ∨
    ((body_complete c w).1.state =
        (if c.keep_alive then ConnState.READING_REQUEST else ConnState.CLOSING) ∧
      (body_complete c w).2.1 = !c.keep_alive) := by
  by_cases h : c.file_offset ≥ c.file_size
  · exact Or.inr (body_complete_done c w h)
  · rw [body_complete_eq, if_neg h]
    exact Or.inl ⟨hst, rfl⟩

/-- A chunk loop that would block keeps every field but the two of the output
buffer, which becomes the unsent remainder of the chunk. -/
theorem send_chunk_blocked (buf : Str) (fuel : Nat) : ∀ (st : Nat) (conn : Connection) (w : World),
    (send_chunk buf fuel st conn w).1 = Drain.blocked →
    ∃ k, st ≤ k ∧ k < buf.length ∧
      (send_chunk buf fuel st conn w).2.1 = { conn with out_buf := buf.drop k, out_sent := 0 } := by
  induction fuel with
  | zero => intro st conn w h; cases h
  | succ fuel ih =>
    intro st conn w
    unfold send_chunk
    split
    · rename_i hlt
      generalize sys_send w (List.drop st buf) = rs
      obtain ⟨r1, w2⟩ := rs
      cases r1 with
      | accepted n =>
        dsimp only
        split
        · intro h
          obtain ⟨k, h1, h2, h3⟩ := ih (st + n) conn w2 h
          exact ⟨k, by omega, h2, h3⟩
        · intro h; cases h
      | again => intro _; exact ⟨st, Nat.le_refl _, hlt, rfl⟩
      | error => intro h; cases h
    · intro h; cases h

/-- How the body block of `handle_write` can end: still in `SENDING_BODY` (would-block,
or more of the file to send), response finished, or closed after a failed `send`. -/
theorem send_body_outcome (c : Connection) (w : World)
    (hst : c.state = ConnState.SENDING_BODY) :
    ((send_body c w).1.state = ConnState.SENDING_BODY ∧ (send_body c w).2.1 = false) ∨
    ((send_body c w).1.state =
        (if c.keep_alive then ConnState.READING_REQUEST else ConnState.CLOSING) ∧
      (send_body c w).2.1 = !c.keep_alive) ∨
    ((send_body c w).1.state = ConnState.CLOSING ∧ (send_body c w).2.1 = true) := by
  unfold send_body
  rw [if_pos hst]
  split
  · dsimp only
    generalize sys_read w c.file_fd _ = rr
    obtain ⟨r1, w2⟩ := rr
    cases r1 with
    | none =>
      dsimp only
      rcases body_complete_outcome { c with file_offset := c.file_size } w2 hst with h | h
      · exact Or.inl h
      · exact Or.inr (Or.inl h)
    | some file_buf =>
      dsimp only
      split
      · have hne : ({ c with file_offset := c.file_offset + file_buf.length } : Connection).state
            ≠ ConnState.READING_REQUEST := by
          show c.state ≠ _
          rw [hst]; decide
        obtain ⟨-, h1, h2, h3⟩ := send_chunk_wrote file_buf file_buf.length 0
          { c with file_offset := c.file_offset + file_buf.length } w2 hne
        generalize send_chunk file_buf file_buf.length 0
          { c with file_offset := c.file_offset + file_buf.length } w2 = sc at h1 h2 h3 ⊢
        obtain ⟨d, c3, w3⟩ := sc
        dsimp only at h1 h2 h3
        cases d with
        | drained =>
          dsimp only
          rw [h1 rfl]
          rcases body_complete_outcome
            { c with file_offset := c.file_offset + file_buf.length } w3 hst with h | h
          · exact Or.inl h
          · exact Or.inr (Or.inl h)
        | blocked => exact Or.inl ⟨(h2 rfl).trans hst, rfl⟩
        | failed => exact Or.inr (Or.inr ⟨h3 rfl, rfl⟩)
      · rcases body_complete_outcome { c with file_offset := c.file_size } w2 hst with h | h
        · exact Or.inl h
        · exact Or.inr (Or.inl h)
  · rcases body_complete_outcome c w hst with h | h
    · exact Or.inl h
    · exact Or.inr (Or.inl h)


/-- C20: the transitions of `handle_write` on a connection `conn`, in terms of how
its drain loop over `out_buf` ends. Drained in `SENDING_HEADERS` with a HEAD request,
`file_size = 0` or no open file: the state becomes `READING_REQUEST` when
`keep_alive` is true and `CLOSING` otherwise, and `want_close = !keep_alive`.
Drained in `SENDING_HEADERS` otherwise: the connection enters `SENDING_BODY` with an
empty buffer and the body block runs, which ends in `SENDING_BODY`, in the finished
state, or in `CLOSING` after a failed `send`. Drained in `SENDING_BODY` with
`file_offset ≥ file_size`, and whenever the final block runs with
`file_offset ≥ file_size`: `READING_REQUEST` when `keep_alive` is true and `CLOSING`
otherwise. A would-block in the drain loop returns `want_close = false` with the
state and `out_buf` unchanged and `out_sent` not decreased; a would-block in the
chunk loop changes only `out_buf` and `out_sent`, to the unsent remainder of the
chunk; and a `send` that would block adds nothing to the bytes delivered. -/
theorem handle_write_completion (conn : Connection) (w : World) :
    (conn.state = ConnState.SENDING_HEADERS →
      (drain_out_buf (conn.out_buf.length - conn.out_sent) conn w).1 = Drain.drained →
      (conn.head_only = true ∨ conn.file_size = 0 ∨ conn.file_fd < 0) →
      (handle_write conn w).1.state =
        (if conn.keep_alive then ConnState.READING_REQUEST else ConnState.CLOSING) ∧
      (handle_write conn w).2.1 = !conn.keep_alive) ∧
    (conn.state = ConnState.SENDING_HEADERS →
      (drain_out_buf (conn.out_buf.length - conn.out_sent) conn w).1 = Drain.drained →
      ¬ (conn.head_only = true ∨ conn.file_size = 0 ∨ conn.file_fd < 0) →
      handle_write conn w =
        send_body
          { (drain_out_buf (conn.out_buf.length - conn.out_sent) conn w).2.1 with
              state := ConnState.SENDING_BODY, out_buf := [], out_sent := 0 }
          (drain_out_buf (conn.out_buf.length - conn.out_sent) conn w).2.2 ∧
      (((handle_write conn w).1.state = ConnState.SENDING_BODY ∧
          (handle_write conn w).2.1 = false) ∨
        ((handle_write conn w).1.state =
            (if conn.keep_alive then ConnState.READING_REQUEST else ConnState.CLOSING) ∧
          (handle_write conn w).2.1 = !conn.keep_alive) ∨
        ((handle_write conn w).1.state = ConnState.CLOSING ∧
          (handle_write conn w).2.1 = true))) ∧
    (conn.state = ConnState.SENDING_BODY →
      (drain_out_buf (conn.out_buf.length - conn.out_sent) conn w).1 = Drain.drained →
      conn.file_offset ≥ conn.file_size →
      (handle_write conn w).1.state =
        (if conn.keep_alive then ConnState.READING_REQUEST else ConnState.CLOSING) ∧
      (handle_write conn w).2.1 = !conn.keep_alive) ∧
    (conn.file_offset ≥ conn.file_size →
      (body_complete conn w).1.state =
        (if conn.keep_alive then ConnState.READING_REQUEST else ConnState.CLOSING) ∧
      (body_complete conn w).2.1 = !conn.keep_alive) ∧
    ((conn.state = ConnState.SENDING_HEADERS ∨ conn.state = ConnState.SENDING_BODY) →
      (drain_out_buf (conn.out_buf.length - conn.out_sent) conn w).1 = Drain.blocked →
      (handle_write conn w).1.state = conn.state ∧ (handle_write conn w).2.1 = false ∧
      (handle_write conn w).1.out_buf = conn.out_buf ∧
      conn.out_sent ≤ (handle_write conn w).1.out_sent) ∧
    (∀ (buf : Str) (fuel st : Nat), (send_chunk buf fuel st conn w).1 = Drain.blocked →
      ∃ k, st ≤ k ∧ k < buf.length ∧
        (send_chunk buf fuel st conn w).2.1 =
          { conn with out_buf := buf.drop k, out_sent := 0 }) ∧
    (∀ (offered : Str), w.send_script w.send_calls offered.length = SendRet.again →
      (sys_send w offered).1 = SendRet.again ∧ (sys_send w offered).2.wire = w.wire) := by
  refine ⟨?_, ?_, ?_, body_complete_done conn w, ?_, ?_, sys_send_again w⟩
  · intro hst hd hc
    rw [handle_write_drained conn w (Or.inl hst) hd, if_pos hst, if_pos hc,
      ← next_state_keep_alive]
    refine ⟨?_, rfl⟩
    dsimp only
    split <;> rfl
  · intro hst hd hc
    have e := handle_write_drained conn w (Or.inl hst) hd
    rw [if_pos hst, if_neg hc] at e
    refine ⟨e, ?_⟩
    rw [e]
    have hne : conn.state ≠ ConnState.READING_REQUEST := by rw [hst]; decide
    have hka := (drain_out_buf_wrote (conn.out_buf.length - conn.out_sent) conn w hne).1.2.2.1
    rw [← hka]
    exact send_body_outcome _ _ rfl
  · intro hst hd hc
    have hne : conn.state ≠ ConnState.READING_REQUEST := by rw [hst]; decide
    obtain ⟨hw, -, -, hfo, -, -, -, hs⟩ :=
      drain_out_buf_wrote (conn.out_buf.length - conn.out_sent) conn w hne
    have hs2 := hs (by rw [hd]; decide)
    rw [handle_write_drained conn w (Or.inr hst) hd,
      if_neg (by rw [hst]; decide)]
    have hge : (drain_out_buf (conn.out_buf.length - conn.out_sent) conn w).2.1.file_offset ≥
        (drain_out_buf (conn.out_buf.length - conn.out_sent) conn w).2.1.file_size := by
      rw [hfo, hw.2.1]; exact hc
    unfold send_body
    rw [if_pos (hs2.trans hst), if_neg (not_lt.mpr hge), ← hw.2.2.1]
    exact body_complete_done _ _ hge
  · intro hst hd
    have hne : conn.state ≠ ConnState.READING_REQUEST := by
      rcases hst with h | h <;> rw [h] <;> decide
    obtain ⟨-, hob, -, -, -, hos, -, hs⟩ :=
      drain_out_buf_wrote (conn.out_buf.length - conn.out_sent) conn w hne
    rw [handle_write_blocked conn w hst hd]
    exact ⟨hs (by rw [hd]; decide), rfl, hob, hos⟩
  · intro buf fuel st h
    exact send_chunk_blocked buf fuel st conn w h


/-- C20 at concrete connections: a 404 on a keep-alive connection is recycled, a 200
with an open file enters the body block, a finished body is recycled, and the
would-block of `slow_peer` after two header bytes leaves the state unchanged. -/
theorem handle_write_completion_witness :
    ((handle_write not_found_answered.1 not_found_answered.2.2).1.state =
        (if not_found_answered.1.keep_alive then ConnState.READING_REQUEST
          else ConnState.CLOSING) ∧
      (handle_write not_found_answered.1 not_found_answered.2.2).2.1 =
        !not_found_answered.1.keep_alive) ∧
    (handle_write eager_answered.1 eager_answered.2.2 =
      send_body
        { (drain_out_buf (eager_answered.1.out_buf.length - eager_answered.1.out_sent)
            eager_answered.1 eager_answered.2.2).2.1 with
            state := ConnState.SENDING_BODY, out_buf := [], out_sent := 0 }
        (drain_out_buf (eager_answered.1.out_buf.length - eager_answered.1.out_sent)
          eager_answered.1 eager_answered.2.2).2.2) ∧
    ((handle_write body_done empty_root).1.state =
        (if body_done.keep_alive then ConnState.READING_REQUEST else ConnState.CLOSING) ∧
      (handle_write body_done empty_root).2.1 = !body_done.keep_alive) ∧
    ((body_complete body_done empty_root).1.state =
        (if body_done.keep_alive then ConnState.READING_REQUEST else ConnState.CLOSING) ∧
      (body_complete body_done empty_root).2.1 = !body_done.keep_alive) ∧
    ((handle_write slow_answered.1 slow_answered.2.2).1.state = slow_answered.1.state ∧
      (handle_write slow_answered.1 slow_answered.2.2).2.1 = false ∧
      (handle_write slow_answered.1 slow_answered.2.2).1.out_buf = slow_answered.1.out_buf ∧
      slow_answered.1.out_sent ≤ (handle_write slow_answered.1 slow_answered.2.2).1.out_sent) ∧
    (∃ k, 0 ≤ k ∧ k < "abc".toList.length ∧
      (send_chunk "abc".toList 3 0 body_done blocking_peer).2.1 =
        { body_done with out_buf := "abc".toList.drop k, out_sent := 0 }) ∧
    ((sys_send blocking_peer "abc".toList).1 = SendRet.again ∧
      (sys_send blocking_peer "abc".toList).2.wire = blocking_peer.wire) :=
  ⟨(handle_write_completion not_found_answered.1 not_found_answered.2.2).1
      (by decide) (by decide) (by decide),
    ((handle_write_completion eager_answered.1 eager_answered.2.2).2.1
      (by decide) (by decide) (by decide)).1,
    (handle_write_completion body_done empty_root).2.2.1 (by decide) (by decide) (by decide),
    (handle_write_completion body_done empty_root).2.2.2.1 (by decide),
    (handle_write_completion slow_answered.1 slow_answered.2.2).2.2.2.2.1
      (Or.inl (by decide)) (by decide),
    (handle_write_completion body_done blocking_peer).2.2.2.2.2.1 "abc".toList 3 0 (by decide),
    (handle_write_completion body_done blocking_peer).2.2.2.2.2.2 "abc".toList (by decide)⟩

/-! ## Independence from residual state -/

/-- An extraction that yields a token on an empty target yields the same token on
every target. -/
theorem extract_of_ne_nil (is : IStream) (old : Str) (h : (extract is []).1 ≠ []) :
    extract is old = extract is [] := by
  unfold extract at h ⊢
  by_cases hg : is.good = true
  · rw [if_pos hg] at h
    rw [if_pos hg, if_pos hg]
    dsimp only at h ⊢
    by_cases hr : is.buf.dropWhile isspace = []
    · rw [if_pos hr] at h
      exact absurd rfl h
    · rw [if_neg hr, if_neg hr]
  · rw [if_neg hg] at h
    exact absurd rfl h

theorem parse_request_eq (c : Connection) :
    parse_request c =
      match request_line c.in_buf with
      | none => (false, c)
      | some rl =>
        if (extract { buf := rl, good := true } c.method).1 = [] ∨
            (extract (extract { buf := rl, good := true } c.method).2 c.path).1 = [] then
          (false, { c with method := (extract { buf := rl, good := true } c.method).1,
                           path := (extract (extract { buf := rl, good := true } c.method).2
                             c.path).1 })
        else
          (true, { c with method := (extract { buf := rl, good := true } c.method).1,
                          path := (extract (extract { buf := rl, good := true } c.method).2
                            c.path).1,
                          head_only := decide (upper (extract { buf := rl, good := true }
                            c.method).1 = "HEAD".toList) }) := by
  unfold parse_request request_line
  cases find "\r\n\r\n".toList c.in_buf with
  | none => rfl
  | some pos =>
    dsimp only
    cases getline (List.take pos c.in_buf) with
    | none => rfl
    | some line => rfl

/-- A request that `parse_request` accepts on a fresh connection is accepted on every
connection holding the same buffer, with the same method, target and `head_only`. -/
theorem parse_request_fresh (c : Connection) (fd : Int) (b : Str)
    (h : (parse_request { fd := fd, in_buf := b }).1 = true) :
    ∃ m p ho, m ≠ [] ∧ p ≠ [] ∧
      parse_request { c with in_buf := b } =
        (true, { c with in_buf := b, method := m, path := p, head_only := ho }) ∧
      parse_request { fd := fd, in_buf := b } =
        (true, { fd := fd, in_buf := b, method := m, path := p, head_only := ho }) := by
  rw [parse_request_eq] at h ⊢
  rw [parse_request_eq]
  dsimp only at h ⊢
  cases hrl : request_line b with
  | none => rw [hrl] at h; cases h
  | some rl =>
    rw [hrl] at h
    dsimp only at h ⊢
    by_cases hc : (extract { buf := rl, good := true } []).1 = [] ∨
        (extract (extract { buf := rl, good := true } []).2 []).1 = []
    · rw [if_pos hc] at h; cases h
    · have h1 : (extract { buf := rl, good := true } []).1 ≠ [] := fun e => hc (Or.inl e)
      have h2 : (extract (extract { buf := rl, good := true } []).2 []).1 ≠ [] :=
        fun e => hc (Or.inr e)
      rw [extract_of_ne_nil _ c.method h1, extract_of_ne_nil _ c.path h2]
      rw [if_neg hc, if_neg hc]
      exact ⟨_, _, _, h1, h2, rfl, rfl⟩


/-- The answer of `prepare_response` does not depend on the `keep_alive` and
`status_code` left in the connection, and depends on the `file_size` and
`file_offset` left in it only through these two fields of an error answer. -/
theorem prepare_response_residual (x : Connection) (cfg : ServerConfig) (w : World)
    (a o : Int) (k : Bool) (s : Int) :
    (prepare_response
        { x with file_size := a, file_offset := o, keep_alive := k, status_code := s }
        cfg w).2 = (prepare_response x cfg w).2 ∧
    (∃ a2 o2, (prepare_response
        { x with file_size := a, file_offset := o, keep_alive := k, status_code := s }
        cfg w).1 =
      { (prepare_response x cfg w).1 with file_size := a2, file_offset := o2 }) ∧
    ((prepare_response x cfg w).1.status_code = 200 →
      (prepare_response
        { x with file_size := a, file_offset := o, keep_alive := k, status_code := s }
        cfg w).1 = (prepare_response x cfg w).1) := by
  unfold prepare_response sys_stat sys_open error_reply
  dsimp only
  by_cases h1 : upper x.method ≠ "GET".toList ∧ upper x.method ≠ "HEAD".toList
  · rw [if_pos h1, if_pos h1]
    exact ⟨rfl, ⟨_, _, rfl⟩, fun h => by dsimp only at h; omega⟩
  · rw [if_neg h1, if_neg h1]
    by_cases h2 : contains_dotdot (normalize_target x.path) = true
    · rw [if_pos h2, if_pos h2]
      exact ⟨rfl, ⟨_, _, rfl⟩, fun h => by dsimp only at h; omega⟩
    · rw [if_neg h2, if_neg h2]
      cases hs : w.fs_stat (cfg.doc_root ++ normalize_target x.path) with
      | none =>
        exact ⟨rfl, ⟨_, _, rfl⟩, fun h => by dsimp only at h; omega⟩
      | some st =>
        dsimp only
        split_ifs <;>
          first
          | exact ⟨rfl, ⟨_, _, rfl⟩, fun _ => rfl⟩
          | exact ⟨rfl, ⟨_, _, rfl⟩, fun h => by dsimp only at h; omega⟩


/-- The connection `prepare_response` returns depends on the environment only through
the results of `stat` and `open`. -/
theorem prepare_response_fs (x : Connection) (cfg : ServerConfig) (w w0 : World)
    (h1 : w0.fs_stat = w.fs_stat) (h2 : w0.fs_open = w.fs_open) :
    (prepare_response x cfg w0).1 = (prepare_response x cfg w).1 := by
  unfold prepare_response sys_stat sys_open error_reply
  dsimp only
  rw [h1, h2]
  by_cases c1 : upper x.method ≠ "GET".toList ∧ upper x.method ≠ "HEAD".toList
  · rw [if_pos c1, if_pos c1]
  · rw [if_neg c1, if_neg c1]
    by_cases c2 : contains_dotdot (normalize_target x.path) = true
    · rw [if_pos c2, if_pos c2]
    · rw [if_neg c2, if_neg c2]
      cases hs : w.fs_stat (cfg.doc_root ++ normalize_target x.path) with
      | none => rfl
      | some st =>
        dsimp only
        split_ifs <;> rfl

theorem eager_recycled_reachable :
    Reachable keep_alive_cfg posix_open eager_recycled.1 eager_recycled.2.2 :=
  Reachable.write _ _ (eager_answered_reachable _ eager_peer_posix_open)

/-- C11 as stated fails for `file_size` and `file_offset`: on the keep-alive connection
recycled after the 200 transfer of the 10-byte `index.html`, the 404 answer to
`GET /missing.txt` keeps `file_size = 10` and `file_offset = 10`, while a fresh
connection answers with both at 0. -/
theorem recycled_error_keeps_file_size :
    Reachable keep_alive_cfg posix_open eager_recycled.1 eager_recycled.2.2 ∧
    eager_recycled.1.state = ConnState.READING_REQUEST ∧
    (parse_request { fd := eager_recycled.1.fd,
                     in_buf := "GET /missing.txt HTTP/1.1\r\n\r\n".toList }).1 = true ∧
    (prepare_response
      (parse_request { (eager_recycled.1) with
        in_buf := "GET /missing.txt HTTP/1.1\r\n\r\n".toList }).2
      keep_alive_cfg eager_recycled.2.2).1.status_code = 404 ∧
    (prepare_response
      (parse_request { (eager_recycled.1) with
        in_buf := "GET /missing.txt HTTP/1.1\r\n\r\n".toList }).2
      keep_alive_cfg eager_recycled.2.2).1.file_size = 10 ∧
    (prepare_response
      (parse_request { (eager_recycled.1) with
        in_buf := "GET /missing.txt HTTP/1.1\r\n\r\n".toList }).2
      keep_alive_cfg eager_recycled.2.2).1.file_offset = 10 ∧
    (prepare_response
      (parse_request { fd := eager_recycled.1.fd,
                       in_buf := "GET /missing.txt HTTP/1.1\r\n\r\n".toList }).2
      keep_alive_cfg eager_recycled.2.2).1.status_code = 404 ∧
    (prepare_response
      (parse_request { fd := eager_recycled.1.fd,
                       in_buf := "GET /missing.txt HTTP/1.1\r\n\r\n".toList }).2
      keep_alive_cfg eager_recycled.2.2).1.file_size = 0 ∧
    (prepare_response
      (parse_request { fd := eager_recycled.1.fd,
                       in_buf := "GET /missing.txt HTTP/1.1\r\n\r\n".toList }).2
      keep_alive_cfg eager_recycled.2.2).1.file_offset = 0 :=
  ⟨eager_recycled_reachable, by decide, by decide, by decide, by decide, by decide, by decide,
    by decide, by decide⟩


/-- C11 (amended): for a reachable connection in `READING_REQUEST` and a buffer that
`parse_request` accepts on a fresh connection, `parse_request` followed by
`prepare_response` makes the same `stat` and `open` calls and yields the same
connection as on a fresh connection with the same socket, for every environment
with the same `stat` and `open` results, in every field (so in `status_code`,
`out_buf`, `out_sent`, `head_only`) except `file_size` and `file_offset`; these two
agree as well when the status is 200. -/
theorem response_independent_of_residual_state (cfg : ServerConfig) (c : Connection)
    (w : World) (hr : Reachable cfg posix_open c w)
    (hst : c.state = ConnState.READING_REQUEST) (b : Str)
    (hwf : (parse_request { fd := c.fd, in_buf := b }).1 = true) :
    (parse_request { c with in_buf := b }).1 = true ∧
    (prepare_response (parse_request { c with in_buf := b }).2 cfg w).2 =
      (prepare_response (parse_request { fd := c.fd, in_buf := b }).2 cfg w).2 ∧
    ∀ w0 : World, w0.fs_stat = w.fs_stat → w0.fs_open = w.fs_open →
      (prepare_response (parse_request { c with in_buf := b }).2 cfg w).1 =
        { (prepare_response (parse_request { fd := c.fd, in_buf := b }).2 cfg w0).1 with
            file_size :=
              (prepare_response (parse_request { c with in_buf := b }).2 cfg w).1.file_size,
            file_offset :=
              (prepare_response (parse_request { c with in_buf := b }).2 cfg w).1.file_offset } ∧
      ((prepare_response (parse_request { fd := c.fd, in_buf := b }).2 cfg w0).1.status_code
          = 200 →
        (prepare_response (parse_request { c with in_buf := b }).2 cfg w).1 =
          (prepare_response (parse_request { fd := c.fd, in_buf := b }).2 cfg w0).1) := by
  obtain ⟨hob, hos, -, -⟩ := reading_is_clean cfg _ c w hr hst
  have hfd := (file_handle_invariant cfg c w hr).2.1 hst
  obtain ⟨m, p, ho, -, -, e1, e2⟩ := parse_request_fresh c c.fd b hwf
  rw [e1, e2]
  have hc : ({ c with in_buf := b, method := m, path := p, head_only := ho } : Connection) =
      { ({ fd := c.fd, in_buf := b, method := m, path := p, head_only := ho } : Connection) with
          file_size := c.file_size, file_offset := c.file_offset, keep_alive := c.keep_alive,
          status_code := c.status_code } := by
    obtain ⟨fd, st, ib, ob, os, ffd, fo, fs, ka, h, sc, me, pa⟩ := c
    dsimp only at hst hob hos hfd ⊢
    subst hst hob hos hfd
    rfl
  dsimp only
  rw [hc]
  obtain ⟨r1, ⟨a2, o2, r2⟩, r3⟩ := prepare_response_residual
    { fd := c.fd, in_buf := b, method := m, path := p, head_only := ho } cfg w
    c.file_size c.file_offset c.keep_alive c.status_code
  refine ⟨rfl, r1, ?_⟩
  intro w0 h1 h2
  rw [prepare_response_fs _ cfg w w0 h1 h2]
  refine ⟨?_, r3⟩
  rw [r2]

/-- C11 (amended) at the keep-alive connection of `eager_peer` recycled after its 200
transfer, for a second `GET /index.html`. -/
theorem response_independent_of_residual_state_witness :
    Reachable keep_alive_cfg posix_open eager_recycled.1 eager_recycled.2.2 ∧
    eager_recycled.1.state = ConnState.READING_REQUEST ∧
    (parse_request { fd := eager_recycled.1.fd,
                     in_buf := "GET /index.html HTTP/1.1\r\n\r\n".toList }).1 = true ∧
    (prepare_response
      (parse_request { (eager_recycled.1) with
        in_buf := "GET /index.html HTTP/1.1\r\n\r\n".toList }).2
      keep_alive_cfg eager_recycled.2.2).1 =
    (prepare_response
      (parse_request { fd := eager_recycled.1.fd,
                       in_buf := "GET /index.html HTTP/1.1\r\n\r\n".toList }).2
      keep_alive_cfg index_only).1 :=
  ⟨eager_recycled_reachable, by decide, by decide,
    ((response_independent_of_residual_state keep_alive_cfg eager_recycled.1
      eager_recycled.2.2 eager_recycled_reachable (by decide)
      "GET /index.html HTTP/1.1\r\n\r\n".toList (by decide)).2.2 index_only rfl rfl).2
      (by decide)⟩

/-! ## Handlers act only in their own states -/

theorem handle_write_of_not_sending (conn : Connection) (w : World)
    (h1 : conn.state ≠ ConnState.SENDING_HEADERS) (h2 : conn.state ≠ ConnState.SENDING_BODY) :
    handle_write conn w = (conn, false, w) := by
  unfold handle_write
  rw [if_pos ⟨h1, h2⟩]

/-- The result of `handle_write` when a `send` of the drain loop fails. -/
theorem handle_write_failed (conn : Connection) (w : World)
    (hst : conn.state = ConnState.SENDING_HEADERS ∨ conn.state = ConnState.SENDING_BODY)
    (hd : (drain_out_buf (conn.out_buf.length - conn.out_sent) conn w).1 = Drain.failed) :
    handle_write conn w =
      ((drain_out_buf (conn.out_buf.length - conn.out_sent) conn w).2.1, true,
        (drain_out_buf (conn.out_buf.length - conn.out_sent) conn w).2.2) := by
  unfold handle_write
  rw [if_neg (by rcases hst with h | h <;> rw [h] <;> decide)]
  generalize drain_out_buf (conn.out_buf.length - conn.out_sent) conn w = D at hd ⊢
  obtain ⟨d, c2, w2⟩ := D
  dsimp only at hd
  subst hd
  rfl

/-- No state reachable from a fresh connection is `PREPARING_RESPONSE`. -/
theorem reachable_not_preparing (cfg : ServerConfig) (env : World → Prop) (c : Connection)
    (w : World) (hr : Reachable cfg env c w) : c.state ≠ ConnState.PREPARING_RESPONSE := by
  have key := reachable_invariant cfg (fun _ => True)
    (fun c _ => c.state ≠ ConnState.PREPARING_RESPONSE)
    (fun _ _ _ _ => trivial)
    (fun fd w _ _ => by intro hc; cases hc)
    (fun c w w2 hi _ _ => hi)
    (fun c w b w2 _ hi _ _ _ => hi)
    (fun c w b m p h w2 _ _ _ _ => by intro hc; cases hc)
    (by
      intro c w b m p h w1 _ _ _ _ hc
      rw [(prepare_response_keeps _ cfg w1).2.2.2.2.2.1] at hc
      cases hc)
    (fun c w c2 w2 _ hi hw hc => hi (hw.2.2.2.2.2.2.2.2.2.2.2.2.2.2 hc))
    c w (Reachable_mono cfg env _ (fun _ _ => trivial) c w hr)
  exact key.1

theorem handle_read_not_preparing (conn : Connection) (cfg : ServerConfig) (w : World)
    (h : conn.state ≠ ConnState.PREPARING_RESPONSE) :
    (handle_read conn cfg w).1.state ≠ ConnState.PREPARING_RESPONSE := by
  by_cases hst : conn.state = ConnState.READING_REQUEST
  · rw [handle_read_of_reading conn cfg w hst]
    rcases handle_read_loop_effect cfg (16 * 1024 - conn.in_buf.length + 1) conn w with
      ⟨a1, -⟩ | ⟨m, p, ho, a1, -⟩ | ⟨b, m, p, ho, w1, -, -, a1, -⟩
    · rw [a1]; exact h
    · rw [a1]; intro hc; cases hc
    · rw [a1, (prepare_response_keeps _ cfg w1).2.2.2.2.2.1]; intro hc; cases hc
  · rw [handle_read_of_not_reading conn cfg w hst]; exact h


/-- C21: a connection that is not in `READING_REQUEST` is returned by `handle_read`
unchanged, with `want_close = false` and the environment untouched (no `recv`); a
connection that is in neither `SENDING_HEADERS` nor `SENDING_BODY` is returned by
`handle_write` unchanged, with `want_close = false` and the environment untouched
(no `send`). So a connection in `CLOSING` stays in `CLOSING` under both handlers;
no handler moves a connection to `PREPARING_RESPONSE`, and no state reachable from
a fresh connection is `PREPARING_RESPONSE`. -/
theorem handlers_act_only_in_their_states (cfg : ServerConfig) (conn : Connection)
    (w : World) :
    (conn.state ≠ ConnState.READING_REQUEST → handle_read conn cfg w = (conn, false, w)) ∧
    (conn.state ≠ ConnState.SENDING_HEADERS → conn.state ≠ ConnState.SENDING_BODY →
      handle_write conn w = (conn, false, w)) ∧
    (conn.state = ConnState.CLOSING →
      handle_read conn cfg w = (conn, false, w) ∧ handle_write conn w = (conn, false, w)) ∧
    (conn.state ≠ ConnState.PREPARING_RESPONSE →
      (handle_read conn cfg w).1.state ≠ ConnState.PREPARING_RESPONSE ∧
      (handle_write conn w).1.state ≠ ConnState.PREPARING_RESPONSE) ∧
    (∀ env : World → Prop, Reachable cfg env conn w →
      conn.state ≠ ConnState.PREPARING_RESPONSE ∧
      (handle_read conn cfg w).1.state ≠ ConnState.PREPARING_RESPONSE ∧
      (handle_write conn w).1.state ≠ ConnState.PREPARING_RESPONSE) := by
  refine ⟨handle_read_of_not_reading conn cfg w, handle_write_of_not_sending conn w, ?_, ?_, ?_⟩
  · intro h
    exact ⟨handle_read_of_not_reading conn cfg w (by rw [h]; decide),
      handle_write_of_not_sending conn w (by rw [h]; decide) (by rw [h]; decide)⟩
  · intro h
    exact ⟨handle_read_not_preparing conn cfg w h,
      fun hc => h ((handle_write_wrote conn w).2.2.2.2.2.2.2.2.2.2.2.2.2.2 hc)⟩
  · intro env hr
    exact ⟨reachable_not_preparing cfg env conn w hr,
      reachable_not_preparing cfg env _ _ (Reachable.read conn w hr),
      reachable_not_preparing cfg env _ _ (Reachable.write conn w hr)⟩

/-- C21 at `closing_conn`, which both handlers return untouched, and at the answered
connection of `eager_peer`, which `handle_read` returns untouched. -/
theorem handlers_act_only_in_their_states_witness :
    (handle_read closing_conn {} eager_peer = (closing_conn, false, eager_peer) ∧
      handle_write closing_conn eager_peer = (closing_conn, false, eager_peer)) ∧
    handle_read eager_answered.1 keep_alive_cfg eager_answered.2.2 =
      (eager_answered.1, false, eager_answered.2.2) ∧
    handle_write ({} : Connection) eager_peer = ({}, false, eager_peer) ∧
    ((handle_read eager_answered.1 keep_alive_cfg eager_answered.2.2).1.state ≠
        ConnState.PREPARING_RESPONSE ∧
      (handle_write eager_answered.1 eager_answered.2.2).1.state ≠
        ConnState.PREPARING_RESPONSE) ∧
    (eager_answered.1.state ≠ ConnState.PREPARING_RESPONSE ∧
      (handle_read eager_answered.1 keep_alive_cfg eager_answered.2.2).1.state ≠
        ConnState.PREPARING_RESPONSE ∧
      (handle_write eager_answered.1 eager_answered.2.2).1.state ≠
        ConnState.PREPARING_RESPONSE) :=
  ⟨(handlers_act_only_in_their_states {} closing_conn eager_peer).2.2.1 rfl,
    (handlers_act_only_in_their_states keep_alive_cfg eager_answered.1
      eager_answered.2.2).1 (by decide),
    (handlers_act_only_in_their_states {} {} eager_peer).2.1 (by decide) (by decide),
    (handlers_act_only_in_their_states keep_alive_cfg eager_answered.1
      eager_answered.2.2).2.2.2.1 (by decide),
    (handlers_act_only_in_their_states keep_alive_cfg eager_answered.1
      eager_answered.2.2).2.2.2.2 (fun _ => True)
      (eager_answered_reachable _ trivial)⟩

/-! ## `want_close` and `CLOSING` -/

theorem handle_read_want_close (conn : Connection) (cfg : ServerConfig) (w : World)
    (h : conn.state ≠ ConnState.CLOSING) :
    (handle_read conn cfg w).2.1 = true ↔ (handle_read conn cfg w).1.state = ConnState.CLOSING := by
  by_cases hst : conn.state = ConnState.READING_REQUEST
  · rw [handle_read_of_reading conn cfg w hst]
    rcases handle_read_loop_effect cfg (16 * 1024 - conn.in_buf.length + 1) conn w with
      ⟨a1, a2, -⟩ | ⟨m, p, ho, a1, a2, -⟩ | ⟨b, m, p, ho, w1, -, -, a1, -, a3⟩
    · rw [a2, a1]
      exact ⟨(fun hc => by cases hc), fun hc => absurd hc h⟩
    · rw [a2, a1]
      exact ⟨fun _ => rfl, fun _ => rfl⟩
    · rw [a3, a1, (prepare_response_keeps _ cfg w1).2.2.2.2.2.1]
      exact ⟨(fun hc => by cases hc), fun hc => by cases hc⟩
  · rw [handle_read_of_not_reading conn cfg w hst]
    exact ⟨(fun hc => by cases hc), fun hc => absurd hc h⟩

theorem send_body_want_close (c : Connection) (w : World)
    (hst : c.state = ConnState.SENDING_BODY) :
    (send_body c w).2.1 = true ↔ (send_body c w).1.state = ConnState.CLOSING := by
  rcases send_body_outcome c w hst with ⟨h1, h2⟩ | ⟨h1, h2⟩ | ⟨h1, h2⟩
  · rw [h1, h2]
    exact ⟨(fun hc => by cases hc), fun hc => by cases hc⟩
  · rw [h1, h2]
    cases c.keep_alive
    · exact ⟨fun _ => rfl, fun _ => rfl⟩
    · exact ⟨(fun hc => by cases hc), fun hc => by cases hc⟩
  · rw [h1, h2]
    exact ⟨fun _ => rfl, fun _ => rfl⟩

theorem handle_write_want_close (conn : Connection) (w : World)
    (h : conn.state ≠ ConnState.CLOSING) :
    (handle_write conn w).2.1 = true ↔ (handle_write conn w).1.state = ConnState.CLOSING := by
  by_cases hst : conn.state = ConnState.SENDING_HEADERS ∨ conn.state = ConnState.SENDING_BODY
  · have hne : conn.state ≠ ConnState.READING_REQUEST := by
      rcases hst with e | e <;> rw [e] <;> decide
    obtain ⟨-, -, -, -, -, -, hf, hs⟩ :=
      drain_out_buf_wrote (conn.out_buf.length - conn.out_sent) conn w hne
    cases hd : (drain_out_buf (conn.out_buf.length - conn.out_sent) conn w).1 with
    | blocked =>
      rw [handle_write_blocked conn w hst hd]
      dsimp only
      rw [hs (by rw [hd]; decide)]
      exact ⟨(fun hc => by cases hc), fun hc => absurd hc h⟩
    | failed =>
      rw [handle_write_failed conn w hst hd]
      dsimp only
      rw [hf hd]
      exact ⟨fun _ => rfl, fun _ => rfl⟩
    | drained =>
      have hs2 := hs (by rw [hd]; decide)
      rw [handle_write_drained conn w hst hd]
      by_cases h1 : conn.state = ConnState.SENDING_HEADERS
      · rw [if_pos h1]
        by_cases h2 : conn.head_only = true ∨ conn.file_size = 0 ∨ conn.file_fd < 0
        · rw [if_pos h2]
          dsimp only
          have e : ∀ (c1 c2 : Connection), c1.state = next_state (!conn.keep_alive) →
              c2.state = next_state (!conn.keep_alive) →
              ((!conn.keep_alive) = true ↔
                (if conn.file_fd ≥ 0 then c1 else c2).state = ConnState.CLOSING) := by
            intro c1 c2 e1 e2
            split
            · rw [e1]; cases conn.keep_alive <;> decide
            · rw [e2]; cases conn.keep_alive <;> decide
          exact e _ _ rfl rfl
        · rw [if_neg h2]
          exact send_body_want_close _ _ rfl
      · rw [if_neg h1]
        have h2 : conn.state = ConnState.SENDING_BODY := by
          rcases hst with e | e
          · exact absurd e h1
          · exact e
        exact send_body_want_close _ _ (hs2.trans h2)
  · have h1 : conn.state ≠ ConnState.SENDING_HEADERS := fun e => hst (Or.inl e)
    have h2 : conn.state ≠ ConnState.SENDING_BODY := fun e => hst (Or.inr e)
    rw [handle_write_of_not_sending conn w h1 h2]
    exact ⟨(fun hc => by cases hc), fun hc => absurd hc h⟩


theorem emplace_nodup (L : List Slot) (x : Slot) (h : (L.map Slot.fd).Nodup) :
    ((emplace L x).map Slot.fd).Nodup := by
  unfold emplace
  split
  · exact h
  · rename_i hany
    rw [List.map_append, List.map_singleton]
    refine List.Nodup.append h (List.nodup_singleton _) ?_
    intro fd h1 h2
    rw [List.mem_singleton] at h2
    obtain ⟨t, ht, e⟩ := List.mem_map.mp h1
    apply hany
    rw [List.any_eq_true]
    exact ⟨t, ht, by simp [e, h2]⟩

theorem emplace_mem (L : List Slot) (x y : Slot) (h : y ∈ emplace L x) : y ∈ L ∨ y = x := by
  unfold emplace at h
  split at h
  · exact Or.inl h
  · rcases List.mem_append.mp h with h | h
    · exact Or.inl h
    · exact Or.inr (List.mem_singleton.mp h)

/-- The accept loop keeps the keys distinct and admits only connections in
`READING_REQUEST`. -/
theorem accept_all_inv (acc : List (Int × World)) : ∀ L : List Slot,
    (L.map Slot.fd).Nodup → (∀ s ∈ L, s.conn.state ≠ ConnState.CLOSING) →
    ((accept_all L acc).map Slot.fd).Nodup ∧
    ∀ s ∈ accept_all L acc, s.conn.state ≠ ConnState.CLOSING := by
  induction acc with
  | nil => intro L h1 h2; exact ⟨h1, h2⟩
  | cons a rest ih =>
    intro L h1 h2
    obtain ⟨client_fd, w⟩ := a
    unfold accept_all
    split
    · exact ih L h1 h2
    · refine ih _ (emplace_nodup L _ h1) ?_
      intro s hs
      rcases emplace_mem L _ s hs with h | h
      · exact h2 s h
      · rw [h]; intro hc; cases hc

theorem dispatched_fd (cfg : ServerConfig) (rf wf : Int → Bool) (s : Slot) :
    (dispatched cfg rf wf s).fd = s.fd := by
  unfold dispatched serve_write serve_read
  split <;> split <;> rfl

/-- An entry that was not in `CLOSING` is in `CLOSING` after the two dispatch loops
exactly when one of them pushed its key on `to_close`. -/
theorem dispatched_closing (cfg : ServerConfig) (rf wf : Int → Bool) (s : Slot)
    (h : s.conn.state ≠ ConnState.CLOSING) :
    (dispatched cfg rf wf s).conn.state = ConnState.CLOSING ↔
      ((serve_read cfg rf s).2 = true ∨ (serve_write wf (serve_read cfg rf s).1).2 = true) := by
  have hr : (serve_read cfg rf s).2 = true ↔
      (serve_read cfg rf s).1.conn.state = ConnState.CLOSING := by
    unfold serve_read
    split
    · exact handle_read_want_close s.conn cfg s.world h
    · exact ⟨(fun hc => by cases hc), fun hc => absurd hc h⟩
  unfold dispatched
  generalize serve_read cfg rf s = p at hr ⊢
  by_cases hp : p.1.conn.state = ConnState.CLOSING
  · have hw : (serve_write wf p.1).1.conn.state = ConnState.CLOSING := by
      unfold serve_write
      split
      · show (handle_write p.1.conn p.1.world).1.state = _
        rw [handle_write_of_not_sending p.1.conn p.1.world (by rw [hp]; decide)
          (by rw [hp]; decide)]
        exact hp
      · exact hp
    exact ⟨fun _ => Or.inl (hr.mpr hp), fun _ => hw⟩
  · have hw : (serve_write wf p.1).2 = true ↔
        (serve_write wf p.1).1.conn.state = ConnState.CLOSING := by
      unfold serve_write
      split
      · exact handle_write_want_close p.1.conn p.1.world hp
      · exact ⟨(fun hc => by cases hc), fun hc => absurd hc hp⟩
    constructor
    · intro hc; exact Or.inr (hw.mpr hc)
    · intro hc
      rcases hc with hc | hc
      · exact absurd (hr.mp hc) hp
      · exact hw.mp hc

theorem mem_closing_keys (M : List Slot) (f : Slot → Slot × Bool) (fd : Int) :
    fd ∈ closing_keys (M.map f) ↔ ∃ s ∈ M, (f s).2 = true ∧ (f s).1.fd = fd := by
  unfold closing_keys
  rw [List.mem_filterMap]
  constructor
  · rintro ⟨p, hp, e⟩
    obtain ⟨s, hs, rfl⟩ := List.mem_map.mp hp
    by_cases h2 : (f s).2 = true
    · rw [if_pos h2] at e
      exact ⟨s, hs, h2, Option.some.inj e⟩
    · rw [if_neg h2] at e; cases e
  · rintro ⟨s, hs, h2, e⟩
    exact ⟨f s, List.mem_map.mpr ⟨s, hs, rfl⟩, by rw [if_pos h2, e]⟩

/-- With distinct keys in the map, no key on `to_close` stays live after the reap step. -/
theorem reap_live_no_key (keys : List Int) (L : List Slot) (hn : (L.map Slot.fd).Nodup)
    (y : Slot) (hy : y ∈ (reap L [] keys).1) : y.fd ∉ keys := by
  intro hk
  have hyL : y ∈ L := (reap_live_sublist keys L []).subset hy
  have hmem := reap_removes keys L [] y hn hyL hk
  have hnd := reap_nodup keys L [] (by simpa using hn)
  have h1 : y.fd ∈ (reap L [] keys).2.map Slot.fd := List.mem_map.mpr ⟨_, hmem, rfl⟩
  have h2 : y.fd ∈ (reap L [] keys).1.map Slot.fd := List.mem_map.mpr ⟨y, hy, rfl⟩
  exact (List.nodup_append.mp hnd).2.2 h1 h2


/-- The two dispatch loops followed by the reap step, on a map with distinct keys and
no connection in `CLOSING`: the keys stay distinct, no live entry is in `CLOSING`,
and every removed entry is. -/
theorem dispatch_reap (cfg : ServerConfig) (rf wf : Int → Bool) (L : List Slot)
    (hn : (L.map Slot.fd).Nodup) (hc : ∀ s ∈ L, s.conn.state ≠ ConnState.CLOSING) :
    ((reap ((((L.map (serve_read cfg rf)).map Prod.fst).map (serve_write wf)).map Prod.fst) []
        (closing_keys (L.map (serve_read cfg rf)) ++
          closing_keys (((L.map (serve_read cfg rf)).map Prod.fst).map (serve_write wf)))).1.map
      Slot.fd).Nodup ∧
    (∀ y ∈ (reap ((((L.map (serve_read cfg rf)).map Prod.fst).map (serve_write wf)).map Prod.fst)
        [] (closing_keys (L.map (serve_read cfg rf)) ++
          closing_keys (((L.map (serve_read cfg rf)).map Prod.fst).map (serve_write wf)))).1,
      y.conn.state ≠ ConnState.CLOSING) ∧
    (∀ x ∈ (reap ((((L.map (serve_read cfg rf)).map Prod.fst).map (serve_write wf)).map Prod.fst)
        [] (closing_keys (L.map (serve_read cfg rf)) ++
          closing_keys (((L.map (serve_read cfg rf)).map Prod.fst).map (serve_write wf)))).2,
      x.conn.state = ConnState.CLOSING) := by
  have e1 : (((L.map (serve_read cfg rf)).map Prod.fst).map (serve_write wf)).map Prod.fst =
      L.map (dispatched cfg rf wf) := by
    simp only [List.map_map]
    rfl
  have e2 : ((L.map (serve_read cfg rf)).map Prod.fst).map (serve_write wf) =
      L.map (fun s => serve_write wf (serve_read cfg rf s).1) := by
    simp only [List.map_map]
    rfl
  rw [e1, e2]
  have hnD : ((L.map (dispatched cfg rf wf)).map Slot.fd).Nodup := by
    rw [List.map_map]
    have : (Slot.fd ∘ dispatched cfg rf wf) = Slot.fd := by
      funext s; exact dispatched_fd cfg rf wf s
    rw [this]; exact hn
  have hkey : ∀ s ∈ L, (dispatched cfg rf wf s).conn.state = ConnState.CLOSING ↔
      s.fd ∈ closing_keys (L.map (serve_read cfg rf)) ++
        closing_keys (L.map (fun s => serve_write wf (serve_read cfg rf s).1)) := by
    intro s hs
    rw [dispatched_closing cfg rf wf s (hc s hs), List.mem_append, mem_closing_keys,
      mem_closing_keys]
    have hfr : ∀ t : Slot, (serve_read cfg rf t).1.fd = t.fd := by
      intro t; unfold serve_read; split <;> rfl
    have hfw : ∀ t : Slot, (serve_write wf (serve_read cfg rf t).1).1.fd = t.fd :=
      dispatched_fd cfg rf wf
    constructor
    · rintro (h | h)
      · exact Or.inl ⟨s, hs, h, hfr s⟩
      · exact Or.inr ⟨s, hs, h, hfw s⟩
    · rintro (⟨t, ht, h, e⟩ | ⟨t, ht, h, e⟩)
      · rw [hfr t] at e
        rw [← nodup_keys_eq hn ht hs e]; exact Or.inl h
      · rw [hfw t] at e
        rw [← nodup_keys_eq hn ht hs e]; exact Or.inr h
  refine ⟨((reap_live_sublist _ _ []).map Slot.fd).nodup hnD, ?_, ?_⟩
  · intro y hy hcl
    have hk := reap_live_no_key _ _ hnD y hy
    obtain ⟨s, hs, e⟩ := List.mem_map.mp ((reap_live_sublist _ _ []).subset hy)
    rw [← e] at hcl hk
    rw [dispatched_fd] at hk
    exact hk ((hkey s hs).mp hcl)
  · intro x hx
    rcases reap_reaped _ _ [] x hx with h | ⟨t, ht, hk, e⟩
    · cases h
    · obtain ⟨s, hs, e2⟩ := List.mem_map.mp ht
      rw [e]
      show t.conn.state = _
      rw [← e2] at hk ⊢
      rw [dispatched_fd] at hk
      exact (hkey s hs).mpr hk

/-- One iteration of the event loop keeps the keys distinct, leaves no connection in
`CLOSING` live, and removes only connections in `CLOSING`. -/
theorem worker_iteration_no_closing (listen_fd : Int) (cfg : ServerConfig) (conns : List Slot)
    (k : Readiness) (hn : (conns.map Slot.fd).Nodup)
    (hc : ∀ s ∈ conns, s.conn.state ≠ ConnState.CLOSING) :
    ((worker_iteration listen_fd cfg conns k).1.map Slot.fd).Nodup ∧
    (∀ y ∈ (worker_iteration listen_fd cfg conns k).1, y.conn.state ≠ ConnState.CLOSING) ∧
    (∀ x ∈ (worker_iteration listen_fd cfg conns k).2, x.conn.state = ConnState.CLOSING) := by
  unfold worker_iteration
  dsimp only
  split
  · exact ⟨hn, hc, fun x hx => by cases hx⟩
  · split
    · exact ⟨hn, hc, fun x hx => by cases hx⟩
    · split
      · obtain ⟨a1, a2⟩ := accept_all_inv k.accepts conns hn hc
        exact dispatch_reap cfg _ _ _ a1 a2
      · exact dispatch_reap cfg _ _ _ hn hc

theorem worker_loop_inv (listen_fd : Int) (cfg : ServerConfig) (ks : List Readiness) :
    ∀ conns : List Slot, (conns.map Slot.fd).Nodup →
    (∀ s ∈ conns, s.conn.state ≠ ConnState.CLOSING) →
    ((worker_loop listen_fd cfg conns ks).map Slot.fd).Nodup ∧
    ∀ s ∈ worker_loop listen_fd cfg conns ks, s.conn.state ≠ ConnState.CLOSING := by
  induction ks with
  | nil => intro conns hn hc; exact ⟨hn, hc⟩
  | cons k ks ih =>
    intro conns hn hc
    unfold worker_loop
    split
    · exact ⟨hn, hc⟩
    · obtain ⟨a1, a2, -⟩ := worker_iteration_no_closing listen_fd cfg conns k hn hc
      exact ih _ a1 a2


/-- C22: a call of `handle_read` or `handle_write` on a connection that is not in
`CLOSING` returns `want_close = true` exactly when it leaves the connection in
`CLOSING`, whatever the environment does. Hence an iteration of the event loop on
a map with distinct keys and no connection in `CLOSING` leaves distinct keys and no
live connection in `CLOSING`, and every entry it removes is in `CLOSING`; so after
any number of iterations from the empty map no live connection is in `CLOSING`. -/
theorem want_close_iff_closing (listen_fd : Int) (cfg : ServerConfig) :
    (∀ (conn : Connection) (w : World), conn.state ≠ ConnState.CLOSING →
      ((handle_read conn cfg w).2.1 = true ↔
        (handle_read conn cfg w).1.state = ConnState.CLOSING) ∧
      ((handle_write conn w).2.1 = true ↔
        (handle_write conn w).1.state = ConnState.CLOSING)) ∧
    (∀ (conns : List Slot) (k : Readiness), (conns.map Slot.fd).Nodup →
      (∀ s ∈ conns, s.conn.state ≠ ConnState.CLOSING) →
      ((worker_iteration listen_fd cfg conns k).1.map Slot.fd).Nodup ∧
      (∀ y ∈ (worker_iteration listen_fd cfg conns k).1, y.conn.state ≠ ConnState.CLOSING) ∧
      (∀ x ∈ (worker_iteration listen_fd cfg conns k).2, x.conn.state = ConnState.CLOSING)) ∧
    (∀ (ks : List Readiness), ∀ s ∈ worker_loop listen_fd cfg [] ks,
      s.conn.state ≠ ConnState.CLOSING) := by
  refine ⟨?_, ?_, ?_⟩
  · intro conn w h
    exact ⟨handle_read_want_close conn cfg w h, handle_write_want_close conn w h⟩
  · intro conns k hn hc
    exact worker_iteration_no_closing listen_fd cfg conns k hn hc
  · intro ks
    exact (worker_loop_inv listen_fd cfg ks [] List.nodup_nil (fun s hs => by cases hs)).2

/-- C22 at the connection of `malformed_peer`: `handle_read` closes it with
`want_close = true`, and the iteration that reads its request removes it. -/
theorem want_close_iff_closing_witness :
    (((handle_read {} {} malformed_peer).2.1 = true ↔
        (handle_read {} {} malformed_peer).1.state = ConnState.CLOSING) ∧
      ((handle_write {} malformed_peer).2.1 = true ↔
        (handle_write {} malformed_peer).1.state = ConnState.CLOSING)) ∧
    (((worker_iteration 3 {} [malformed_slot] all_ready).1.map Slot.fd).Nodup ∧
      (∀ y ∈ (worker_iteration 3 {} [malformed_slot] all_ready).1,
        y.conn.state ≠ ConnState.CLOSING) ∧
      (∀ x ∈ (worker_iteration 3 {} [malformed_slot] all_ready).2,
        x.conn.state = ConnState.CLOSING)) ∧
    (∀ s ∈ worker_loop 3 {} [] [one_arrival, all_ready], s.conn.state ≠ ConnState.CLOSING) :=
  ⟨(want_close_iff_closing 3 {}).1 {} malformed_peer (by decide),
    (want_close_iff_closing 3 {}).2.1 [malformed_slot] all_ready (by decide)
      (fun s hs => by rw [List.mem_singleton.mp hs]; decide),
    (want_close_iff_closing 3 {}).2.2 [one_arrival, all_ready]⟩

theorem malformed_slot_reaped :
    (worker_iteration 3 {} [malformed_slot] all_ready).1.map Slot.fd = [] ∧
    (worker_iteration 3 {} [malformed_slot] all_ready).2.map
      (fun x => (x.fd, x.conn.state)) = [(7, ConnState.CLOSING)] ∧
    (worker_iteration 3 {} [] one_arrival).1.map
      (fun x => (x.fd, x.conn.state)) = [(7, ConnState.READING_REQUEST)] ∧
    (worker_loop 3 {} [] [one_arrival, all_ready]).map Slot.fd = [] := by
  decide

end HttpServer
